import Mathlib

/-! ESTree: node kinds, category ranges, accessors, traversal and linearization

A shallow embedding of `hermes/AST/ESTree.h` and `hermes/AST/ESTree.cpp`.

The header expands one node schema (the list of `ESTREE_FIRST`, `ESTREE_LAST` and
`ESTREE_NODE_n_ARGS` entries) several times with different macro definitions: once to
generate the `NodeKind` enumeration, once for `getNodeName`, once for the record classes and
once for the visitor dispatch.  The embedding keeps that shape: `schema` is the entry list, in
source order, as it is seen in the default configuration (`HERMES_PARSE_JSX`,
`HERMES_PARSE_FLOW` and `HERMES_PARSE_TS` all 1, `ESTREE_DEFINE_COVER_NODES` undefined), and
everything else is computed from it.

Faulting operations (`assert`, `llvm_unreachable`, a failed `cast`) return `none`; a traversal
that reaches a fault ends in `Outcome.fault`.
-/

namespace ESTree

/-! ## The node schema -/

/-- The field types a schema entry may use. `NodeLabel` and `NodeString` are both
`UniqueString *`; `NodePtr` is `Node *`; `NodeList` is `llvh::simple_ilist<Node>`. -/
inductive ArgTy where
  | NodePtr
  | NodeList
  | NodeLabel
  | NodeString
  | NodeBoolean
  | NodeNumber
  deriving DecidableEq, Repr

/-- One `ARGnTY, ARGnNM, ARGnOPT` triple of an `ESTREE_NODE_n_ARGS` entry. -/
structure ArgSpec where
  ty : ArgTy
  name : String
  optional : Bool
  deriving DecidableEq, Repr

/-- Shorthand for one field triple. -/
def arg (ty : ArgTy) (name : String) (optional : Bool) : ArgSpec :=
  ArgSpec.mk ty name optional

/-- One entry of the schema: `ESTREE_FIRST(NAME, BASE)`, `ESTREE_LAST(NAME)` or
`ESTREE_NODE_n_ARGS(NAME, BASE, ...)`. -/
inductive Entry where
  | first (name base : String)
  | last (name : String)
  | node (name base : String) (args : List ArgSpec)
  deriving DecidableEq, Repr

/-- Kinds declared before the first category (`Empty`, `Metadata`). -/
def schemaLeading : List Entry := [
  .node "Empty" "Base" [],
  .node "Metadata" "Base" []
]

/-- The `FunctionLike` range; `ComponentDeclaration` and `HookDeclaration` sit under `#if HERMES_PARSE_FLOW`. -/
def schemaFunctionLike : List Entry := [
  .first "FunctionLike" "Base",
  .node "Program" "FunctionLike" [arg .NodeList "body" false],
  .node "FunctionExpression" "FunctionLike"
    [arg .NodePtr "id" true,
     arg .NodeList "params" false,
     arg .NodePtr "body" false,
     arg .NodePtr "typeParameters" true,
     arg .NodePtr "returnType" true,
     arg .NodePtr "predicate" true,
     arg .NodeBoolean "generator" false,
     arg .NodeBoolean "async" false],
  .node "ArrowFunctionExpression" "FunctionLike"
    [arg .NodePtr "id" true,
     arg .NodeList "params" false,
     arg .NodePtr "body" false,
     arg .NodePtr "typeParameters" true,
     arg .NodePtr "returnType" true,
     arg .NodePtr "predicate" true,
     arg .NodeBoolean "expression" false,
     arg .NodeBoolean "async" false],
  .node "FunctionDeclaration" "FunctionLike"
    [arg .NodePtr "id" true,
     arg .NodeList "params" false,
     arg .NodePtr "body" false,
     arg .NodePtr "typeParameters" true,
     arg .NodePtr "returnType" true,
     arg .NodePtr "predicate" true,
     arg .NodeBoolean "generator" false,
     arg .NodeBoolean "async" false],
  .node "ComponentDeclaration" "FunctionLike"
    [arg .NodePtr "id" false,
     arg .NodeList "params" false,
     arg .NodePtr "body" false,
     arg .NodePtr "typeParameters" true,
     arg .NodePtr "rendersType" true],
  .node "HookDeclaration" "FunctionLike"
    [arg .NodePtr "id" false,
     arg .NodeList "params" false,
     arg .NodePtr "body" false,
     arg .NodePtr "typeParameters" true,
     arg .NodePtr "returnType" true],
  .last "FunctionLike"
]

/-- The `Statement` range, with the nested `LoopStatement` range at its start. -/
def schemaStatement : List Entry := [
  .first "Statement" "Base",
  .first "LoopStatement" "Statement",
  .node "WhileStatement" "LoopStatement" [arg .NodePtr "body" false, arg .NodePtr "test" false],
  .node "DoWhileStatement" "LoopStatement" [arg .NodePtr "body" false, arg .NodePtr "test" false],
  .node "ForInStatement" "LoopStatement"
    [arg .NodePtr "left" false,
     arg .NodePtr "right" false,
     arg .NodePtr "body" false],
  .node "ForOfStatement" "LoopStatement"
    [arg .NodePtr "left" false,
     arg .NodePtr "right" false,
     arg .NodePtr "body" false,
     arg .NodeBoolean "await" false],
  .node "ForStatement" "LoopStatement"
    [arg .NodePtr "init" true,
     arg .NodePtr "test" true,
     arg .NodePtr "update" true,
     arg .NodePtr "body" false],
  .last "LoopStatement",
  .node "DebuggerStatement" "Statement" [],
  .node "EmptyStatement" "Statement" [],
  .node "BlockStatement" "Statement" [arg .NodeList "body" false],
  .node "BreakStatement" "Statement" [arg .NodePtr "label" true],
  .node "ContinueStatement" "Statement" [arg .NodePtr "label" true],
  .node "ThrowStatement" "Statement" [arg .NodePtr "argument" false],
  .node "ReturnStatement" "Statement" [arg .NodePtr "argument" true],
  .node "WithStatement" "Statement" [arg .NodePtr "object" false, arg .NodePtr "body" false],
  .node "SwitchStatement" "Statement"
    [arg .NodePtr "discriminant" false,
     arg .NodeList "cases" false],
  .node "LabeledStatement" "Statement" [arg .NodePtr "label" false, arg .NodePtr "body" false],
  .node "ExpressionStatement" "Statement"
    [arg .NodePtr "expression" false,
     arg .NodeString "directive" true],
  .node "TryStatement" "Statement"
    [arg .NodePtr "block" false,
     arg .NodePtr "handler" true,
     arg .NodePtr "finalizer" true],
  .node "IfStatement" "Statement"
    [arg .NodePtr "test" false,
     arg .NodePtr "consequent" false,
     arg .NodePtr "alternate" true],
  .last "Statement"
]

/-- Literals and expressions declared between `Statement` and `CallExpressionLike`. -/
def schemaLiterals : List Entry := [
  .node "NullLiteral" "Base" [],
  .node "BooleanLiteral" "Base" [arg .NodeBoolean "value" false],
  .node "StringLiteral" "Base" [arg .NodeString "value" false],
  .node "NumericLiteral" "Base" [arg .NodeNumber "value" false],
  .node "RegExpLiteral" "Base" [arg .NodeLabel "pattern" false, arg .NodeLabel "flags" false],
  .node "BigIntLiteral" "Base" [arg .NodeLabel "bigint" false],
  .node "ThisExpression" "Base" [],
  .node "Super" "Base" [],
  .node "SequenceExpression" "Base" [arg .NodeList "expressions" false],
  .node "ObjectExpression" "Base" [arg .NodeList "properties" false],
  .node "ArrayExpression" "Base"
    [arg .NodeList "elements" false,
     arg .NodeBoolean "trailingComma" false],
  .node "SpreadElement" "Base" [arg .NodePtr "argument" false],
  .node "NewExpression" "Base"
    [arg .NodePtr "callee" false,
     arg .NodePtr "typeArguments" true,
     arg .NodeList "arguments" false],
  .node "YieldExpression" "Base" [arg .NodePtr "argument" true, arg .NodeBoolean "delegate" true],
  .node "AwaitExpression" "Base" [arg .NodePtr "argument" false],
  .node "ImportExpression" "Base" [arg .NodePtr "source" false, arg .NodePtr "attributes" true]
]

/-- The `CallExpressionLike` range. -/
def schemaCallExpressionLike : List Entry := [
  .first "CallExpressionLike" "Base",
  .node "CallExpression" "CallExpressionLike"
    [arg .NodePtr "callee" false,
     arg .NodePtr "typeArguments" true,
     arg .NodeList "arguments" false],
  .node "OptionalCallExpression" "CallExpressionLike"
    [arg .NodePtr "callee" false,
     arg .NodePtr "typeArguments" true,
     arg .NodeList "arguments" false,
     arg .NodeBoolean "optional" false],
  .last "CallExpressionLike"
]

/-- Expressions declared between `CallExpressionLike` and `MemberExpressionLike`. -/
def schemaOperators : List Entry := [
  .node "AssignmentExpression" "Base"
    [arg .NodeLabel "operator" false,
     arg .NodePtr "left" false,
     arg .NodePtr "right" false],
  .node "UnaryExpression" "Base"
    [arg .NodeLabel "operator" false,
     arg .NodePtr "argument" false,
     arg .NodeBoolean "prefix" false],
  .node "UpdateExpression" "Base"
    [arg .NodeLabel "operator" false,
     arg .NodePtr "argument" false,
     arg .NodeBoolean "prefix" false]
]

/-- The `MemberExpressionLike` range. -/
def schemaMemberExpressionLike : List Entry := [
  .first "MemberExpressionLike" "Base",
  .node "MemberExpression" "MemberExpressionLike"
    [arg .NodePtr "object" false,
     arg .NodePtr "property" false,
     arg .NodeBoolean "computed" false],
  .node "OptionalMemberExpression" "MemberExpressionLike"
    [arg .NodePtr "object" false,
     arg .NodePtr "property" false,
     arg .NodeBoolean "computed" false,
     arg .NodeBoolean "optional" false],
  .last "MemberExpressionLike"
]

/-- Kinds declared between `MemberExpressionLike` and `Pattern`, first part. -/
def schemaMisc1 : List Entry := [
  .node "LogicalExpression" "Base"
    [arg .NodePtr "left" false,
     arg .NodePtr "right" false,
     arg .NodeLabel "operator" false],
  .node "ConditionalExpression" "Base"
    [arg .NodePtr "test" false,
     arg .NodePtr "alternate" false,
     arg .NodePtr "consequent" false],
  .node "BinaryExpression" "Base"
    [arg .NodePtr "left" false,
     arg .NodePtr "right" false,
     arg .NodeLabel "operator" false],
  .node "Directive" "Base" [arg .NodePtr "value" false],
  .node "DirectiveLiteral" "Base" [arg .NodeString "value" false],
  .node "Identifier" "Base"
    [arg .NodeLabel "name" false,
     arg .NodePtr "typeAnnotation" true,
     arg .NodeBoolean "optional" false],
  .node "PrivateName" "Base" [arg .NodePtr "id" false],
  .node "MetaProperty" "Base" [arg .NodePtr "meta" false, arg .NodePtr "property" false],
  .node "SwitchCase" "Base" [arg .NodePtr "test" true, arg .NodeList "consequent" false],
  .node "CatchClause" "Base" [arg .NodePtr "param" true, arg .NodePtr "body" false],
  .node "VariableDeclarator" "Base" [arg .NodePtr "init" true, arg .NodePtr "id" false],
  .node "VariableDeclaration" "Base"
    [arg .NodeLabel "kind" false,
     arg .NodeList "declarations" false],
  .node "TemplateLiteral" "Base" [arg .NodeList "quasis" false, arg .NodeList "expressions" false],
  .node "TaggedTemplateExpression" "Base" [arg .NodePtr "tag" false, arg .NodePtr "quasi" false],
  .node "TemplateElement" "Base"
    [arg .NodeBoolean "tail" false,
     arg .NodeString "cooked" true,
     arg .NodeLabel "raw" false],
  .node "Property" "Base"
    [arg .NodePtr "key" false,
     arg .NodePtr "value" false,
     arg .NodeLabel "kind" false,
     arg .NodeBoolean "computed" false,
     arg .NodeBoolean "method" false,
     arg .NodeBoolean "shorthand" false],
  .node "ClassDeclaration" "Base"
    [arg .NodePtr "id" true,
     arg .NodePtr "typeParameters" true,
     arg .NodePtr "superClass" true,
     arg .NodePtr "superTypeParameters" true,
     arg .NodeList "implements" false,
     arg .NodeList "decorators" false,
     arg .NodePtr "body" false],
  .node "ClassExpression" "Base"
    [arg .NodePtr "id" true,
     arg .NodePtr "typeParameters" true,
     arg .NodePtr "superClass" true,
     arg .NodePtr "superTypeParameters" true,
     arg .NodeList "implements" false,
     arg .NodeList "decorators" false,
     arg .NodePtr "body" false],
  .node "ClassBody" "Base" [arg .NodeList "body" false],
  .node "ClassProperty" "Base"
    [arg .NodePtr "key" false,
     arg .NodePtr "value" true,
     arg .NodeBoolean "computed" false,
     arg .NodeBoolean "static" false,
     arg .NodeBoolean "declare" false,
     arg .NodeBoolean "optional" false,
     arg .NodePtr "variance" true,
     arg .NodePtr "typeAnnotation" true,
     arg .NodePtr "tsModifiers" true],
  .node "ClassPrivateProperty" "Base"
    [arg .NodePtr "key" false,
     arg .NodePtr "value" true,
     arg .NodeBoolean "static" false,
     arg .NodeBoolean "declare" false,
     arg .NodeBoolean "optional" false,
     arg .NodePtr "variance" true,
     arg .NodePtr "typeAnnotation" true,
     arg .NodePtr "tsModifiers" true],
  .node "MethodDefinition" "Base"
    [arg .NodePtr "key" false,
     arg .NodePtr "value" false,
     arg .NodeLabel "kind" false,
     arg .NodeBoolean "computed" false,
     arg .NodeBoolean "static" false],
  .node "ImportDeclaration" "Base"
    [arg .NodeList "specifiers" false,
     arg .NodePtr "source" false,
     arg .NodeList "assertions" true,
     arg .NodeLabel "importKind" false],
  .node "ImportSpecifier" "Base"
    [arg .NodePtr "imported" false,
     arg .NodePtr "local" false,
     arg .NodeLabel "importKind" false],
  .node "ImportDefaultSpecifier" "Base" [arg .NodePtr "local" false],
  .node "ImportNamespaceSpecifier" "Base" [arg .NodePtr "local" false],
  .node "ImportAttribute" "Base" [arg .NodePtr "key" false, arg .NodePtr "value" false],
  .node "ExportNamedDeclaration" "Base"
    [arg .NodePtr "declaration" true,
     arg .NodeList "specifiers" false,
     arg .NodePtr "source" true,
     arg .NodeLabel "exportKind" false]
]

/-- Kinds declared between `MemberExpressionLike` and `Pattern`, second part. -/
def schemaMisc2 : List Entry := [
  .node "ExportSpecifier" "Base" [arg .NodePtr "exported" false, arg .NodePtr "local" false],
  .node "ExportNamespaceSpecifier" "Base" [arg .NodePtr "exported" false],
  .node "ExportDefaultDeclaration" "Base" [arg .NodePtr "declaration" false],
  .node "ExportAllDeclaration" "Base"
    [arg .NodePtr "source" false,
     arg .NodeLabel "exportKind" false]
]

/-- The `Pattern` range. -/
def schemaPattern : List Entry := [
  .first "Pattern" "Base",
  .node "ObjectPattern" "Pattern"
    [arg .NodeList "properties" false,
     arg .NodePtr "typeAnnotation" true],
  .node "ArrayPattern" "Pattern"
    [arg .NodeList "elements" false,
     arg .NodePtr "typeAnnotation" true],
  .node "RestElement" "Pattern" [arg .NodePtr "argument" false],
  .node "AssignmentPattern" "Pattern" [arg .NodePtr "left" false, arg .NodePtr "right" false],
  .last "Pattern"
]

/-- The `JSX` range (`#if HERMES_PARSE_JSX`). -/
def schemaJSX : List Entry := [
  .first "JSX" "Base",
  .node "JSXIdentifier" "JSX" [arg .NodeLabel "name" false],
  .node "JSXMemberExpression" "JSX" [arg .NodePtr "object" false, arg .NodePtr "property" false],
  .node "JSXNamespacedName" "JSX" [arg .NodePtr "namespace" false, arg .NodePtr "name" false],
  .node "JSXEmptyExpression" "JSX" [],
  .node "JSXExpressionContainer" "JSX" [arg .NodePtr "expression" false],
  .node "JSXSpreadChild" "JSX" [arg .NodePtr "expression" false],
  .node "JSXOpeningElement" "JSX"
    [arg .NodePtr "name" false,
     arg .NodeList "attributes" false,
     arg .NodeBoolean "selfClosing" false,
     arg .NodePtr "typeArguments" true],
  .node "JSXClosingElement" "JSX" [arg .NodePtr "name" false],
  .node "JSXAttribute" "JSX" [arg .NodePtr "name" false, arg .NodePtr "value" true],
  .node "JSXSpreadAttribute" "JSX" [arg .NodePtr "argument" false],
  .node "JSXStringLiteral" "JSX" [arg .NodeString "value" false, arg .NodeLabel "raw" false],
  .node "JSXText" "JSX" [arg .NodeString "value" false, arg .NodeLabel "raw" false],
  .node "JSXElement" "JSX"
    [arg .NodePtr "openingElement" false,
     arg .NodeList "children" false,
     arg .NodePtr "closingElement" true],
  .node "JSXFragment" "JSX"
    [arg .NodePtr "openingFragment" false,
     arg .NodeList "children" false,
     arg .NodePtr "closingFragment" false],
  .node "JSXOpeningFragment" "JSX" [],
  .node "JSXClosingFragment" "JSX" [],
  .last "JSX"
]

/-- The `Flow` range (`#if HERMES_PARSE_FLOW`), first part. -/
def schemaFlow1 : List Entry := [
  .first "Flow" "Base",
  .node "ExistsTypeAnnotation" "Flow" [],
  .node "EmptyTypeAnnotation" "Flow" [],
  .node "StringTypeAnnotation" "Flow" [],
  .node "NumberTypeAnnotation" "Flow" [],
  .node "StringLiteralTypeAnnotation" "Flow"
    [arg .NodeString "value" false,
     arg .NodeString "raw" false],
  .node "NumberLiteralTypeAnnotation" "Flow"
    [arg .NodeNumber "value" false,
     arg .NodeLabel "raw" false],
  .node "BigIntLiteralTypeAnnotation" "Flow" [arg .NodeLabel "raw" false],
  .node "BooleanTypeAnnotation" "Flow" [],
  .node "BooleanLiteralTypeAnnotation" "Flow"
    [arg .NodeBoolean "value" false,
     arg .NodeLabel "raw" false],
  .node "NullLiteralTypeAnnotation" "Flow" [],
  .node "SymbolTypeAnnotation" "Flow" [],
  .node "AnyTypeAnnotation" "Flow" [],
  .node "MixedTypeAnnotation" "Flow" [],
  .node "BigIntTypeAnnotation" "Flow" [],
  .node "VoidTypeAnnotation" "Flow" [],
  .node "FunctionTypeAnnotation" "Flow"
    [arg .NodeList "params" false,
     arg .NodePtr "this" true,
     arg .NodePtr "returnType" false,
     arg .NodePtr "rest" true,
     arg .NodePtr "typeParameters" true],
  .node "HookTypeAnnotation" "Flow"
    [arg .NodeList "params" false,
     arg .NodePtr "returnType" false,
     arg .NodePtr "rest" true,
     arg .NodePtr "typeParameters" true],
  .node "FunctionTypeParam" "Flow"
    [arg .NodePtr "name" true,
     arg .NodePtr "typeAnnotation" false,
     arg .NodeBoolean "optional" false],
  .node "ComponentTypeAnnotation" "Flow"
    [arg .NodeList "params" false,
     arg .NodePtr "rest" true,
     arg .NodePtr "typeParameters" true,
     arg .NodePtr "rendersType" true],
  .node "ComponentTypeParameter" "Flow"
    [arg .NodePtr "name" true,
     arg .NodePtr "typeAnnotation" false,
     arg .NodeBoolean "optional" false],
  .node "NullableTypeAnnotation" "Flow" [arg .NodePtr "typeAnnotation" false],
  .node "QualifiedTypeIdentifier" "Flow"
    [arg .NodePtr "qualification" false,
     arg .NodePtr "id" false],
  .node "TypeofTypeAnnotation" "Flow"
    [arg .NodePtr "argument" false,
     arg .NodePtr "typeArguments" true],
  .node "KeyofTypeAnnotation" "Flow" [arg .NodePtr "argument" false],
  .node "TypeOperator" "Flow"
    [arg .NodeLabel "operator" false,
     arg .NodePtr "typeAnnotation" false],
  .node "QualifiedTypeofIdentifier" "Flow"
    [arg .NodePtr "qualification" false,
     arg .NodePtr "id" false],
  .node "TupleTypeAnnotation" "Flow"
    [arg .NodeList "types" false,
     arg .NodeBoolean "inexact" false],
  .node "TupleTypeSpreadElement" "Flow"
    [arg .NodePtr "label" true,
     arg .NodePtr "typeAnnotation" false]
]

/-- The `Flow` range, second part. -/
def schemaFlow2 : List Entry := [
  .node "TupleTypeLabeledElement" "Flow"
    [arg .NodePtr "label" false,
     arg .NodePtr "elementType" false,
     arg .NodeBoolean "optional" false,
     arg .NodePtr "variance" true],
  .node "ArrayTypeAnnotation" "Flow" [arg .NodePtr "elementType" false],
  .node "InferTypeAnnotation" "Flow" [arg .NodePtr "typeParameter" false],
  .node "UnionTypeAnnotation" "Flow" [arg .NodeList "types" false],
  .node "IntersectionTypeAnnotation" "Flow" [arg .NodeList "types" false],
  .node "GenericTypeAnnotation" "Flow"
    [arg .NodePtr "id" false,
     arg .NodePtr "typeParameters" true],
  .node "IndexedAccessType" "Flow"
    [arg .NodePtr "objectType" false,
     arg .NodePtr "indexType" false],
  .node "OptionalIndexedAccessType" "Flow"
    [arg .NodePtr "objectType" false,
     arg .NodePtr "indexType" false,
     arg .NodeBoolean "optional" false],
  .node "ConditionalTypeAnnotation" "Flow"
    [arg .NodePtr "checkType" false,
     arg .NodePtr "extendsType" false,
     arg .NodePtr "trueType" false,
     arg .NodePtr "falseType" false],
  .node "TypePredicate" "Flow"
    [arg .NodePtr "parameterName" false,
     arg .NodePtr "typeAnnotation" true,
     arg .NodeString "kind" true],
  .node "InterfaceTypeAnnotation" "Flow" [arg .NodeList "extends" false, arg .NodePtr "body" true],
  .node "TypeAlias" "Flow"
    [arg .NodePtr "id" false,
     arg .NodePtr "typeParameters" true,
     arg .NodePtr "right" false],
  .node "OpaqueType" "Flow"
    [arg .NodePtr "id" false,
     arg .NodePtr "typeParameters" true,
     arg .NodePtr "impltype" false,
     arg .NodePtr "supertype" true],
  .node "InterfaceDeclaration" "Flow"
    [arg .NodePtr "id" false,
     arg .NodePtr "typeParameters" true,
     arg .NodeList "extends" false,
     arg .NodePtr "body" false],
  .node "DeclareTypeAlias" "Flow"
    [arg .NodePtr "id" false,
     arg .NodePtr "typeParameters" true,
     arg .NodePtr "right" false],
  .node "DeclareOpaqueType" "Flow"
    [arg .NodePtr "id" false,
     arg .NodePtr "typeParameters" true,
     arg .NodePtr "impltype" true,
     arg .NodePtr "supertype" true],
  .node "DeclareInterface" "Flow"
    [arg .NodePtr "id" false,
     arg .NodePtr "typeParameters" true,
     arg .NodeList "extends" false,
     arg .NodePtr "body" false],
  .node "DeclareClass" "Flow"
    [arg .NodePtr "id" false,
     arg .NodePtr "typeParameters" true,
     arg .NodeList "extends" false,
     arg .NodeList "implements" false,
     arg .NodeList "mixins" false,
     arg .NodePtr "body" false],
  .node "DeclareFunction" "Flow" [arg .NodePtr "id" false, arg .NodePtr "predicate" true],
  .node "DeclareHook" "Flow" [arg .NodePtr "id" false],
  .node "DeclareComponent" "Flow"
    [arg .NodePtr "id" false,
     arg .NodeList "params" false,
     arg .NodePtr "rest" true,
     arg .NodePtr "typeParameters" true,
     arg .NodePtr "rendersType" true],
  .node "DeclareVariable" "Flow" [arg .NodePtr "id" false, arg .NodeLabel "kind" false],
  .node "DeclareEnum" "Flow" [arg .NodePtr "id" false, arg .NodePtr "body" false],
  .node "DeclareExportDeclaration" "Flow"
    [arg .NodePtr "declaration" true,
     arg .NodeList "specifiers" false,
     arg .NodePtr "source" true,
     arg .NodeBoolean "default" false],
  .node "DeclareExportAllDeclaration" "Flow" [arg .NodePtr "source" false],
  .node "DeclareModule" "Flow" [arg .NodePtr "id" false, arg .NodePtr "body" false],
  .node "DeclareNamespace" "Flow" [arg .NodePtr "id" false, arg .NodePtr "body" false],
  .node "DeclareModuleExports" "Flow" [arg .NodePtr "typeAnnotation" false]
]

/-- The `Flow` range, third part. -/
def schemaFlow3 : List Entry := [
  .node "InterfaceExtends" "Flow" [arg .NodePtr "id" false, arg .NodePtr "typeParameters" true],
  .node "ClassImplements" "Flow" [arg .NodePtr "id" false, arg .NodePtr "typeParameters" true],
  .node "TypeAnnotation" "Flow" [arg .NodePtr "typeAnnotation" false],
  .node "ObjectTypeAnnotation" "Flow"
    [arg .NodeList "properties" false,
     arg .NodeList "indexers" false,
     arg .NodeList "callProperties" false,
     arg .NodeList "internalSlots" false,
     arg .NodeBoolean "inexact" false,
     arg .NodeBoolean "exact" false],
  .node "ObjectTypeProperty" "Flow"
    [arg .NodePtr "key" false,
     arg .NodePtr "value" false,
     arg .NodeBoolean "method" false,
     arg .NodeBoolean "optional" false,
     arg .NodeBoolean "static" false,
     arg .NodeBoolean "proto" false,
     arg .NodePtr "variance" true,
     arg .NodeLabel "kind" false],
  .node "ObjectTypeSpreadProperty" "Flow" [arg .NodePtr "argument" false],
  .node "ObjectTypeInternalSlot" "Flow"
    [arg .NodePtr "id" false,
     arg .NodePtr "value" false,
     arg .NodeBoolean "optional" false,
     arg .NodeBoolean "static" false,
     arg .NodeBoolean "method" false],
  .node "ObjectTypeCallProperty" "Flow"
    [arg .NodePtr "value" false,
     arg .NodeBoolean "static" false],
  .node "ObjectTypeIndexer" "Flow"
    [arg .NodePtr "id" true,
     arg .NodePtr "key" false,
     arg .NodePtr "value" false,
     arg .NodeBoolean "static" false,
     arg .NodePtr "variance" true],
  .node "ObjectTypeMappedTypeProperty" "Flow"
    [arg .NodePtr "keyTparam" false,
     arg .NodePtr "propType" false,
     arg .NodePtr "sourceType" false,
     arg .NodePtr "variance" true,
     arg .NodeString "optional" true],
  .node "Variance" "Flow" [arg .NodeLabel "kind" false],
  .node "TypeParameterDeclaration" "Flow" [arg .NodeList "params" false],
  .node "TypeParameter" "Flow"
    [arg .NodeLabel "name" false,
     arg .NodePtr "bound" true,
     arg .NodePtr "variance" true,
     arg .NodePtr "default" true,
     arg .NodeBoolean "usesExtendsBound" false],
  .node "TypeParameterInstantiation" "Flow" [arg .NodeList "params" false],
  .node "TypeCastExpression" "Flow"
    [arg .NodePtr "expression" false,
     arg .NodePtr "typeAnnotation" false],
  .node "AsExpression" "Flow"
    [arg .NodePtr "expression" false,
     arg .NodePtr "typeAnnotation" false],
  .node "AsConstExpression" "Flow" [arg .NodePtr "expression" false],
  .node "InferredPredicate" "Flow" [],
  .node "DeclaredPredicate" "Flow" [arg .NodePtr "value" false],
  .node "EnumDeclaration" "Flow" [arg .NodePtr "id" false, arg .NodePtr "body" false],
  .node "EnumStringBody" "Flow"
    [arg .NodeList "members" false,
     arg .NodeBoolean "explicitType" false,
     arg .NodeBoolean "hasUnknownMembers" false],
  .node "EnumNumberBody" "Flow"
    [arg .NodeList "members" false,
     arg .NodeBoolean "explicitType" false,
     arg .NodeBoolean "hasUnknownMembers" false],
  .node "EnumBigIntBody" "Flow"
    [arg .NodeList "members" false,
     arg .NodeBoolean "explicitType" false,
     arg .NodeBoolean "hasUnknownMembers" false],
  .node "EnumBooleanBody" "Flow"
    [arg .NodeList "members" false,
     arg .NodeBoolean "explicitType" false,
     arg .NodeBoolean "hasUnknownMembers" false],
  .node "EnumSymbolBody" "Flow"
    [arg .NodeList "members" false,
     arg .NodeBoolean "hasUnknownMembers" false],
  .node "EnumDefaultedMember" "Flow" [arg .NodePtr "id" false],
  .node "EnumStringMember" "Flow" [arg .NodePtr "id" false, arg .NodePtr "init" false],
  .node "EnumNumberMember" "Flow" [arg .NodePtr "id" false, arg .NodePtr "init" false]
]

/-- The `Flow` range, last part. -/
def schemaFlow4 : List Entry := [
  .node "EnumBigIntMember" "Flow" [arg .NodePtr "id" false, arg .NodePtr "init" false],
  .node "EnumBooleanMember" "Flow" [arg .NodePtr "id" false, arg .NodePtr "init" false],
  .node "ComponentParameter" "Flow"
    [arg .NodePtr "name" false,
     arg .NodePtr "local" false,
     arg .NodeBoolean "shorthand" false],
  .last "Flow"
]

/-- The `TS` range (`#if HERMES_PARSE_TS`), first part. -/
def schemaTS1 : List Entry := [
  .first "TS" "Base",
  .node "TSTypeAnnotation" "TS" [arg .NodePtr "typeAnnotation" false],
  .node "TSAnyKeyword" "TS" [],
  .node "TSNumberKeyword" "TS" [],
  .node "TSBooleanKeyword" "TS" [],
  .node "TSStringKeyword" "TS" [],
  .node "TSSymbolKeyword" "TS" [],
  .node "TSVoidKeyword" "TS" [],
  .node "TSUndefinedKeyword" "TS" [],
  .node "TSUnknownKeyword" "TS" [],
  .node "TSNeverKeyword" "TS" [],
  .node "TSBigIntKeyword" "TS" [],
  .node "TSThisType" "TS" [],
  .node "TSLiteralType" "TS" [arg .NodePtr "literal" false],
  .node "TSIndexedAccessType" "TS"
    [arg .NodePtr "objectType" false,
     arg .NodePtr "indexType" false],
  .node "TSArrayType" "TS" [arg .NodePtr "elementType" false],
  .node "TSTypeReference" "TS" [arg .NodePtr "typeName" false, arg .NodePtr "typeParameters" true],
  .node "TSQualifiedName" "TS" [arg .NodePtr "left" false, arg .NodePtr "right" true],
  .node "TSFunctionType" "TS"
    [arg .NodeList "params" false,
     arg .NodePtr "returnType" false,
     arg .NodePtr "typeParameters" true],
  .node "TSConstructorType" "TS"
    [arg .NodeList "params" false,
     arg .NodePtr "returnType" false,
     arg .NodePtr "typeParameters" true],
  .node "TSTypePredicate" "TS"
    [arg .NodePtr "parameterName" false,
     arg .NodePtr "typeAnnotation" false],
  .node "TSTupleType" "TS" [arg .NodeList "elementTypes" false],
  .node "TSTypeAssertion" "TS"
    [arg .NodePtr "typeAnnotation" false,
     arg .NodePtr "expression" false],
  .node "TSAsExpression" "TS"
    [arg .NodePtr "expression" false,
     arg .NodePtr "typeAnnotation" false],
  .node "TSParameterProperty" "TS"
    [arg .NodePtr "parameter" false,
     arg .NodeLabel "accessibility" true,
     arg .NodeBoolean "readonly" false,
     arg .NodeBoolean "static" false,
     arg .NodeBoolean "export" false],
  .node "TSTypeAliasDeclaration" "TS"
    [arg .NodePtr "id" false,
     arg .NodePtr "typeParameters" true,
     arg .NodePtr "typeAnnotation" false],
  .node "TSInterfaceDeclaration" "TS"
    [arg .NodePtr "id" false,
     arg .NodePtr "body" false,
     arg .NodeList "extends" false,
     arg .NodePtr "typeParameters" true],
  .node "TSInterfaceHeritage" "TS"
    [arg .NodePtr "expression" false,
     arg .NodePtr "typeParameters" true],
  .node "TSInterfaceBody" "TS" [arg .NodeList "body" false]
]

/-- The `TS` range, last part. -/
def schemaTS2 : List Entry := [
  .node "TSEnumDeclaration" "TS" [arg .NodePtr "id" false, arg .NodeList "members" false],
  .node "TSEnumMember" "TS" [arg .NodePtr "id" false, arg .NodePtr "initializer" true],
  .node "TSModuleDeclaration" "TS" [arg .NodePtr "id" false, arg .NodePtr "body" false],
  .node "TSModuleBlock" "TS" [arg .NodeList "body" false],
  .node "TSModuleMember" "TS" [arg .NodePtr "id" false, arg .NodePtr "initializer" true],
  .node "TSTypeParameterDeclaration" "TS" [arg .NodeList "params" false],
  .node "TSTypeParameter" "TS"
    [arg .NodePtr "name" false,
     arg .NodePtr "constraint" true,
     arg .NodePtr "default" true],
  .node "TSTypeParameterInstantiation" "TS" [arg .NodeList "params" false],
  .node "TSUnionType" "TS" [arg .NodeList "types" false],
  .node "TSIntersectionType" "TS" [arg .NodeList "types" false],
  .node "TSTypeQuery" "TS" [arg .NodePtr "exprName" false],
  .node "TSConditionalType" "TS"
    [arg .NodePtr "checkType" false,
     arg .NodePtr "extendsType" false,
     arg .NodePtr "trueType" false,
     arg .NodePtr "falseType" false],
  .node "TSTypeLiteral" "TS" [arg .NodeList "members" false],
  .node "TSPropertySignature" "TS"
    [arg .NodePtr "key" false,
     arg .NodePtr "typeAnnotation" true,
     arg .NodePtr "initializer" true,
     arg .NodeBoolean "optional" false,
     arg .NodeBoolean "computed" false,
     arg .NodeBoolean "readonly" false,
     arg .NodeBoolean "static" false,
     arg .NodeBoolean "export" false],
  .node "TSMethodSignature" "TS"
    [arg .NodePtr "key" false,
     arg .NodeList "params" false,
     arg .NodePtr "returnType" true,
     arg .NodeBoolean "computed" false],
  .node "TSIndexSignature" "TS"
    [arg .NodeList "parameters" false,
     arg .NodePtr "typeAnnotation" true],
  .node "TSCallSignatureDeclaration" "TS"
    [arg .NodeList "params" false,
     arg .NodePtr "returnType" true],
  .node "TSModifiers" "TS"
    [arg .NodeLabel "accessibility" false,
     arg .NodeBoolean "readonly" false],
  .last "TS"
]

/-- The `Cover` range (`#ifndef ESTREE_DEFINE_COVER_NODES`). -/
def schemaCover : List Entry := [
  .first "Cover" "Base",
  .node "CoverEmptyArgs" "Cover" [],
  .node "CoverTrailingComma" "Cover" [],
  .node "CoverInitializer" "Cover" [arg .NodePtr "init" false],
  .node "CoverRestElement" "Cover" [arg .NodePtr "rest" false],
  .node "CoverTypedIdentifier" "Cover"
    [arg .NodePtr "left" false,
     arg .NodePtr "right" true,
     arg .NodeBoolean "optional" false],
  .last "Cover"
]

/-- The whole schema, in source order. -/
def schema : List Entry :=
  schemaLeading ++ schemaFunctionLike ++ schemaStatement ++ schemaLiterals ++
  schemaCallExpressionLike ++ schemaOperators ++ schemaMemberExpressionLike ++
  schemaMisc1 ++ schemaMisc2 ++ schemaPattern ++ schemaJSX ++
  schemaFlow1 ++ schemaFlow2 ++ schemaFlow3 ++ schemaFlow4 ++
  schemaTS1 ++ schemaTS2 ++ schemaCover

/-! ## Node kinds -/

/-- The C++ `enum class NodeKind : uint32_t`: a kind is its ordinal. Every schema entry contributes one
enumerator, so the ordinal of an enumerator is the position of its entry in `schema`. -/
abbrev NodeKind := Nat

/-- The enumerator an entry expands to inside `enum class NodeKind`:
`_NAME_First`, `_NAME_Last` or `NAME`. -/
def Entry.enumerator : Entry → String
  | .first name _ => "_" ++ name ++ "_First"
  | .last name => "_" ++ name ++ "_Last"
  | .node name _ _ => name

/-- The name of a node entry; sentinels have none. -/
def Entry.nodeName : Entry → Option String
  | .node name _ _ => some name
  | _ => none

/-- A kind is concrete when its ordinal is that of an `ESTREE_NODE_n_ARGS` entry. -/
def isConcrete (kind : NodeKind) : Bool :=
  match schema[kind]? with
  | some (.node _ _ _) => true
  | _ => false

namespace NodeKind

def _FunctionLike_First : NodeKind := 2
def Program : NodeKind := 3
def FunctionExpression : NodeKind := 4
def ArrowFunctionExpression : NodeKind := 5
def FunctionDeclaration : NodeKind := 6
def ComponentDeclaration : NodeKind := 7
def HookDeclaration : NodeKind := 8
def _FunctionLike_Last : NodeKind := 9
def _Statement_First : NodeKind := 10
def _LoopStatement_First : NodeKind := 11
def WhileStatement : NodeKind := 12
def _LoopStatement_Last : NodeKind := 17
def BlockStatement : NodeKind := 20
def BreakStatement : NodeKind := 21
def ContinueStatement : NodeKind := 22
def SwitchStatement : NodeKind := 26
def LabeledStatement : NodeKind := 27
def ReturnStatement : NodeKind := 24
def IfStatement : NodeKind := 30
def _Statement_Last : NodeKind := 31
def _CallExpressionLike_First : NodeKind := 48
def CallExpression : NodeKind := 49
def OptionalCallExpression : NodeKind := 50
def _CallExpressionLike_Last : NodeKind := 51
def AssignmentExpression : NodeKind := 52
def _MemberExpressionLike_First : NodeKind := 55
def MemberExpression : NodeKind := 56
def OptionalMemberExpression : NodeKind := 57
def _MemberExpressionLike_Last : NodeKind := 58
def LogicalExpression : NodeKind := 59
def BinaryExpression : NodeKind := 61
def Identifier : NodeKind := 64
def _Pattern_First : NodeKind := 91
def ObjectPattern : NodeKind := 92
def ArrayPattern : NodeKind := 93
def RestElement : NodeKind := 94
def AssignmentPattern : NodeKind := 95
def _Pattern_Last : NodeKind := 96
def _JSX_First : NodeKind := 97
def _JSX_Last : NodeKind := 114
def _Flow_First : NodeKind := 115
def ComponentParameter : NodeKind := 202
def _Flow_Last : NodeKind := 203
def _TS_First : NodeKind := 204
def _TS_Last : NodeKind := 251
def _Cover_First : NodeKind := 252
def _Cover_Last : NodeKind := 258

end NodeKind

/-- The enumerator that `enum class NodeKind` declares at ordinal `kind`. -/
def enumeratorAt (kind : NodeKind) : Option String :=
  (schema[kind]?).map Entry.enumerator

/-- The C++ `Node::getNodeName`: the switch has one case per node entry, returning the stringified
name; every other value reaches `llvm_unreachable("invalid node kind")`. -/
def getNodeName (kind : NodeKind) : Option String :=
  match schema[kind]? with
  | some (.node name _ _) => some name
  | _ => none

/-! ## Category ranges -/

/-- The ordinal of `_NAME_First`: the position of the `ESTREE_FIRST(NAME, BASE)` entry. -/
def sentinelFirst (NAME : String) : Option NodeKind :=
  schema.findIdx? (fun e => match e with | .first n _ => n == NAME | _ => false)

/-- The ordinal of `_NAME_Last`: the position of the `ESTREE_LAST(NAME)` entry. -/
def sentinelLast (NAME : String) : Option NodeKind :=
  schema.findIdx? (fun e => match e with | .last n => n == NAME | _ => false)

/-- The C++ `NAME##Node::classof` as generated by `ESTREE_FIRST(NAME, BASE)`:
`NodeKind::_NAME_First < kind && kind < NodeKind::_NAME_Last`. -/
def categoryClassof (NAME : String) (kind : NodeKind) : Bool :=
  match sentinelFirst NAME, sentinelLast NAME with
  | some first, some last => decide (first < kind) && decide (kind < last)
  | _, _ => false

/-- The categories the schema declares, in source order. -/
def categories : List String :=
  schema.filterMap (fun e => match e with | .first n _ => some n | _ => none)

/-- The `BASE` argument of `ESTREE_FIRST(NAME, BASE)`. -/
def baseOfCategory (NAME : String) : Option String :=
  schema.findSome? (fun e =>
    match e with
    | .first n b => if n == NAME then some b else none
    | _ => none)

/-- Whether base `B` is category `C` or a category nested in `C` through at most `fuel`
`ESTREE_FIRST` links. -/
def nestedIn : Nat → String → String → Bool
  | 0, B, C => B == C
  | fuel + 1, B, C =>
    B == C ||
      match baseOfCategory B with
      | some B2 => nestedIn fuel B2 C
      | none => false

/-- A kind is declared under category `C` when its schema entry names `C`, or a category
nested in `C`, as its base. -/
def declaredUnder (C : String) (kind : NodeKind) : Bool :=
  match schema[kind]? with
  | some (.node _ b _) => nestedIn categories.length b C
  | _ => false


/-- The C++ `FunctionLikeNode::classof`. -/
def FunctionLikeNode.classof (kind : NodeKind) : Bool := categoryClassof "FunctionLike" kind

/-- The C++ `StatementNode::classof`. -/
def StatementNode.classof (kind : NodeKind) : Bool := categoryClassof "Statement" kind

/-- The C++ `LoopStatementNode::classof`. -/
def LoopStatementNode.classof (kind : NodeKind) : Bool := categoryClassof "LoopStatement" kind

/-- The C++ `CallExpressionLikeNode::classof`. -/
def CallExpressionLikeNode.classof (kind : NodeKind) : Bool :=
  categoryClassof "CallExpressionLike" kind

/-- The C++ `MemberExpressionLikeNode::classof`. -/
def MemberExpressionLikeNode.classof (kind : NodeKind) : Bool :=
  categoryClassof "MemberExpressionLike" kind

/-- The C++ `PatternNode::classof`. -/
def PatternNode.classof (kind : NodeKind) : Bool := categoryClassof "Pattern" kind

/-- The C++ `NAME##Node::classof` as generated by `ESTREE_NODE_n_ARGS`:
`V->getKind() == NodeKind::NAME`. -/
def classofKind (NAME : NodeKind) (kind : NodeKind) : Bool := kind == NAME

/-! ## Nodes -/

/-- The type `UniqueString`: an interned string; two handles are equal exactly when their strings are. -/
abbrev UniqueString := String

/-- Both `NodeLabel` and `NodeString` are `UniqueString *`; `none` is the null pointer. -/
abbrev NodeLabel := Option UniqueString

/-- The type `NodeNumber` is `double`; the embedding keeps its 64-bit pattern. -/
abbrev NodeNumber := Nat

/-- The C++ `llvh::SMLoc`: a pointer into a source buffer, 0 when invalid. -/
structure SMLoc where
  ptr : Nat := 0
  deriving DecidableEq, Repr

/-- The C++ `llvh::SMRange`. -/
structure SMRange where
  Start : SMLoc := SMLoc.mk 0
  End : SMLoc := SMLoc.mk 0
  deriving DecidableEq, Repr

/-- The C++ `enum class Strictness`. -/
inductive Strictness where
  | NotSet
  | NonStrictMode
  | StrictMode
  deriving DecidableEq, Repr

/-- The enumeration `SourceVisibility` is declared in `hermes/AST/Context.h`, which is not part of this
repository; only its `Default` enumerator is used by the node classes. -/
inductive SourceVisibility where
  | Default
  | other (tag : Nat)
  deriving DecidableEq, Repr

/-- The C++ `class FunctionLikeDecoration`. `semInfo_` is a `sem::FunctionInfo *`, 0 when null. -/
structure FunctionLikeDecoration where
  semInfo_ : Nat := 0
  strictness : Strictness := Strictness.NotSet
  sourceVisibility : SourceVisibility := SourceVisibility.Default
  isMethodDefinition : Bool := false
  deriving DecidableEq, Repr

/-- The C++ `LabelDecorationBase::INVALID_LABEL`, that is `~0u`. -/
def INVALID_LABEL : Nat := 2 ^ 32 - 1

/-- The C++ `class LabelDecorationBase`, the base of the loop, switch, break, continue and labeled
statement decorations. -/
structure LabelDecorationBase where
  labelIndex_ : Nat := INVALID_LABEL
  deriving DecidableEq, Repr

/-- The C++ `class BlockStatementDecoration`. The constructor leaves `bufferId` uninitialised; the
embedding starts it at 0. -/
structure BlockStatementDecoration where
  bufferId : Nat := 0
  isLazyFunctionBody : Bool := false
  paramYield : Bool := false
  paramAwait : Bool := false
  deriving DecidableEq, Repr

/-- The decoration a node class inherits, from its category (`NAME##Decoration` of
`ESTREE_FIRST`) or from `detail::DecoratorTrait`. All other decorations are empty classes.
`ProgramDecoration::dummyParamList` holds nodes and is kept in the node itself. -/
inductive Decoration where
  | empty
  | functionLike (d : FunctionLikeDecoration)
  | label (d : LabelDecorationBase)
  | block (d : BlockStatementDecoration)
  deriving DecidableEq, Repr

/-- The data members of `class Node`. -/
structure NodeBase where
  kind_ : NodeKind
  parens_ : Nat := 0
  sourceRange_ : SMRange := SMRange.mk (SMLoc.mk 0) (SMLoc.mk 0)
  debugLoc_ : SMLoc := SMLoc.mk 0
  deriving DecidableEq, Repr

mutual
/-- A node: the base state, its decoration, the `dummyParamList` of `ProgramDecoration`
(unused by every other class) and the values of its schema fields in declaration order.
Children are held by value, so a `Node` is always a finite tree. -/
inductive Node where
  | mk (base : NodeBase) (deco : Decoration) (dummyParamList : List Node)
      (args : List FieldVal)
/-- The value of one field: `NodePtr` (possibly null), `NodeList`, `NodeLabel` or
`NodeString` (possibly null), `NodeBoolean`, `NodeNumber`. -/
inductive FieldVal where
  | ptr (p : Option Node)
  | list (l : List Node)
  | str (s : NodeLabel)
  | boolean (b : Bool)
  | number (x : NodeNumber)
end

/-- The type `NodePtr`. -/
abbrev NodePtr := Option Node

/-- The type `NodeList`: the intrusive sibling list, as the sequence of its elements. -/
abbrev NodeList := List Node

namespace Node

def base : Node → NodeBase
  | .mk b _ _ _ => b

def deco : Node → Decoration
  | .mk _ d _ _ => d

def dummyParamList : Node → NodeList
  | .mk _ _ l _ => l

def args : Node → List FieldVal
  | .mk _ _ _ a => a

/-- The C++ `Node::getKind`. -/
def getKind (n : Node) : NodeKind := n.base.kind_

/-- The C++ `Node::getParens`. -/
def getParens (n : Node) : Nat := n.base.parens_

end Node

/-- The field list of a concrete kind, in declaration order. -/
def argSpecs (kind : NodeKind) : List ArgSpec :=
  match schema[kind]? with
  | some (.node _ _ args) => args
  | _ => []

/-- The position of the field called `name` in the record of `kind`. -/
def argIndex (kind : NodeKind) (name : String) : Option Nat :=
  (argSpecs kind).findIdx? (fun a => a.name == name)

namespace Node

/-- The member `_name` of a node, found through the schema of the node's kind. -/
def field (n : Node) (name : String) : Option FieldVal :=
  match argIndex n.getKind name with
  | some i => n.args[i]?
  | none => none

/-- A `NodePtr` member. The outer `none` means the record has no such member. -/
def ptrField (n : Node) (name : String) : Option NodePtr :=
  match n.field name with
  | some (.ptr p) => some p
  | _ => none

/-- A `NodeList` member. -/
def listField (n : Node) (name : String) : Option NodeList :=
  match n.field name with
  | some (.list l) => some l
  | _ => none

/-- A `NodeLabel` or `NodeString` member. -/
def strField (n : Node) (name : String) : Option NodeLabel :=
  match n.field name with
  | some (.str s) => some s
  | _ => none

/-- A `NodeBoolean` member. -/
def boolField (n : Node) (name : String) : Option Bool :=
  match n.field name with
  | some (.boolean b) => some b
  | _ => none

end Node

/-- The decoration a freshly constructed node of `kind` starts with. -/
def Decoration.fresh (kind : NodeKind) : Decoration :=
  if FunctionLikeNode.classof kind then Decoration.functionLike {}
  else if LoopStatementNode.classof kind || kind == NodeKind.BreakStatement ||
      kind == NodeKind.ContinueStatement || kind == NodeKind.SwitchStatement ||
      kind == NodeKind.LabeledStatement then Decoration.label {}
  else if kind == NodeKind.BlockStatement then Decoration.block {}
  else Decoration.empty

/-- Whether two decorations belong to the same decoration class. -/
def Decoration.sameClass : Decoration → Decoration → Bool
  | .empty, .empty => true
  | .functionLike _, .functionLike _ => true
  | .label _, .label _ => true
  | .block _, .block _ => true
  | _, _ => false

/-- The constructor `NAME##Node(args...)` generated by `ESTREE_NODE_n_ARGS`: the kind is set,
the fields are moved into place in order, and base state and decoration take their default
member initialisers. -/
def Node.create (kind : NodeKind) (args : List FieldVal) : Node :=
  Node.mk { kind_ := kind } (Decoration.fresh kind) [] args

mutual
/-- A node is well formed when it is an instance of one of the generated record classes: its
kind is concrete, its decoration is the one of its class, only a `Program` has a non-empty
`dummyParamList`, its fields have the types the schema declares, fields the schema does not
mark optional are non-null, and all its children are well formed. -/
def Node.wf : Node → Bool
  | .mk b d dummy args =>
    isConcrete b.kind_ && d.sameClass (Decoration.fresh b.kind_) &&
      (b.kind_ == NodeKind.Program || dummy.isEmpty) && wfList dummy &&
      wfArgs (argSpecs b.kind_) args
/-- Field values against their field specifications, position by position. -/
def wfArgs : List ArgSpec → List FieldVal → Bool
  | [], [] => true
  | spec :: specs, v :: vs => wfArg spec v && wfArgs specs vs
  | _, _ => false
/-- One field value against its specification. -/
def wfArg : ArgSpec → FieldVal → Bool
  | spec, .ptr none => spec.ty == ArgTy.NodePtr && spec.optional
  | spec, .ptr (some n) => spec.ty == ArgTy.NodePtr && Node.wf n
  | spec, .list l => spec.ty == ArgTy.NodeList && wfList l
  | spec, .str none => (spec.ty == ArgTy.NodeLabel || spec.ty == ArgTy.NodeString) && spec.optional
  | spec, .str (some _) => spec.ty == ArgTy.NodeLabel || spec.ty == ArgTy.NodeString
  | spec, .boolean _ => spec.ty == ArgTy.NodeBoolean
  | spec, .number _ => spec.ty == ArgTy.NodeNumber
/-- Every element of a node list is well formed. -/
def wfList : List Node → Bool
  | [] => true
  | n :: ns => Node.wf n && wfList ns
end

/-! ## Casting -/

/-- The C++ `llvh::isa<T>(p)` on a pointer: asserts that `p` is not null, then asks `T::classof`. -/
def isa (classof : NodeKind → Bool) : NodePtr → Option Bool
  | none => none
  | some n => some (classof n.getKind)

/-- The C++ `llvh::cast<T>(p)`: asserts `isa<T>(p)`. -/
def cast (classof : NodeKind → Bool) (p : NodePtr) : Option Node :=
  match p with
  | none => none
  | some n => if classof n.getKind then some n else none

/-- The C++ `llvh::dyn_cast<T>(p)`: asserts that `p` is not null; null when `p` is not a `T`. -/
def dyn_cast (classof : NodeKind → Bool) (p : NodePtr) : Option NodePtr :=
  match p with
  | none => none
  | some n => some (if classof n.getKind then some n else none)

/-! ## Category accessors (`ESTree.cpp`) -/

/-- The C++ `NodeList &getParams(FunctionLikeNode *node)`. -/
def getParams (node : Node) : Option NodeList :=
  if node.getKind = NodeKind.FunctionExpression then
    (cast (classofKind NodeKind.FunctionExpression) (some node)).bind
      (fun n => n.listField "params")
  else if node.getKind = NodeKind.ArrowFunctionExpression then
    (cast (classofKind NodeKind.ArrowFunctionExpression) (some node)).bind
      (fun n => n.listField "params")
  else if node.getKind = NodeKind.FunctionDeclaration then
    (cast (classofKind NodeKind.FunctionDeclaration) (some node)).bind
      (fun n => n.listField "params")
  else if node.getKind = NodeKind.ComponentDeclaration then
    (cast (classofKind NodeKind.ComponentDeclaration) (some node)).bind
      (fun n => n.listField "params")
  else if node.getKind = NodeKind.HookDeclaration then
    (cast (classofKind NodeKind.HookDeclaration) (some node)).bind
      (fun n => n.listField "params")
  else if node.getKind = NodeKind.Program then
    (cast (classofKind NodeKind.Program) (some node)).map (fun n => n.dummyParamList)
  else none

/-- The C++ `BlockStatementNode *getBlockStatement(FunctionLikeNode *node)`. The outer `none` is a
fault, `some none` is the null pointer. -/
def getBlockStatement (node : Node) : Option NodePtr :=
  if node.getKind = NodeKind.FunctionExpression then
    ((cast (classofKind NodeKind.FunctionExpression) (some node)).bind
      (fun n => n.ptrField "body")).bind
      (fun body => (cast (classofKind NodeKind.BlockStatement) body).map some)
  else if node.getKind = NodeKind.FunctionDeclaration then
    ((cast (classofKind NodeKind.FunctionDeclaration) (some node)).bind
      (fun n => n.ptrField "body")).bind
      (fun body => (cast (classofKind NodeKind.BlockStatement) body).map some)
  else if node.getKind = NodeKind.ArrowFunctionExpression then
    ((cast (classofKind NodeKind.ArrowFunctionExpression) (some node)).bind
      (fun n => n.ptrField "body")).bind
      (fun body => dyn_cast (classofKind NodeKind.BlockStatement) body)
  else if node.getKind = NodeKind.ComponentDeclaration then
    ((cast (classofKind NodeKind.ComponentDeclaration) (some node)).bind
      (fun n => n.ptrField "body")).bind
      (fun body => (cast (classofKind NodeKind.BlockStatement) body).map some)
  else if node.getKind = NodeKind.HookDeclaration then
    ((cast (classofKind NodeKind.HookDeclaration) (some node)).bind
      (fun n => n.ptrField "body")).bind
      (fun body => (cast (classofKind NodeKind.BlockStatement) body).map some)
  else if node.getKind = NodeKind.Program then some none
  else none

/-- The loop of `hasSimpleParams` over the parameter list. -/
def hasSimpleParamsLoop : NodeList → Option Bool
  | [] => some true
  | param :: rest =>
    if PatternNode.classof param.getKind then some false
    else if classofKind NodeKind.ComponentParameter param.getKind then
      match (cast (classofKind NodeKind.ComponentParameter) (some param)).bind
          (fun n => n.ptrField "local") with
      | none => none
      | some loc =>
        match isa PatternNode.classof loc with
        | none => none
        | some true => some false
        | some false => hasSimpleParamsLoop rest
    else hasSimpleParamsLoop rest

/-- The C++ `bool hasSimpleParams(FunctionLikeNode *node)`. -/
def hasSimpleParams (node : Node) : Option Bool :=
  (getParams node).bind hasSimpleParamsLoop

/-- The loop of `hasParamExpressions` over the parameter list. -/
def hasParamExpressionsLoop : NodeList → Option Bool
  | [] => some false
  | param :: rest =>
    if classofKind NodeKind.AssignmentPattern param.getKind then some true
    else if classofKind NodeKind.ComponentParameter param.getKind then
      match (cast (classofKind NodeKind.ComponentParameter) (some param)).bind
          (fun n => n.ptrField "local") with
      | none => none
      | some loc =>
        match isa (classofKind NodeKind.AssignmentPattern) loc with
        | none => none
        | some true => some false
        | some false => hasParamExpressionsLoop rest
    else hasParamExpressionsLoop rest

/-- The C++ `bool hasParamExpressions(FunctionLikeNode *node)`. -/
def hasParamExpressions (node : Node) : Option Bool :=
  (getParams node).bind hasParamExpressionsLoop


/-! ## Sample nodes -/

namespace Sample

/-- Builds `IdentifierNode(name, nullptr, false)`. -/
def ident (name : String) : Node :=
  Node.create NodeKind.Identifier [.str (some name), .ptr none, .boolean false]

/-- Builds `AssignmentPatternNode(left, right)`. -/
def assignmentPattern (left right : Node) : Node :=
  Node.create NodeKind.AssignmentPattern [.ptr (some left), .ptr (some right)]

/-- Builds `ComponentParameterNode(name, local, false)`. -/
def componentParameter (name loc : Node) : Node :=
  Node.create NodeKind.ComponentParameter [.ptr (some name), .ptr (some loc), .boolean false]

/-- Builds `BlockStatementNode(body)`. -/
def block (body : NodeList) : Node :=
  Node.create NodeKind.BlockStatement [.list body]

/-- Builds `ProgramNode(body)`. -/
def program (body : NodeList) : Node :=
  Node.create NodeKind.Program [.list body]

/-- Builds `FunctionExpressionNode(nullptr, params, body, nullptr, nullptr, nullptr, false, false)`. -/
def functionExpression (params : NodeList) (body : Node) : Node :=
  Node.create NodeKind.FunctionExpression
    [.ptr none, .list params, .ptr (some body), .ptr none, .ptr none, .ptr none,
     .boolean false, .boolean false]

/-- Builds `ArrowFunctionExpressionNode(nullptr, params, body, nullptr, nullptr, nullptr, expression,
false)`. -/
def arrowFunctionExpression (params : NodeList) (body : Node) (expression : Bool) : Node :=
  Node.create NodeKind.ArrowFunctionExpression
    [.ptr none, .list params, .ptr (some body), .ptr none, .ptr none, .ptr none,
     .boolean expression, .boolean false]

/-- Builds `ComponentDeclarationNode(id, params, body, nullptr, nullptr)`. -/
def componentDeclaration (id : Node) (params : NodeList) (body : Node) : Node :=
  Node.create NodeKind.ComponentDeclaration
    [.ptr (some id), .list params, .ptr (some body), .ptr none, .ptr none]

/-- Builds `BinaryExpressionNode(left, right, operator)`. -/
def binaryExpression (left right : Node) (op : String) : Node :=
  Node.create NodeKind.BinaryExpression [.ptr (some left), .ptr (some right), .str (some op)]

/-- Builds `AssignmentExpressionNode(operator, left, right)`. -/
def assignmentExpression (op : String) (left right : Node) : Node :=
  Node.create NodeKind.AssignmentExpression [.str (some op), .ptr (some left), .ptr (some right)]

/-- A component whose first parameter wraps a default value and whose second parameter is a
plain `AssignmentPattern`. -/
def componentWithDefaults : Node :=
  componentDeclaration (ident "C")
    [componentParameter (ident "a") (assignmentPattern (ident "a") (ident "x")),
     assignmentPattern (ident "b") (ident "y")]
    (block [])

/-- A function expression whose body is an identifier instead of a block. -/
def functionWithIdentifierBody : Node :=
  functionExpression [] (ident "x")

end Sample


/-! ## Expression linearization -/

/-- The C++ `MAX_NESTED_ASSIGNMENTS`. -/
def MAX_NESTED_ASSIGNMENTS : Nat := 30000

/-- The C++ `MAX_NESTED_BINARY`. -/
def MAX_NESTED_BINARY : Nat := 30000

/-- The C++ `checkExprOperator<N>(e, ops)`: `dyn_cast<N>(e)`, then `std::find` of the node's
`_operator` string among `ops`. The outer `none` is a fault (null `e`, or a null `_operator`),
`some none` is the null result. `N` is given by its kind. -/
def checkExprOperator (N : NodeKind) (e : NodePtr) (ops : List String) : Option NodePtr :=
  match dyn_cast (classofKind N) e with
  | none => none
  | some none => some none
  | some (some n) =>
    match n.strField "operator" with
    | some (some op) => if op ∈ ops then some (some n) else some none
    | _ => none

/-- The record classes `linearizeLeft<N>` and `linearizeRight<N>` can be instantiated with:
those that have the members `_left`, `_right` and `_operator`. -/
def hasExprMembers (N : NodeKind) : Bool :=
  (argIndex N "left").isSome && (argIndex N "right").isSome && (argIndex N "operator").isSome

mutual
/-- The number of nodes of a tree, `dummyParamList` included. -/
def Node.size : Node → Nat
  | .mk _ _ dummy args => 1 + sizeList dummy + sizeArgs args
/-- The number of nodes below a field list. -/
def sizeArgs : List FieldVal → Nat
  | [] => 0
  | v :: vs => sizeArg v + sizeArgs vs
/-- The number of nodes below one field. -/
def sizeArg : FieldVal → Nat
  | .ptr none => 0
  | .ptr (some n) => Node.size n
  | .list l => sizeList l
  | .str _ => 0
  | .boolean _ => 0
  | .number _ => 0
/-- The number of nodes of a node list. -/
def sizeList : List Node → Nat
  | [] => 0
  | n :: ns => Node.size n + sizeList ns
end

/-- The `while` loop of `linearizeLeft`: one unit of fuel per iteration, `e` the current node
and `vec` the vector built so far. Every iteration moves to a child, so `e.size` units are
always enough (`linearizeLeftLoop_fuel`); the `none` of the first equation is never reached
from `linearizeLeft`. -/
def linearizeLeftLoop (N : NodeKind) (ops : List String) :
    Nat → Node → List Node → Option (List Node)
  | 0, _, _ => none
  | fuel + 1, e, vec =>
    match e.ptrField "left" with
    | none => none
    | some l =>
      match checkExprOperator N l ops with
      | none => none
      | some none => some vec
      | some (some left) => linearizeLeftLoop N ops fuel left (vec ++ [left])

/-- The C++ `linearizeLeft<N>(e, ops)`: push `e`, run the loop down the `_left` chain, reverse. -/
def linearizeLeft (N : NodeKind) (e : Node) (ops : List String) : Option (List Node) :=
  (linearizeLeftLoop N ops e.size e [e]).map List.reverse

/-- The `while` loop of `linearizeRight`, with fuel as in `linearizeLeftLoop`. -/
def linearizeRightLoop (N : NodeKind) (ops : List String) :
    Nat → Node → List Node → Option (List Node)
  | 0, _, _ => none
  | fuel + 1, e, vec =>
    match e.ptrField "right" with
    | none => none
    | some r =>
      match checkExprOperator N r ops with
      | none => none
      | some none => some vec
      | some (some right) => linearizeRightLoop N ops fuel right (vec ++ [right])

/-- The C++ `linearizeRight<N>(e, ops)`: push `e`, run the loop down the `_right` chain. -/
def linearizeRight (N : NodeKind) (e : Node) (ops : List String) : Option (List Node) :=
  linearizeRightLoop N ops e.size e [e]

namespace Sample

/-- The expression `((a + b) - c) + d`. -/
def sumInner : Node := binaryExpression (ident "a") (ident "b") "+"

def sumMiddle : Node := binaryExpression sumInner (ident "c") "-"

def sumOuter : Node := binaryExpression sumMiddle (ident "d") "+"

/-- The expression `a = (b = (c = d))`. -/
def assignInner : Node := assignmentExpression "=" (ident "c") (ident "d")

def assignMiddle : Node := assignmentExpression "=" (ident "b") assignInner

def assignOuter : Node := assignmentExpression "=" (ident "a") assignMiddle

end Sample

/-! ## Predicates used to state the linearization results -/

/-- Node `c` is of form `N` and its operator is one of `ops`: the condition under which
`checkExprOperator<N>` returns `c` itself. -/
def matchesOps (N : NodeKind) (ops : List String) (c : Node) : Prop :=
  c.getKind = N ∧ ∃ op, c.strField "operator" = some (some op) ∧ op ∈ ops

/-- The list `chain` is the run of nodes met below `e` along the member `side` (`"left"` or
`"right"`): each is the `side` child of the one before and matches, and the `side` child of
the last one does not match. -/
def isSpine (N : NodeKind) (ops : List String) (side : String) : Node → List Node → Prop
  | e, [] => ∃ l, e.ptrField side = some (some l) ∧ ¬ matchesOps N ops l
  | e, c :: cs => e.ptrField side = some (some c) ∧ matchesOps N ops c ∧ isSpine N ops side c cs


/-! ## The visitor -/

/-- A visitor class: state of type `σ` and the three member functions the traversal calls.
`shouldVisit` is not `const`, so it returns the new state together with its answer. -/
structure Visitor (σ : Type) where
  shouldVisit : σ → Node → Bool × σ
  enter : σ → Node → σ
  leave : σ → Node → σ

/-- How a traversal ends: it returns, or it reaches `llvm_unreachable("invalid node kind")` in
the dispatcher. Either way the visitor state reached so far is kept. -/
inductive Outcome (σ : Type) where
  | done (s : σ)
  | fault (s : σ)

/-- The visitor state an outcome carries. -/
def Outcome.state {σ : Type} : Outcome σ → σ
  | .done s => s
  | .fault s => s

/-- Whether the traversal returned. -/
def Outcome.isDone {σ : Type} : Outcome σ → Bool
  | .done _ => true
  | .fault _ => false

mutual
/-- The C++ `ESTreeVisit(V, NodePtr)` on a non-null node. The `switch` has a case for each concrete
kind, which calls `cast<NAME##Node>(Node)->visit(V)`; `visit`, generated by
`ESTREE_NODE_n_ARGS`, asks `shouldVisit`, and if the answer is yes calls `enter`, visits the
fields in declaration order and calls `leave`. Any other kind is a fault. -/
def visitNode {σ : Type} (V : Visitor σ) : σ → Node → Outcome σ
  | s, .mk b d dummy args =>
    if isConcrete b.kind_ then
      if (V.shouldVisit s (.mk b d dummy args)).1 then
        match visitArgs V (V.enter (V.shouldVisit s (.mk b d dummy args)).2 (.mk b d dummy args))
            args with
        | .done s2 => .done (V.leave s2 (.mk b d dummy args))
        | .fault s2 => .fault s2
      else .done (V.shouldVisit s (.mk b d dummy args)).2
    else .fault s
/-- The run of `ESTreeVisit(V, _field)` calls inside `visit`. -/
def visitArgs {σ : Type} (V : Visitor σ) : σ → List FieldVal → Outcome σ
  | s, [] => .done s
  | s, v :: vs =>
    match visitArg V s v with
    | .done s2 => visitArgs V s2 vs
    | .fault s2 => .fault s2
/-- The C++ `ESTreeVisit(V, field)`, by the type of the field: the `NodePtr` overload returns at once
on a null pointer, the `NodeList` overload visits the elements, the label, boolean and number
overloads do nothing. -/
def visitArg {σ : Type} (V : Visitor σ) : σ → FieldVal → Outcome σ
  | s, .ptr none => .done s
  | s, .ptr (some n) => visitNode V s n
  | s, .list l => visitList V s l
  | s, .str _ => .done s
  | s, .boolean _ => .done s
  | s, .number _ => .done s
/-- The C++ `ESTreeVisit(V, NodeList &)`: every element, in list order. -/
def visitList {σ : Type} (V : Visitor σ) : σ → List Node → Outcome σ
  | s, [] => .done s
  | s, n :: ns =>
    match visitNode V s n with
    | .done s2 => visitList V s2 ns
    | .fault s2 => .fault s2
end

/-- The C++ `ESTreeVisit(V, NodePtr)`. -/
def ESTreeVisit {σ : Type} (V : Visitor σ) (s : σ) : NodePtr → Outcome σ
  | none => .done s
  | some n => visitNode V s n

/-! ## Observing a traversal -/

/-- A call the traversal makes on the visitor. -/
inductive Event where
  | shouldVisit (n : Node) (answer : Bool)
  | enter (n : Node)
  | leave (n : Node)

/-- The node a call is about. -/
def Event.node : Event → Node
  | .shouldVisit n _ => n
  | .enter n => n
  | .leave n => n

/-- The visitor that behaves as `V` and keeps a log of the calls it receives. -/
def instrument {σ : Type} (V : Visitor σ) : Visitor (σ × List Event) where
  shouldVisit := fun s n =>
    ((V.shouldVisit s.1 n).1,
      ((V.shouldVisit s.1 n).2, s.2 ++ [Event.shouldVisit n (V.shouldVisit s.1 n).1]))
  enter := fun s n => (V.enter s.1 n, s.2 ++ [Event.enter n])
  leave := fun s n => (V.leave s.1 n, s.2 ++ [Event.leave n])

/-- The nodes `enter` was called on, in call order. -/
def enters : List Event → List Node
  | [] => []
  | .enter n :: rest => n :: enters rest
  | _ :: rest => enters rest

mutual
/-- The nodes of a tree in depth-first pre-order: the node, then the subtrees under its
child-pointer and child-list fields, fields in declaration order and list elements in list
order. `dummyParamList` is not a field and is not included. -/
def preorder : Node → List Node
  | .mk b d dummy args => .mk b d dummy args :: preorderArgs args
/-- Pre-order of the subtrees under a field list. -/
def preorderArgs : List FieldVal → List Node
  | [] => []
  | v :: vs => preorderArg v ++ preorderArgs vs
/-- Pre-order of the subtrees under one field. -/
def preorderArg : FieldVal → List Node
  | .ptr none => []
  | .ptr (some n) => preorder n
  | .list l => preorderList l
  | .str _ => []
  | .boolean _ => []
  | .number _ => []
/-- Pre-order of the trees of a node list. -/
def preorderList : List Node → List Node
  | [] => []
  | n :: ns => preorder n ++ preorderList ns
end

/-- A visitor without state whose `shouldVisit` is the predicate `p`. -/
def predicateVisitor (p : Node → Bool) : Visitor Unit where
  shouldVisit := fun s n => (p n, s)
  enter := fun s _ => s
  leave := fun s _ => s

namespace Sample

/-- Builds `IfStatementNode(test, consequent, nullptr)` with a block holding one statement. -/
def ifStatement : Node :=
  Node.create NodeKind.IfStatement
    [.ptr (some (ident "t")),
     .ptr (some (block [Node.create NodeKind.ReturnStatement [.ptr (some (ident "r"))]])),
     .ptr none]

end Sample

/-! ## Predicates used to state the traversal results -/

/-- A list of nodes that contains, with each node, the whole subtree below it. -/
def SubtreeClosed (ns : List Node) : Prop :=
  ∀ m ∈ ns, ∀ c ∈ preorder m, c ∈ ns

/-- A log that only speaks of nodes of `ns` and in which, provided the nodes of `ns` are
pairwise distinct, no node of a subtree whose root was refused by `shouldVisit` is entered or
left. -/
def PrunedLog (ns : List Node) (ev : List Event) : Prop :=
  (∀ e ∈ ev, e.node ∈ ns) ∧
  (ns.Nodup → ∀ m, Event.shouldVisit m false ∈ ev →
    ∀ c ∈ preorder m, Event.enter c ∉ ev ∧ Event.leave c ∉ ev)

namespace Sample

/-- The block inside `ifStatement`. -/
def ifBlock : Node :=
  block [Node.create NodeKind.ReturnStatement [.ptr (some (ident "r"))]]

/-- A visitor that refuses block statements. -/
def skipBlocks : Visitor Unit :=
  predicateVisitor (fun n => n.getKind != NodeKind.BlockStatement)

end Sample


/-! ## Tools for checking the schema in one pass

These definitions are not part of the program; the proofs about the schema use them to keep
the amount of evaluation small. -/

/-- Checks that `P i e` holds for every entry `e` of the list, `i` counting its position from `start`. -/
def allEntriesFrom (P : Nat → Entry → Bool) : Nat → List Entry → Bool
  | _, [] => true
  | i, e :: es => P i e && allEntriesFrom P (i + 1) es

/-- A string as a number: its characters as base-256 digits. -/
def nameKey (s : String) : Nat :=
  s.data.foldl (fun acc c => 256 * acc + c.toNat) 0

/-- A binary search tree of numbers. -/
inductive KeyTree where
  | leaf
  | node (l : KeyTree) (key : Nat) (r : KeyTree)

/-- The keys of a tree, left to right. -/
def KeyTree.keys : KeyTree → List Nat
  | .leaf => []
  | .node l key r => l.keys ++ key :: r.keys

/-- The search-tree invariant. -/
def KeyTree.Ordered : KeyTree → Prop
  | .leaf => True
  | .node l key r =>
    (∀ x ∈ l.keys, x < key) ∧ (∀ x ∈ r.keys, key < x) ∧ l.Ordered ∧ r.Ordered

/-- Insert a key; `none` when the key is already in the tree. -/
def KeyTree.insert : KeyTree → Nat → Option KeyTree
  | .leaf, k => some (.node .leaf k .leaf)
  | .node l key r, k =>
    if k < key then (l.insert k).map (fun l2 => .node l2 key r)
    else if key < k then (r.insert k).map (fun r2 => .node l key r2)
    else none

/-- Insert the keys one after another; `none` as soon as one is already there. -/
def KeyTree.insertAll : List Nat → KeyTree → Option KeyTree
  | [], t => some t
  | k :: ks, t =>
    match t.insert k with
    | some t2 => KeyTree.insertAll ks t2
    | none => none

/-- No two fields of a record have the same name. -/
def namesDistinct : List ArgSpec → Bool
  | [] => true
  | a :: rest => rest.all (fun b => !(b.name == a.name)) && namesDistinct rest


/-! ## Function, member and call accessors (`ESTree.cpp`, continued) -/

/-- The C++ `bool isGenerator(FunctionLikeNode *node)`. -/
def isGenerator (node : Node) : Option Bool :=
  if node.getKind = NodeKind.FunctionExpression then
    (cast (classofKind NodeKind.FunctionExpression) (some node)).bind
      (fun n => n.boolField "generator")
  else if node.getKind = NodeKind.ArrowFunctionExpression then some false
  else if node.getKind = NodeKind.FunctionDeclaration then
    (cast (classofKind NodeKind.FunctionDeclaration) (some node)).bind
      (fun n => n.boolField "generator")
  else if node.getKind = NodeKind.ComponentDeclaration then some false
  else if node.getKind = NodeKind.HookDeclaration then some false
  else if node.getKind = NodeKind.Program then some false
  else none

/-- The C++ `bool isAsync(FunctionLikeNode *node)`. -/
def isAsync (node : Node) : Option Bool :=
  if node.getKind = NodeKind.FunctionExpression then
    (cast (classofKind NodeKind.FunctionExpression) (some node)).bind
      (fun n => n.boolField "async")
  else if node.getKind = NodeKind.ArrowFunctionExpression then
    (cast (classofKind NodeKind.ArrowFunctionExpression) (some node)).bind
      (fun n => n.boolField "async")
  else if node.getKind = NodeKind.FunctionDeclaration then
    (cast (classofKind NodeKind.FunctionDeclaration) (some node)).bind
      (fun n => n.boolField "async")
  else if node.getKind = NodeKind.ComponentDeclaration then some false
  else if node.getKind = NodeKind.HookDeclaration then some false
  else if node.getKind = NodeKind.Program then some false
  else none

/-- The C++ `Node *getObject(MemberExpressionLikeNode *node)`. The outer `none` is the
`llvm_unreachable` after the switch, `some none` a null `_object`. -/
def getObject (node : Node) : Option NodePtr :=
  if node.getKind = NodeKind.MemberExpression then
    (cast (classofKind NodeKind.MemberExpression) (some node)).bind
      (fun n => n.ptrField "object")
  else if node.getKind = NodeKind.OptionalMemberExpression then
    (cast (classofKind NodeKind.OptionalMemberExpression) (some node)).bind
      (fun n => n.ptrField "object")
  else none

/-- The C++ `Node *getProperty(MemberExpressionLikeNode *node)`. -/
def getProperty (node : Node) : Option NodePtr :=
  if node.getKind = NodeKind.MemberExpression then
    (cast (classofKind NodeKind.MemberExpression) (some node)).bind
      (fun n => n.ptrField "property")
  else if node.getKind = NodeKind.OptionalMemberExpression then
    (cast (classofKind NodeKind.OptionalMemberExpression) (some node)).bind
      (fun n => n.ptrField "property")
  else none

/-- The C++ `NodeBoolean getComputed(MemberExpressionLikeNode *node)`. -/
def getComputed (node : Node) : Option Bool :=
  if node.getKind = NodeKind.MemberExpression then
    (cast (classofKind NodeKind.MemberExpression) (some node)).bind
      (fun n => n.boolField "computed")
  else if node.getKind = NodeKind.OptionalMemberExpression then
    (cast (classofKind NodeKind.OptionalMemberExpression) (some node)).bind
      (fun n => n.boolField "computed")
  else none

/-- The C++ `Node *getCallee(CallExpressionLikeNode *node)`. -/
def getCallee (node : Node) : Option NodePtr :=
  if node.getKind = NodeKind.CallExpression then
    (cast (classofKind NodeKind.CallExpression) (some node)).bind
      (fun n => n.ptrField "callee")
  else if node.getKind = NodeKind.OptionalCallExpression then
    (cast (classofKind NodeKind.OptionalCallExpression) (some node)).bind
      (fun n => n.ptrField "callee")
  else none

/-- The C++ `NodeList &getArguments(CallExpressionLikeNode *node)`. -/
def getArguments (node : Node) : Option NodeList :=
  if node.getKind = NodeKind.CallExpression then
    (cast (classofKind NodeKind.CallExpression) (some node)).bind
      (fun n => n.listField "arguments")
  else if node.getKind = NodeKind.OptionalCallExpression then
    (cast (classofKind NodeKind.OptionalCallExpression) (some node)).bind
      (fun n => n.listField "arguments")
  else none

/-! ## The decoration cells -/

namespace LabelDecorationBase

/-- The C++ `LabelDecorationBase::isLabelIndexSet`. -/
def isLabelIndexSet (d : LabelDecorationBase) : Bool :=
  d.labelIndex_ != INVALID_LABEL

/-- The C++ `LabelDecorationBase::getLabelIndex`: asserts that the index is set. -/
def getLabelIndex (d : LabelDecorationBase) : Option Nat :=
  if d.isLabelIndexSet then some d.labelIndex_ else none

/-- The C++ `LabelDecorationBase::setLabelIndex`: asserts that the argument is not
`INVALID_LABEL`, then that no index is set yet. The argument is an `unsigned`. -/
def setLabelIndex (d : LabelDecorationBase) (labelIndex : Nat) : Option LabelDecorationBase :=
  if labelIndex != INVALID_LABEL then
    if !d.isLabelIndexSet then some { d with labelIndex_ := labelIndex } else none
  else none

end LabelDecorationBase

namespace FunctionLikeDecoration

/-- The C++ `FunctionLikeDecoration::setSemInfo`: asserts that the argument is not null, then
that no pointer is stored yet. -/
def setSemInfo (d : FunctionLikeDecoration) (semInfo : Nat) : Option FunctionLikeDecoration :=
  if semInfo != 0 then
    if d.semInfo_ == 0 then some { d with semInfo_ := semInfo } else none
  else none

/-- The C++ `FunctionLikeDecoration::getSemInfo`: asserts that a pointer is stored. -/
def getSemInfo (d : FunctionLikeDecoration) : Option Nat :=
  if d.semInfo_ != 0 then some d.semInfo_ else none

end FunctionLikeDecoration

/-! ## Member functions of `Node`, and the decoration members seen from a node

A decoration member called on a node whose class does not inherit that decoration does not
compile; the embedding returns `none` there, as for a fault. -/

namespace Node

/-- The C++ `Node::setSourceRange`. -/
def setSourceRange : Node → SMRange → Node
  | .mk b d dummy args, rng => .mk { b with sourceRange_ := rng } d dummy args

/-- The C++ `Node::getSourceRange`. -/
def getSourceRange (n : Node) : SMRange := n.base.sourceRange_

/-- The C++ `Node::setStartLoc`. -/
def setStartLoc : Node → SMLoc → Node
  | .mk b d dummy args, loc =>
    .mk { b with sourceRange_ := { b.sourceRange_ with Start := loc } } d dummy args

/-- The C++ `Node::getStartLoc`. -/
def getStartLoc (n : Node) : SMLoc := n.base.sourceRange_.Start

/-- The C++ `Node::setEndLoc`. -/
def setEndLoc : Node → SMLoc → Node
  | .mk b d dummy args, loc =>
    .mk { b with sourceRange_ := { b.sourceRange_ with End := loc } } d dummy args

/-- The C++ `Node::getEndLoc`. -/
def getEndLoc (n : Node) : SMLoc := n.base.sourceRange_.End

/-- The C++ `Node::setDebugLoc`. -/
def setDebugLoc : Node → SMLoc → Node
  | .mk b d dummy args, loc => .mk { b with debugLoc_ := loc } d dummy args

/-- The C++ `Node::getDebugLoc`. -/
def getDebugLoc (n : Node) : SMLoc := n.base.debugLoc_

/-- The C++ `Node::incParens`: `parens_ = parens_ < 2 ? parens_ + 1 : 2`. -/
def incParens : Node → Node
  | .mk b d dummy args =>
    .mk { b with parens_ := if b.parens_ < 2 then b.parens_ + 1 else 2 } d dummy args

/-- The C++ `Node::clearParens`. -/
def clearParens : Node → Node
  | .mk b d dummy args => .mk { b with parens_ := 0 } d dummy args

/-- The C++ `Node::copyLocationFrom`. -/
def copyLocationFrom (n : Node) (src : Node) : Node :=
  (n.setSourceRange src.getSourceRange).setDebugLoc src.getDebugLoc

/-- The member `isLabelIndexSet` of a node whose class has a label decoration. -/
def isLabelIndexSet (n : Node) : Option Bool :=
  match n.deco with
  | .label d => some d.isLabelIndexSet
  | _ => none

/-- The member `getLabelIndex` of a node whose class has a label decoration. -/
def getLabelIndex (n : Node) : Option Nat :=
  match n.deco with
  | .label d => d.getLabelIndex
  | _ => none

/-- The member `setLabelIndex` of a node whose class has a label decoration. -/
def setLabelIndex : Node → Nat → Option Node
  | .mk b (.label d) dummy args, labelIndex =>
    (d.setLabelIndex labelIndex).map (fun d2 => .mk b (.label d2) dummy args)
  | _, _ => none

/-- The member `getSemInfo` of a function-like node. -/
def getSemInfo (n : Node) : Option Nat :=
  match n.deco with
  | .functionLike d => d.getSemInfo
  | _ => none

/-- The member `setSemInfo` of a function-like node. -/
def setSemInfo : Node → Nat → Option Node
  | .mk b (.functionLike d) dummy args, semInfo =>
    (d.setSemInfo semInfo).map (fun d2 => .mk b (.functionLike d2) dummy args)
  | _, _ => none

end Node

/-- The operations that change a node after construction: the setters of `class Node`, the two
one-time decoration setters, and assignments to the public data members of
`FunctionLikeDecoration` and `BlockStatementDecoration`. -/
inductive NodeOp where
  | setSourceRange (rng : SMRange)
  | setStartLoc (loc : SMLoc)
  | setEndLoc (loc : SMLoc)
  | setDebugLoc (loc : SMLoc)
  | incParens
  | clearParens
  | copyLocationFrom (src : Node)
  | setLabelIndex (labelIndex : Nat)
  | setSemInfo (semInfo : Nat)
  | assignStrictness (s : Strictness)
  | assignSourceVisibility (v : SourceVisibility)
  | assignIsMethodDefinition (b : Bool)
  | assignBufferId (id : Nat)
  | assignIsLazyFunctionBody (b : Bool)
  | assignParamYield (b : Bool)
  | assignParamAwait (b : Bool)

/-- One operation on a node; `none` when it faults or when the node's class has no such
member. -/
def Node.apply : Node → NodeOp → Option Node
  | n, .setSourceRange rng => some (n.setSourceRange rng)
  | n, .setStartLoc loc => some (n.setStartLoc loc)
  | n, .setEndLoc loc => some (n.setEndLoc loc)
  | n, .setDebugLoc loc => some (n.setDebugLoc loc)
  | n, .incParens => some n.incParens
  | n, .clearParens => some n.clearParens
  | n, .copyLocationFrom src => some (n.copyLocationFrom src)
  | n, .setLabelIndex labelIndex => n.setLabelIndex labelIndex
  | n, .setSemInfo semInfo => n.setSemInfo semInfo
  | .mk b (.functionLike d) dummy args, .assignStrictness s =>
    some (.mk b (.functionLike { d with strictness := s }) dummy args)
  | .mk b (.functionLike d) dummy args, .assignSourceVisibility v =>
    some (.mk b (.functionLike { d with sourceVisibility := v }) dummy args)
  | .mk b (.functionLike d) dummy args, .assignIsMethodDefinition x =>
    some (.mk b (.functionLike { d with isMethodDefinition := x }) dummy args)
  | .mk b (.block d) dummy args, .assignBufferId id =>
    some (.mk b (.block { d with bufferId := id }) dummy args)
  | .mk b (.block d) dummy args, .assignIsLazyFunctionBody x =>
    some (.mk b (.block { d with isLazyFunctionBody := x }) dummy args)
  | .mk b (.block d) dummy args, .assignParamYield x =>
    some (.mk b (.block { d with paramYield := x }) dummy args)
  | .mk b (.block d) dummy args, .assignParamAwait x =>
    some (.mk b (.block { d with paramAwait := x }) dummy args)
  | _, _ => none

/-- A sequence of operations, one after the other; a fault ends the run. -/
def Node.run : Node → List NodeOp → Option Node
  | n, [] => some n
  | n, op :: ops =>
    match n.apply op with
    | some n2 => Node.run n2 ops
    | none => none

/-- The field values agree in number and type with the field list of a record: what the
parameter list of the generated constructor requires of its arguments. -/
def argsMatch : List ArgSpec → List FieldVal → Bool
  | [], [] => true
  | spec :: specs, v :: vs =>
    (match v with
      | .ptr _ => spec.ty == ArgTy.NodePtr
      | .list _ => spec.ty == ArgTy.NodeList
      | .str _ => spec.ty == ArgTy.NodeLabel || spec.ty == ArgTy.NodeString
      | .boolean _ => spec.ty == ArgTy.NodeBoolean
      | .number _ => spec.ty == ArgTy.NodeNumber) && argsMatch specs vs
  | _, _ => false

namespace Sample

/-- Builds `WhileStatementNode(body, test)`. -/
def whileStatement : Node :=
  Node.create NodeKind.WhileStatement [.ptr (some (block [])), .ptr (some (ident "t"))]

/-- Builds `ArrowFunctionExpressionNode(nullptr, {}, x, nullptr, nullptr, nullptr, true, true)`:
the async arrow function `async () => x`. -/
def asyncArrow : Node :=
  Node.create NodeKind.ArrowFunctionExpression
    [.ptr none, .list [], .ptr (some (ident "x")), .ptr none, .ptr none, .ptr none,
     .boolean true, .boolean true]

end Sample

/-- A `NodeNumber` member. -/
def Node.numField (n : Node) (name : String) : Option NodeNumber :=
  match n.field name with
  | some (.number x) => some x
  | _ => none

namespace Sample

/-- Builds `MemberExpressionNode(o, p, computed)`. -/
def memberExpression (computed : Bool) : Node :=
  Node.create NodeKind.MemberExpression
    [.ptr (some (ident "o")), .ptr (some (ident "p")), .boolean computed]

/-- Builds `OptionalCallExpressionNode(f, nullptr, {x}, optional)`. -/
def optionalCall (optional : Bool) : Node :=
  Node.create NodeKind.OptionalCallExpression
    [.ptr (some (ident "f")), .ptr none, .list [ident "x"], .boolean optional]

end Sample

namespace Sample

/-- Builds `FunctionExpressionNode(nullptr, {}, {}, nullptr, nullptr, nullptr, generator,
false)`. -/
def generatorFunction (generator : Bool) : Node :=
  Node.create NodeKind.FunctionExpression
    [.ptr none, .list [], .ptr (some (block [])), .ptr none, .ptr none, .ptr none,
     .boolean generator, .boolean false]

end Sample


/-- The node as one operation leaves it. An operation that faults stops at its assertion, which
comes before the assignment to the member, so the node is as it was. -/
def Node.after (n : Node) (op : NodeOp) : Node :=
  match n.apply op with
  | some n2 => n2
  | none => n

/-! ## The dispatch of `ESTreeVisit` -/

/-- The case labels of the `switch` in `ESTreeVisit(Visitor &, NodePtr)`: one
`case NodeKind::NAME` for each `ESTREE_NODE_n_ARGS` entry, in schema order. -/
def visitCases : List NodeKind :=
  (List.range schema.length).filter isConcrete

/-- The `switch` of `ESTreeVisit` up to the call of `visit`: the case whose label is the kind of
the node is selected and runs `cast<NAME##Node>(Node)`; with no such case the `default`
label is reached, which is `llvm_unreachable("invalid node kind")`. -/
def dispatchCast (node : Node) : Option Node :=
  match visitCases.find? (fun NAME => node.getKind == NAME) with
  | some NAME => cast (classofKind NAME) (some node)
  | none => none

namespace Sample

/-- A node whose kind tag holds the sentinel `_LoopStatement_First`; no constructor builds
one. -/
def sentinelNode : Node :=
  Node.mk { kind_ := NodeKind._LoopStatement_First } Decoration.empty [] []

/-- An `IfStatement` whose consequent is `sentinelNode`. -/
def ifWithSentinel : Node :=
  Node.create NodeKind.IfStatement
    [.ptr (some (ident "t")), .ptr (some sentinelNode), .ptr none]

end Sample

/-! ## Further kinds, strictness, allocation and trace predicates -/

namespace NodeKind

def ConditionalExpression : NodeKind := 60
def VariableDeclarator : NodeKind := 69

end NodeKind

/-- The C++ `isStrict`: asserts that the strictness has been set. -/
def isStrict (strictness : Strictness) : Option Bool :=
  if strictness != Strictness.NotSet then some (strictness == Strictness.StrictMode) else none

/-- The C++ `makeStrictness`. -/
def makeStrictness (strictMode : Bool) : Strictness :=
  if strictMode then Strictness.StrictMode else Strictness.NonStrictMode

/-! ## `operator new` and `operator delete` of `class Node`

`Context::allocateNode` is declared in `hermes/AST/Context.h`, which is not part of this
repository's sources; the operators take it as the parameter `allocateNode`, a function from
the context state, a size and an alignment to the new context state and the address of the
block. Addresses are natural numbers. -/

/-- A use of one of the six allocation operators that `class Node` declares:
`operator new(size_t size, Context &ctx, size_t alignment)`,
`operator new(size_t, void *mem)`, `operator delete(void *, const Context &, size_t)`,
`operator delete(void *, size_t)`, and the private `operator new(size_t)` and
`operator delete(void *)`. -/
inductive MemOp where
  | newInContext (size alignment : Nat)
  | placementNew (size mem : Nat)
  | deleteInContext (ptr size : Nat)
  | deleteSized (ptr size : Nat)
  | regularNew (size : Nat)
  | regularDelete (ptr : Nat)
  deriving DecidableEq, Repr

/-- The body of each operator: the context state it leaves and the address it returns, if it
returns one. The two private operators are `llvm_unreachable`. -/
def MemOp.exec {Ctx : Type} (allocateNode : Ctx → Nat → Nat → Ctx × Nat) :
    Ctx → MemOp → Option (Ctx × Option Nat)
  | ctx, .newInContext size alignment =>
    some ((allocateNode ctx size alignment).1, some (allocateNode ctx size alignment).2)
  | ctx, .placementNew _ mem => some (ctx, some mem)
  | ctx, .deleteInContext _ _ => some (ctx, none)
  | ctx, .deleteSized _ _ => some (ctx, none)
  | _, .regularNew _ => none
  | _, .regularDelete _ => none

/-- A sequence of operator uses, one after the other; a fault ends the run. -/
def MemOp.execAll {Ctx : Type} (allocateNode : Ctx → Nat → Nat → Ctx × Nat) :
    Ctx → List MemOp → Option Ctx
  | ctx, [] => some ctx
  | ctx, op :: ops =>
    match MemOp.exec allocateNode ctx op with
    | some r => MemOp.execAll allocateNode r.1 ops
    | none => none

/-- The requests a sequence of operator uses sends to the context allocator, in order. -/
def allocationRequests : List MemOp → List (Nat × Nat)
  | [] => []
  | .newInContext size alignment :: ops => (size, alignment) :: allocationRequests ops
  | _ :: ops => allocationRequests ops

/-- The context state after serving a list of requests. -/
def serveRequests {Ctx : Type} (allocateNode : Ctx → Nat → Nat → Ctx × Nat) :
    Ctx → List (Nat × Nat) → Ctx
  | ctx, [] => ctx
  | ctx, r :: rs => serveRequests allocateNode (allocateNode ctx r.1 r.2).1 rs

/-- Whether an operator use is one of the two private operators. -/
def MemOp.isRegular : MemOp → Bool
  | .regularNew _ => true
  | .regularDelete _ => true
  | _ => false

/-! ## Bracket structure of a trace -/

/-- Bracket matching of a trace against the stack of nodes entered and not yet left: `enter n`
opens `n`, `leave n` closes the innermost open node, which has to be `n`, and at the end of
the trace nothing is open. `shouldVisit` calls do not open or close anything. -/
def Bracketed : List Node → List Event → Prop
  | st, [] => st = []
  | st, .shouldVisit _ _ :: es => Bracketed st es
  | st, .enter n :: es => Bracketed (n :: st) es
  | st, .leave n :: es => ∃ st2, st = n :: st2 ∧ Bracketed st2 es

/-- A `ComponentParameter` whose `local` is an `AssignmentPattern`, in the words of the
description of `hasParamExpressions`. -/
def wrapsAssignmentPattern (p : Node) : Bool :=
  p.getKind == NodeKind.ComponentParameter &&
    match p.ptrField "local" with
    | some (some loc) => loc.getKind == NodeKind.AssignmentPattern
    | _ => false

/-- The parameter that decides the scan described for `hasParamExpressions`: the first one
that is an `AssignmentPattern` or a `ComponentParameter` whose `local` is one. -/
def firstDecidingParam (params : NodeList) : Option Node :=
  params.find? (fun p => p.getKind == NodeKind.AssignmentPattern || wrapsAssignmentPattern p)

/-- The result of the described scan: true when the deciding parameter is an
`AssignmentPattern`, false when it is a wrapping `ComponentParameter` or there is none. -/
def hasParamExpressionsScan (params : NodeList) : Bool :=
  match firstDecidingParam params with
  | some p => p.getKind == NodeKind.AssignmentPattern
  | none => false

namespace Sample

/-- Builds `ConditionalExpressionNode(t, a, c)`, the schema order being test, alternate,
consequent: the expression `t ? c : a`. -/
def conditional : Node :=
  Node.create NodeKind.ConditionalExpression
    [.ptr (some (ident "t")), .ptr (some (ident "a")), .ptr (some (ident "c"))]

/-- Builds `VariableDeclaratorNode(init, id)`: the declarator `x = v`. -/
def declarator : Node :=
  Node.create NodeKind.VariableDeclarator [.ptr (some (ident "v")), .ptr (some (ident "x"))]

/-- A node whose kind tag holds a value beyond the last enumerator. -/
def outOfRangeNode : Node :=
  Node.mk { kind_ := 1000 } Decoration.empty [] []

/-- A visitor that accepts every node. -/
def acceptAll : Visitor Unit := predicateVisitor (fun _ => true)

end Sample

/-! ## Pruned traversal, naive flattening and the hash-set key policy -/

/-- The nodes directly below one field. -/
def childrenOfArg : FieldVal → List Node
  | .ptr (some c) => [c]
  | .ptr none => []
  | .list l => l
  | .str _ => []
  | .boolean _ => []
  | .number _ => []

/-- The nodes directly below a field list, in field order. -/
def childrenOfArgs : List FieldVal → List Node
  | [] => []
  | v :: vs => childrenOfArg v ++ childrenOfArgs vs

/-- The children of a node, in field order. -/
def children (n : Node) : List Node := childrenOfArgs n.args

/-- Node `m` lies in the tree below `root` and every proper ancestor of `m`, from `root`
down, is accepted by the predicate `p`. -/
inductive Descends (p : Node → Bool) : Node → Node → Prop where
  | here (n : Node) : Descends p n n
  | step (n c m : Node) : p n = true → c ∈ children n → Descends p c m → Descends p n m

mutual
/-- The trace the traversal is expected to leave when `shouldVisit` answers by the predicate
`p`: a refused node leaves its `shouldVisit` call alone, an accepted node leaves
`shouldVisit`, `enter`, the traces of its fields in order, and `leave`. -/
def traceOf (p : Node → Bool) : Node → List Event
  | .mk b d dummy args =>
    if p (.mk b d dummy args) then
      Event.shouldVisit (.mk b d dummy args) true :: Event.enter (.mk b d dummy args) ::
        (traceArgs p args ++ [Event.leave (.mk b d dummy args)])
    else [Event.shouldVisit (.mk b d dummy args) false]
/-- The expected trace of a field list. -/
def traceArgs (p : Node → Bool) : List FieldVal → List Event
  | [] => []
  | v :: vs => traceArg p v ++ traceArgs p vs
/-- The expected trace of one field. -/
def traceArg (p : Node → Bool) : FieldVal → List Event
  | .ptr none => []
  | .ptr (some n) => traceOf p n
  | .list l => traceList p l
  | .str _ => []
  | .boolean _ => []
  | .number _ => []
/-- The expected trace of a node list. -/
def traceList (p : Node → Bool) : List Node → List Event
  | [] => []
  | n :: ns => traceOf p n ++ traceList p ns
end

/-- The nodes `shouldVisit` was called on, in call order. -/
def queries : List Event → List Node
  | [] => []
  | .shouldVisit n _ :: rest => n :: queries rest
  | _ :: rest => queries rest

/-- The naive recursive flattening of a left-nested expression: the flattening of the left
operand when `checkExprOperator` accepts it, followed by the expression itself. `depth`
bounds the recursion; `e.size` is always enough. -/
def flattenLeftNaive (N : NodeKind) (ops : List String) : Nat → Node → Option (List Node)
  | 0, _ => none
  | depth + 1, e =>
    match e.ptrField "left" with
    | none => none
    | some l =>
      match checkExprOperator N l ops with
      | none => none
      | some none => some [e]
      | some (some left) => (flattenLeftNaive N ops depth left).map (fun v => v ++ [e])

namespace Sample

/-- The sum `(...((a + b) + c) + ... ) + c` with `n + 1` binary nodes on its left spine. -/
def deepSum : Nat → Node
  | 0 => binaryExpression (ident "a") (ident "b") "+"
  | n + 1 => binaryExpression (deepSum n) (ident "c") "+"

end Sample

/-! ## `NodeKindInfo`

`NodeKind` is an `enum class` over `uint32_t`; a cast of an integer to it is taken modulo
`2 ^ 32`. -/

namespace NodeKindInfo

/-- The C++ `NodeKindInfo::getEmptyKey`: `(NodeKind)(-1)`. -/
def getEmptyKey : NodeKind := ((-1 : Int) % 2 ^ 32).toNat

/-- The C++ `NodeKindInfo::getTombstoneKey`: `(NodeKind)(-2)`. -/
def getTombstoneKey : NodeKind := ((-2 : Int) % 2 ^ 32).toNat

/-- The C++ `NodeKindInfo::isEqual`. -/
def isEqual (a b : NodeKind) : Bool := a == b

/-- The C++ `NodeKindInfo::getHashValue`: `(unsigned)Val`. -/
def getHashValue (Val : NodeKind) : Nat := Val % 2 ^ 32

end NodeKindInfo


set_option maxRecDepth 100000

/-! ## Checking tools -/

theorem allEntriesFrom_getElem (P : Nat → Entry → Bool) :
    ∀ (l : List Entry) (start k : Nat) (e : Entry),
      allEntriesFrom P start l = true → l[k]? = some e → P (start + k) e = true := by
  intro l
  induction l with
  | nil => intro start k e _ h; simp at h
  | cons a l ih =>
    intro start k e hall h
    simp only [allEntriesFrom, Bool.and_eq_true] at hall
    cases k with
    | zero =>
      simp at h
      subst h
      simpa using hall.1
    | succ k =>
      simp only [List.getElem?_cons_succ] at h
      have := ih (start + 1) k e hall.2 h
      rwa [Nat.add_assoc, Nat.add_comm 1 k] at this

theorem KeyTree.insert_spec :
    ∀ (t : KeyTree) (k : Nat) (t2 : KeyTree), t.Ordered → t.insert k = some t2 →
      k ∉ t.keys ∧ t2.Ordered ∧ ∀ x, x ∈ t2.keys ↔ x = k ∨ x ∈ t.keys := by
  intro t
  induction t with
  | leaf =>
    intro k t2 _ h
    simp only [KeyTree.insert, Option.some.injEq] at h
    subst h
    simp [KeyTree.keys, KeyTree.Ordered]
  | node l key r ihl ihr =>
    intro k t2 hord h
    obtain ⟨hl, hr, hol, hor⟩ := hord
    simp only [KeyTree.insert] at h
    by_cases h1 : k < key
    · simp only [h1, if_true] at h
      cases hi : l.insert k with
      | none => simp [hi] at h
      | some l2 =>
        simp only [hi, Option.map_some', Option.some.injEq] at h
        subst h
        obtain ⟨hnot, hord2, hmem⟩ := ihl k l2 hol hi
        refine ⟨?_, ⟨?_, hr, hord2, hor⟩, ?_⟩
        · simp only [KeyTree.keys, List.mem_append, List.mem_cons, not_or]
          exact ⟨hnot, Nat.ne_of_lt h1, fun hx => absurd (hr k hx) (by omega)⟩
        · intro x hx
          rcases (hmem x).mp hx with rfl | hx
          · exact h1
          · exact hl x hx
        · intro x
          simp only [KeyTree.keys, List.mem_append, List.mem_cons, hmem x]
          tauto
    · simp only [h1, if_false] at h
      by_cases h2 : key < k
      · simp only [h2, if_true] at h
        cases hi : r.insert k with
        | none => simp [hi] at h
        | some r2 =>
          simp only [hi, Option.map_some', Option.some.injEq] at h
          subst h
          obtain ⟨hnot, hord2, hmem⟩ := ihr k r2 hor hi
          refine ⟨?_, ⟨hl, ?_, hol, hord2⟩, ?_⟩
          · simp only [KeyTree.keys, List.mem_append, List.mem_cons, not_or]
            exact ⟨fun hx => absurd (hl k hx) (by omega), Nat.ne_of_gt h2, hnot⟩
          · intro x hx
            rcases (hmem x).mp hx with rfl | hx
            · exact h2
            · exact hr x hx
          · intro x
            simp only [KeyTree.keys, List.mem_append, List.mem_cons, hmem x]
            tauto
      · simp [h2] at h

/-- If all keys could be inserted, no key occurs twice. -/
theorem KeyTree.insertAll_nodup :
    ∀ (ks : List Nat) (t t2 : KeyTree), t.Ordered → KeyTree.insertAll ks t = some t2 →
      ks.Nodup ∧ ∀ k ∈ ks, k ∉ t.keys := by
  intro ks
  induction ks with
  | nil => intro t t2 _ _; simp
  | cons k ks ih =>
    intro t t2 hord h
    simp only [KeyTree.insertAll] at h
    cases hi : t.insert k with
    | none => simp [hi] at h
    | some t1 =>
      simp only [hi] at h
      obtain ⟨hnot, hord1, hmem⟩ := KeyTree.insert_spec t k t1 hord hi
      obtain ⟨hnd, hfresh⟩ := ih t1 t2 hord1 h
      refine ⟨List.nodup_cons.mpr ⟨?_, hnd⟩, ?_⟩
      · intro hk
        exact hfresh k hk ((hmem k).mpr (Or.inl rfl))
      · intro x hx
        rcases List.mem_cons.mp hx with rfl | hx
        · exact hnot
        · intro hxt
          exact hfresh x hx ((hmem x).mpr (Or.inr hxt))


/-! ## Facts about the schema -/

theorem schema_length : schema.length = 259 := by decide!

theorem getNodeName_eq_bind (kind : NodeKind) :
    getNodeName kind = (schema[kind]?).bind Entry.nodeName := by
  unfold getNodeName
  cases hs : schema[kind]? with
  | none => rfl
  | some e => cases e <;> rfl

theorem isConcrete_iff_getNodeName (kind : NodeKind) :
    isConcrete kind = true ↔ (getNodeName kind).isSome = true := by
  unfold isConcrete getNodeName
  cases hs : schema[kind]? with
  | none => simp
  | some e => cases e <;> simp

/-- The named `NodeKind` constants are the ordinals at which the enumeration declares the enumerators of those names. -/
theorem enumeratorAt_constants :
    enumeratorAt NodeKind._FunctionLike_First = some "_FunctionLike_First" ∧
    enumeratorAt NodeKind.Program = some "Program" ∧
    enumeratorAt NodeKind.FunctionExpression = some "FunctionExpression" ∧
    enumeratorAt NodeKind.ArrowFunctionExpression = some "ArrowFunctionExpression" ∧
    enumeratorAt NodeKind.FunctionDeclaration = some "FunctionDeclaration" ∧
    enumeratorAt NodeKind.ComponentDeclaration = some "ComponentDeclaration" ∧
    enumeratorAt NodeKind.HookDeclaration = some "HookDeclaration" ∧
    enumeratorAt NodeKind._FunctionLike_Last = some "_FunctionLike_Last" ∧
    enumeratorAt NodeKind._Statement_First = some "_Statement_First" ∧
    enumeratorAt NodeKind._LoopStatement_First = some "_LoopStatement_First" ∧
    enumeratorAt NodeKind.WhileStatement = some "WhileStatement" ∧
    enumeratorAt NodeKind._LoopStatement_Last = some "_LoopStatement_Last" ∧
    enumeratorAt NodeKind.BlockStatement = some "BlockStatement" ∧
    enumeratorAt NodeKind.BreakStatement = some "BreakStatement" ∧
    enumeratorAt NodeKind.ContinueStatement = some "ContinueStatement" ∧
    enumeratorAt NodeKind.SwitchStatement = some "SwitchStatement" ∧
    enumeratorAt NodeKind.LabeledStatement = some "LabeledStatement" ∧
    enumeratorAt NodeKind.ReturnStatement = some "ReturnStatement" ∧
    enumeratorAt NodeKind.IfStatement = some "IfStatement" ∧
    enumeratorAt NodeKind._Statement_Last = some "_Statement_Last" ∧
    enumeratorAt NodeKind._CallExpressionLike_First = some "_CallExpressionLike_First" ∧
    enumeratorAt NodeKind.CallExpression = some "CallExpression" ∧
    enumeratorAt NodeKind.OptionalCallExpression = some "OptionalCallExpression" ∧
    enumeratorAt NodeKind._CallExpressionLike_Last = some "_CallExpressionLike_Last" := by
  decide!

/-- The named `NodeKind` constants, continued. -/
theorem enumeratorAt_constants2 :
    enumeratorAt NodeKind.AssignmentExpression = some "AssignmentExpression" ∧
    enumeratorAt NodeKind._MemberExpressionLike_First = some "_MemberExpressionLike_First" ∧
    enumeratorAt NodeKind.MemberExpression = some "MemberExpression" ∧
    enumeratorAt NodeKind.OptionalMemberExpression = some "OptionalMemberExpression" ∧
    enumeratorAt NodeKind._MemberExpressionLike_Last = some "_MemberExpressionLike_Last" ∧
    enumeratorAt NodeKind.LogicalExpression = some "LogicalExpression" ∧
    enumeratorAt NodeKind.BinaryExpression = some "BinaryExpression" ∧
    enumeratorAt NodeKind.Identifier = some "Identifier" ∧
    enumeratorAt NodeKind._Pattern_First = some "_Pattern_First" ∧
    enumeratorAt NodeKind.ObjectPattern = some "ObjectPattern" ∧
    enumeratorAt NodeKind.ArrayPattern = some "ArrayPattern" ∧
    enumeratorAt NodeKind.RestElement = some "RestElement" ∧
    enumeratorAt NodeKind.AssignmentPattern = some "AssignmentPattern" ∧
    enumeratorAt NodeKind._Pattern_Last = some "_Pattern_Last" ∧
    enumeratorAt NodeKind._JSX_First = some "_JSX_First" ∧
    enumeratorAt NodeKind._JSX_Last = some "_JSX_Last" ∧
    enumeratorAt NodeKind._Flow_First = some "_Flow_First" ∧
    enumeratorAt NodeKind.ComponentParameter = some "ComponentParameter" ∧
    enumeratorAt NodeKind._Flow_Last = some "_Flow_Last" ∧
    enumeratorAt NodeKind._TS_First = some "_TS_First" ∧
    enumeratorAt NodeKind._TS_Last = some "_TS_Last" ∧
    enumeratorAt NodeKind._Cover_First = some "_Cover_First" ∧
    enumeratorAt NodeKind._Cover_Last = some "_Cover_Last" := by
  decide!

theorem categories_eq :
    categories = ["FunctionLike", "Statement", "LoopStatement", "CallExpressionLike",
      "MemberExpressionLike", "Pattern", "JSX", "Flow", "TS", "Cover"] := by
  decide!

theorem nodup_filterMap_inj {α β : Type} (f : α → Option β) :
    ∀ (l : List α), (l.filterMap f).Nodup →
      ∀ (i j : Nat) (b : β), (l[i]?).bind f = some b → (l[j]?).bind f = some b → i = j := by
  intro l
  induction l with
  | nil => intro _ i j b hi; simp at hi
  | cons a l ih =>
    intro hnd i j b hi hj
    have mem_of : ∀ (n : Nat), (l[n]?).bind f = some b → b ∈ l.filterMap f := by
      intro n hn
      cases hl : l[n]? with
      | none => simp [hl] at hn
      | some x =>
        simp [hl] at hn
        exact List.mem_filterMap.mpr ⟨x, List.getElem?_mem hl, hn⟩
    cases hfa : f a with
    | none =>
      rw [List.filterMap_cons_none hfa] at hnd
      cases i with
      | zero => simp [hfa] at hi
      | succ i =>
        cases j with
        | zero => simp [hfa] at hj
        | succ j =>
          simp only [List.getElem?_cons_succ] at hi hj
          rw [ih hnd i j b hi hj]
    | some c =>
      rw [List.filterMap_cons_some hfa] at hnd
      have hnd2 := List.nodup_cons.mp hnd
      cases i with
      | zero =>
        cases j with
        | zero => rfl
        | succ j =>
          simp only [List.getElem?_cons_succ] at hj
          simp [hfa] at hi
          exact absurd (hi ▸ mem_of j hj) hnd2.1
      | succ i =>
        cases j with
        | zero =>
          simp only [List.getElem?_cons_succ] at hi
          simp [hfa] at hj
          exact absurd (hj ▸ mem_of i hi) hnd2.1
        | succ j =>
          simp only [List.getElem?_cons_succ] at hi hj
          rw [ih hnd2.2 i j b hi hj]

theorem nodeKeys_insertAll :
    (KeyTree.insertAll ((schema.filterMap Entry.nodeName).map nameKey) KeyTree.leaf).isSome =
      true := by
  decide!

theorem nodeNames_nodup : (schema.filterMap Entry.nodeName).Nodup := by
  obtain ⟨t, ht⟩ := Option.isSome_iff_exists.mp nodeKeys_insertAll
  exact List.Nodup.of_map nameKey (KeyTree.insertAll_nodup _ KeyTree.leaf t trivial ht).1

theorem nodeNames_nonempty : ∀ s ∈ schema.filterMap Entry.nodeName, s ≠ "" := by decide!

theorem classof_eq_nestedIn_entries :
    allEntriesFrom (fun k e =>
      match e with
      | .node _ b _ =>
        categories.all (fun C => categoryClassof C k == nestedIn categories.length b C)
      | _ => true) 0 schema = true := by
  decide!

theorem classof_eq_declaredUnder (C : String) (k : NodeKind) (hC : C ∈ categories)
    (hk : isConcrete k = true) : categoryClassof C k = declaredUnder C k := by
  unfold isConcrete at hk
  unfold declaredUnder
  cases hs : schema[k]? with
  | none => simp [hs] at hk
  | some e =>
    have h := allEntriesFrom_getElem _ schema 0 k e classof_eq_nestedIn_entries hs
    cases e with
    | first n b => simp [hs] at hk
    | last n => simp [hs] at hk
    | node n b args =>
      simp only [Nat.zero_add, List.all_eq_true, beq_iff_eq] at h
      exact h C hC

/-! ## Category membership and names -/

/-- C1: in the default configuration, for each of the ten categories and every concrete kind,
the range test `_C_First < k < _C_Last` holds exactly when the schema declares the kind with
base `C` or with a base nested in `C`. -/
theorem categoryClassof_iff_declaredUnder (C : String) (k : NodeKind)
    (hC : C ∈ ["FunctionLike", "Statement", "LoopStatement", "CallExpressionLike",
      "MemberExpressionLike", "Pattern", "JSX", "Flow", "TS", "Cover"])
    (hk : isConcrete k = true) :
    categoryClassof C k = true ↔ declaredUnder C k = true := by
  rw [← categories_eq] at hC
  rw [classof_eq_declaredUnder C k hC hk]

theorem categoryClassof_iff_declaredUnder_witness :
    (categoryClassof "Statement" 14 = true ↔ declaredUnder "Statement" 14 = true) :=
  categoryClassof_iff_declaredUnder "Statement" 14 (by decide) (by decide)

/-- C2: `getNodeName` returns a non-empty name, without faulting, for every concrete kind, and
no two concrete kinds share a name. -/
theorem getNodeName_total_injective :
    (∀ k : NodeKind, isConcrete k = true → ∃ s, getNodeName k = some s ∧ s ≠ "") ∧
    (∀ (k1 k2 : NodeKind) (s : String),
      getNodeName k1 = some s → getNodeName k2 = some s → k1 = k2) := by
  constructor
  · intro k hk
    have h := (isConcrete_iff_getNodeName k).mp hk
    obtain ⟨s, hs⟩ := Option.isSome_iff_exists.mp h
    refine ⟨s, hs, ?_⟩
    rw [getNodeName_eq_bind] at hs
    cases he : schema[k]? with
    | none => simp [he] at hs
    | some e =>
      simp [he] at hs
      exact nodeNames_nonempty s (List.mem_filterMap.mpr ⟨e, List.getElem?_mem he, hs⟩)
  · intro k1 k2 s h1 h2
    rw [getNodeName_eq_bind] at h1 h2
    exact nodup_filterMap_inj Entry.nodeName schema nodeNames_nodup k1 k2 s h1 h2

theorem getNodeName_total_injective_witness :
    isConcrete NodeKind.BinaryExpression = true ∧
    (∃ s, getNodeName NodeKind.BinaryExpression = some s ∧ s ≠ "") ∧
    (∀ k : NodeKind, getNodeName k = some "BinaryExpression" →
      k = NodeKind.BinaryExpression) :=
  ⟨by decide, getNodeName_total_injective.1 NodeKind.BinaryExpression (by decide),
   fun k h => getNodeName_total_injective.2 k NodeKind.BinaryExpression "BinaryExpression" h
     (by decide)⟩

/-! ## Facts about well-formed nodes -/

theorem functionLike_bounds :
    sentinelFirst "FunctionLike" = some 2 ∧ sentinelLast "FunctionLike" = some 9 := by
  decide!

theorem pattern_bounds :
    sentinelFirst "Pattern" = some 91 ∧ sentinelLast "Pattern" = some 96 := by
  decide!

theorem functionLike_classof_eq (k : NodeKind) :
    FunctionLikeNode.classof k = (decide (2 < k) && decide (k < 9)) := by
  simp [FunctionLikeNode.classof, categoryClassof, functionLike_bounds.1, functionLike_bounds.2]

theorem pattern_classof_eq (k : NodeKind) :
    PatternNode.classof k = (decide (91 < k) && decide (k < 96)) := by
  simp [PatternNode.classof, categoryClassof, pattern_bounds.1, pattern_bounds.2]

theorem wfArgs_getElem :
    ∀ (specs : List ArgSpec) (args : List FieldVal) (i : Nat) (spec : ArgSpec),
      wfArgs specs args = true → specs[i]? = some spec →
      ∃ v, args[i]? = some v ∧ wfArg spec v = true := by
  intro specs
  induction specs with
  | nil => intro args i spec _ hs; simp at hs
  | cons s specs ih =>
    intro args i spec hwf hs
    cases args with
    | nil => simp [wfArgs] at hwf
    | cons v vs =>
      simp only [wfArgs, Bool.and_eq_true] at hwf
      cases i with
      | zero =>
        simp at hs
        subst hs
        exact ⟨v, by simp, hwf.1⟩
      | succ i =>
        simp only [List.getElem?_cons_succ] at hs ⊢
        exact ih vs i spec hwf.2 hs

theorem Node.wf_args (n : Node) (hwf : n.wf = true) :
    wfArgs (argSpecs n.getKind) n.args = true := by
  cases n with
  | mk b d dummy args =>
    simp only [Node.wf, Bool.and_eq_true] at hwf
    exact hwf.2

theorem Node.wf_dummy (n : Node) (hwf : n.wf = true) : wfList n.dummyParamList = true := by
  cases n with
  | mk b d dummy args =>
    simp only [Node.wf, Bool.and_eq_true] at hwf
    exact hwf.1.2

theorem Node.wf_concrete (n : Node) (hwf : n.wf = true) : isConcrete n.getKind = true := by
  cases n with
  | mk b d dummy args =>
    simp only [Node.wf, Bool.and_eq_true] at hwf
    exact hwf.1.1.1.1

theorem wf_field (n : Node) (K : NodeKind) (name : String) (i : Nat) (spec : ArgSpec)
    (hwf : n.wf = true) (hk : n.getKind = K) (hi : argIndex K name = some i)
    (hs : (argSpecs K)[i]? = some spec) :
    ∃ v, n.field name = some v ∧ wfArg spec v = true := by
  have h := wfArgs_getElem (argSpecs n.getKind) n.args i spec (n.wf_args hwf) (by rw [hk]; exact hs)
  obtain ⟨v, hv, hw⟩ := h
  exact ⟨v, by simp [Node.field, hk, hi, hv], hw⟩

/-- A list-typed member of a well-formed node exists and holds well-formed nodes. -/
theorem wf_listField (n : Node) (K : NodeKind) (name : String) (i : Nat) (spec : ArgSpec)
    (hwf : n.wf = true) (hk : n.getKind = K) (hi : argIndex K name = some i)
    (hs : (argSpecs K)[i]? = some spec) (hty : spec.ty = ArgTy.NodeList) :
    ∃ l, n.listField name = some l ∧ wfList l = true := by
  obtain ⟨v, hv, hw⟩ := wf_field n K name i spec hwf hk hi hs
  cases v with
  | list l =>
    simp only [wfArg, Bool.and_eq_true] at hw
    exact ⟨l, by simp [Node.listField, hv], hw.2⟩
  | ptr p => cases p <;> simp [wfArg, hty] at hw
  | str s => cases s <;> simp [wfArg, hty] at hw
  | boolean b => simp [wfArg, hty] at hw
  | number x => simp [wfArg, hty] at hw

/-- A pointer member the schema does not mark optional is non-null in a well-formed node. -/
theorem wf_ptrField (n : Node) (K : NodeKind) (name : String) (i : Nat) (spec : ArgSpec)
    (hwf : n.wf = true) (hk : n.getKind = K) (hi : argIndex K name = some i)
    (hs : (argSpecs K)[i]? = some spec) (hty : spec.ty = ArgTy.NodePtr)
    (hopt : spec.optional = false) :
    ∃ c, n.ptrField name = some (some c) ∧ c.wf = true := by
  obtain ⟨v, hv, hw⟩ := wf_field n K name i spec hwf hk hi hs
  cases v with
  | ptr p =>
    cases p with
    | none => simp [wfArg, hopt] at hw
    | some c =>
      simp only [wfArg, Bool.and_eq_true] at hw
      exact ⟨c, by simp [Node.ptrField, hv], hw.2⟩
  | list l => simp [wfArg, hty] at hw
  | str s => cases s <;> simp [wfArg, hty] at hw
  | boolean b => simp [wfArg, hty] at hw
  | number x => simp [wfArg, hty] at hw

/-- A label member the schema does not mark optional is non-null in a well-formed node. -/
theorem wf_strField (n : Node) (K : NodeKind) (name : String) (i : Nat) (spec : ArgSpec)
    (hwf : n.wf = true) (hk : n.getKind = K) (hi : argIndex K name = some i)
    (hs : (argSpecs K)[i]? = some spec) (hty : spec.ty = ArgTy.NodeLabel)
    (hopt : spec.optional = false) :
    ∃ s, n.strField name = some (some s) := by
  obtain ⟨v, hv, hw⟩ := wf_field n K name i spec hwf hk hi hs
  cases v with
  | str s =>
    cases s with
    | none => simp [wfArg, hopt] at hw
    | some s => exact ⟨s, by simp [Node.strField, hv]⟩
  | list l => simp [wfArg, hty] at hw
  | ptr p => cases p <;> simp [wfArg, hty] at hw
  | boolean b => simp [wfArg, hty] at hw
  | number x => simp [wfArg, hty] at hw

/-- On a well-formed function-like node `getParams` returns a list of well-formed nodes. -/
theorem getParams_wf (fn : Node) (hwf : fn.wf = true)
    (hfl : FunctionLikeNode.classof fn.getKind = true) :
    ∃ params, getParams fn = some params ∧ wfList params = true := by
  rw [functionLike_classof_eq] at hfl
  simp only [Bool.and_eq_true, decide_eq_true_eq] at hfl
  have hcases : fn.getKind = NodeKind.Program ∨ fn.getKind = NodeKind.FunctionExpression ∨
      fn.getKind = NodeKind.ArrowFunctionExpression ∨
      fn.getKind = NodeKind.FunctionDeclaration ∨
      fn.getKind = NodeKind.ComponentDeclaration ∨ fn.getKind = NodeKind.HookDeclaration := by
    have h : ∀ k : Nat, 2 < k → k < 9 → k = 3 ∨ k = 4 ∨ k = 5 ∨ k = 6 ∨ k = 7 ∨ k = 8 := by
      omega
    exact h fn.getKind hfl.1 hfl.2
  rcases hcases with hk | hk | hk | hk | hk | hk
  · refine ⟨fn.dummyParamList, ?_, fn.wf_dummy hwf⟩
    simp [getParams, hk, cast, classofKind, NodeKind.Program,
      NodeKind.FunctionExpression, NodeKind.ArrowFunctionExpression,
      NodeKind.FunctionDeclaration, NodeKind.ComponentDeclaration, NodeKind.HookDeclaration]
  · obtain ⟨l, hl, hw⟩ := wf_listField fn _ "params" 1 (arg .NodeList "params" false)
      hwf hk (by decide) (by decide) rfl
    refine ⟨l, ?_, hw⟩
    simp [getParams, hk, cast, classofKind, hl]
  · obtain ⟨l, hl, hw⟩ := wf_listField fn _ "params" 1 (arg .NodeList "params" false)
      hwf hk (by decide) (by decide) rfl
    refine ⟨l, ?_, hw⟩
    simp [getParams, hk, cast, classofKind, hl, NodeKind.FunctionExpression,
      NodeKind.ArrowFunctionExpression]
  · obtain ⟨l, hl, hw⟩ := wf_listField fn _ "params" 1 (arg .NodeList "params" false)
      hwf hk (by decide) (by decide) rfl
    refine ⟨l, ?_, hw⟩
    simp [getParams, hk, cast, classofKind, hl, NodeKind.FunctionExpression,
      NodeKind.ArrowFunctionExpression, NodeKind.FunctionDeclaration]
  · obtain ⟨l, hl, hw⟩ := wf_listField fn _ "params" 1 (arg .NodeList "params" false)
      hwf hk (by decide) (by decide) rfl
    refine ⟨l, ?_, hw⟩
    simp [getParams, hk, cast, classofKind, hl, NodeKind.FunctionExpression,
      NodeKind.ArrowFunctionExpression, NodeKind.FunctionDeclaration,
      NodeKind.ComponentDeclaration]
  · obtain ⟨l, hl, hw⟩ := wf_listField fn _ "params" 1 (arg .NodeList "params" false)
      hwf hk (by decide) (by decide) rfl
    refine ⟨l, ?_, hw⟩
    simp [getParams, hk, cast, classofKind, hl, NodeKind.FunctionExpression,
      NodeKind.ArrowFunctionExpression, NodeKind.FunctionDeclaration,
      NodeKind.ComponentDeclaration, NodeKind.HookDeclaration]


/-! ## Parameter predicates -/

theorem pattern_classof_iff (k : NodeKind) :
    PatternNode.classof k = true ↔
      k ∈ [NodeKind.ObjectPattern, NodeKind.ArrayPattern, NodeKind.RestElement,
        NodeKind.AssignmentPattern] := by
  rw [pattern_classof_eq]
  simp only [Bool.and_eq_true, decide_eq_true_eq, NodeKind.ObjectPattern,
    NodeKind.ArrayPattern, NodeKind.RestElement, NodeKind.AssignmentPattern, List.mem_cons,
    List.mem_singleton, List.not_mem_nil, or_false]
  have h : ∀ n : Nat, (91 < n ∧ n < 96) ↔ (n = 92 ∨ n = 93 ∨ n = 94 ∨ n = 95) := by
    intro n
    omega
  exact h k

/-- The `local` child of a well-formed `ComponentParameter` is a non-null well-formed node. -/
theorem componentParameter_local (p : Node) (hwf : p.wf = true)
    (hk : p.getKind = NodeKind.ComponentParameter) :
    ∃ loc, p.ptrField "local" = some (some loc) ∧ loc.wf = true :=
  wf_ptrField p _ "local" 1 (arg .NodePtr "local" false) hwf hk (by decide) (by decide) rfl rfl

theorem hasSimpleParamsLoop_spec (params : NodeList) (hwf : wfList params = true) :
    ∃ b, hasSimpleParamsLoop params = some b ∧
      (b = false ↔ ∃ p ∈ params, PatternNode.classof p.getKind = true ∨
        (p.getKind = NodeKind.ComponentParameter ∧
          ∃ loc, p.ptrField "local" = some (some loc) ∧
            PatternNode.classof loc.getKind = true)) := by
  induction params with
  | nil => exact ⟨true, rfl, by simp⟩
  | cons p rest ih =>
    simp only [wfList, Bool.and_eq_true] at hwf
    obtain ⟨b, hb, hiff⟩ := ih hwf.2
    by_cases hpat : PatternNode.classof p.getKind = true
    · exact ⟨false, by simp [hasSimpleParamsLoop, hpat],
        by simp only [true_iff]; exact ⟨p, List.mem_cons_self _ _, Or.inl hpat⟩⟩
    · by_cases hcp : p.getKind = NodeKind.ComponentParameter
      · obtain ⟨loc, hloc, _⟩ := componentParameter_local p hwf.1 hcp
        by_cases hlp : PatternNode.classof loc.getKind = true
        · refine ⟨false, ?_, ?_⟩
          · have hpat2 : PatternNode.classof p.getKind = false := by simpa using hpat
            simp only [hasSimpleParamsLoop, hpat2]
            simp [classofKind, hcp, cast, hloc, isa, hlp]
          · simp only [true_iff]
            exact ⟨p, List.mem_cons_self _ _, Or.inr ⟨hcp, loc, hloc, hlp⟩⟩
        · refine ⟨b, ?_, ?_⟩
          · have hpat2 : PatternNode.classof p.getKind = false := by simpa using hpat
            have hlp2 : PatternNode.classof loc.getKind = false := by simpa using hlp
            simp only [hasSimpleParamsLoop, hpat2]
            simp [classofKind, hcp, cast, hloc, isa, hlp2, hb]
          · rw [hiff]
            constructor
            · rintro ⟨q, hq, hQ⟩
              exact ⟨q, List.mem_cons_of_mem _ hq, hQ⟩
            · rintro ⟨q, hq, hQ⟩
              rcases List.mem_cons.mp hq with rfl | hq
              · rcases hQ with hQ | ⟨_, loc2, hloc2, hQ⟩
                · exact absurd hQ hpat
                · rw [hloc] at hloc2
                  cases hloc2
                  exact absurd hQ hlp
              · exact ⟨q, hq, hQ⟩
      · refine ⟨b, ?_, ?_⟩
        · simp [hasSimpleParamsLoop, hpat, classofKind, hcp, hb]
        · rw [hiff]
          constructor
          · rintro ⟨q, hq, hQ⟩
            exact ⟨q, List.mem_cons_of_mem _ hq, hQ⟩
          · rintro ⟨q, hq, hQ⟩
            rcases List.mem_cons.mp hq with rfl | hq
            · rcases hQ with hQ | ⟨hQ, _⟩
              · exact absurd hQ hpat
              · exact absurd hQ hcp
            · exact ⟨q, hq, hQ⟩

/-- C7: on a well-formed function-like node `hasSimpleParams` returns normally, and it returns
false exactly when some parameter has a kind in the `Pattern` range (`ObjectPattern`,
`ArrayPattern`, `RestElement`, `AssignmentPattern`) or is a `ComponentParameter` whose
`local` child has such a kind; otherwise it returns true. -/
theorem hasSimpleParams_false_iff (fn : Node) (hwf : fn.wf = true)
    (hfl : FunctionLikeNode.classof fn.getKind = true) :
    ∃ params b, getParams fn = some params ∧ hasSimpleParams fn = some b ∧
      (b = false ↔ ∃ p ∈ params,
        p.getKind ∈ [NodeKind.ObjectPattern, NodeKind.ArrayPattern, NodeKind.RestElement,
          NodeKind.AssignmentPattern] ∨
        (p.getKind = NodeKind.ComponentParameter ∧
          ∃ loc, p.ptrField "local" = some (some loc) ∧
            loc.getKind ∈ [NodeKind.ObjectPattern, NodeKind.ArrayPattern,
              NodeKind.RestElement, NodeKind.AssignmentPattern])) := by
  obtain ⟨params, hp, hw⟩ := getParams_wf fn hwf hfl
  obtain ⟨b, hb, hiff⟩ := hasSimpleParamsLoop_spec params hw
  refine ⟨params, b, hp, by simp [hasSimpleParams, hp, hb], ?_⟩
  rw [hiff]
  simp only [pattern_classof_iff]

theorem hasSimpleParams_false_iff_witness :
    (Sample.functionExpression [Sample.ident "a", Sample.ident "b"] (Sample.block [])).wf = true ∧
    hasSimpleParams
      (Sample.functionExpression [Sample.ident "a", Sample.ident "b"] (Sample.block [])) =
        some true ∧
    hasSimpleParams (Sample.functionExpression [] (Sample.block [])) = some true ∧
    ∃ params b,
      getParams (Sample.functionExpression [Sample.ident "a", Sample.ident "b"]
        (Sample.block [])) = some params ∧
      hasSimpleParams (Sample.functionExpression [Sample.ident "a", Sample.ident "b"]
        (Sample.block [])) = some b ∧
      (b = false ↔ ∃ p ∈ params,
        p.getKind ∈ [NodeKind.ObjectPattern, NodeKind.ArrayPattern, NodeKind.RestElement,
          NodeKind.AssignmentPattern] ∨
        (p.getKind = NodeKind.ComponentParameter ∧
          ∃ loc, p.ptrField "local" = some (some loc) ∧
            loc.getKind ∈ [NodeKind.ObjectPattern, NodeKind.ArrayPattern,
              NodeKind.RestElement, NodeKind.AssignmentPattern])) :=
  ⟨by decide, by decide, by decide,
    hasSimpleParams_false_iff
      (Sample.functionExpression [Sample.ident "a", Sample.ident "b"] (Sample.block []))
      (by decide) (by decide)⟩

/-- C8: the code at a failing input. The parameter list of `Sample.componentWithDefaults`
holds an `AssignmentPattern` (its second element), yet `hasParamExpressions` returns false,
because the first element is a `ComponentParameter` whose `local` is an `AssignmentPattern`
and the scan returns false there. -/
theorem hasParamExpressions_componentWithDefaults :
    Sample.componentWithDefaults.wf = true ∧
    FunctionLikeNode.classof Sample.componentWithDefaults.getKind = true ∧
    (∃ params, getParams Sample.componentWithDefaults = some params ∧
      ∃ p ∈ params, p.getKind = NodeKind.AssignmentPattern) ∧
    hasParamExpressions Sample.componentWithDefaults = some false := by
  refine ⟨by decide, by decide, ⟨_, rfl, ?_⟩, by decide⟩
  exact ⟨Sample.assignmentPattern (Sample.ident "b") (Sample.ident "y"), by simp, rfl⟩


/-! ## `getParams` and `getBlockStatement` -/

theorem argIndex_params :
    argIndex NodeKind.FunctionExpression "params" = some 1 ∧
    argIndex NodeKind.ArrowFunctionExpression "params" = some 1 ∧
    argIndex NodeKind.FunctionDeclaration "params" = some 1 ∧
    argIndex NodeKind.ComponentDeclaration "params" = some 1 ∧
    argIndex NodeKind.HookDeclaration "params" = some 1 := by
  decide

/-- C9: `getParams` returns the node's own `params` member for `FunctionExpression`,
`ArrowFunctionExpression`, `FunctionDeclaration`, `ComponentDeclaration` and
`HookDeclaration` records, whatever their base state and other fields are; for a `Program`
it returns the program's `dummyParamList`, which is empty on a freshly constructed
`Program`. -/
theorem getParams_returns_params :
    (∀ (b : NodeBase) (d : Decoration) (dummy : NodeList) (id : NodePtr) (params : NodeList)
        (body typeParameters returnType predicate : NodePtr) (flag async : Bool),
      b.kind_ = NodeKind.FunctionExpression ∨ b.kind_ = NodeKind.ArrowFunctionExpression ∨
        b.kind_ = NodeKind.FunctionDeclaration →
      getParams (Node.mk b d dummy [.ptr id, .list params, .ptr body, .ptr typeParameters,
        .ptr returnType, .ptr predicate, .boolean flag, .boolean async]) = some params) ∧
    (∀ (b : NodeBase) (d : Decoration) (dummy : NodeList) (id : NodePtr) (params : NodeList)
        (body typeParameters resultType : NodePtr),
      b.kind_ = NodeKind.ComponentDeclaration ∨ b.kind_ = NodeKind.HookDeclaration →
      getParams (Node.mk b d dummy [.ptr id, .list params, .ptr body, .ptr typeParameters,
        .ptr resultType]) = some params) ∧
    (∀ (b : NodeBase) (d : Decoration) (dummy : NodeList) (args : List FieldVal),
      b.kind_ = NodeKind.Program →
      getParams (Node.mk b d dummy args) = some dummy) ∧
    (∀ body : NodeList,
      (Node.create NodeKind.Program [.list body]).dummyParamList = [] ∧
      getParams (Node.create NodeKind.Program [.list body]) = some []) := by
  have h4 : argIndex 4 "params" = some 1 := argIndex_params.1
  have h5 : argIndex 5 "params" = some 1 := argIndex_params.2.1
  have h6 : argIndex 6 "params" = some 1 := argIndex_params.2.2.1
  have h7 : argIndex 7 "params" = some 1 := argIndex_params.2.2.2.1
  have h8 : argIndex 8 "params" = some 1 := argIndex_params.2.2.2.2
  refine ⟨?_, ?_, ?_, ?_⟩
  · intro b d dummy id params body tp rt pred flag async hk
    rcases hk with hk | hk | hk <;>
      simp [getParams, cast, classofKind, Node.getKind, Node.base, Node.listField, Node.field,
        Node.args, hk, h4, h5, h6, NodeKind.FunctionExpression,
        NodeKind.ArrowFunctionExpression, NodeKind.FunctionDeclaration]
  · intro b d dummy id params body tp rt hk
    rcases hk with hk | hk <;>
      simp [getParams, cast, classofKind, Node.getKind, Node.base, Node.listField, Node.field,
        Node.args, hk, h7, h8, NodeKind.FunctionExpression,
        NodeKind.ArrowFunctionExpression, NodeKind.FunctionDeclaration,
        NodeKind.ComponentDeclaration, NodeKind.HookDeclaration]
  · intro b d dummy args hk
    simp [getParams, cast, classofKind, Node.getKind, Node.base, Node.dummyParamList, hk,
      NodeKind.FunctionExpression, NodeKind.ArrowFunctionExpression,
      NodeKind.FunctionDeclaration, NodeKind.ComponentDeclaration, NodeKind.HookDeclaration,
      NodeKind.Program]
  · intro body
    exact ⟨rfl, rfl⟩

theorem getParams_returns_params_witness :
    getParams (Sample.functionExpression [Sample.ident "a"] (Sample.block [])) =
      some [Sample.ident "a"] ∧
    getParams (Sample.componentDeclaration (Sample.ident "C") [Sample.ident "a"]
      (Sample.block [])) = some [Sample.ident "a"] ∧
    getParams (Sample.program [Sample.block []]) = some [] :=
  ⟨getParams_returns_params.1 _ _ _ _ _ _ _ _ _ _ _ (Or.inl rfl),
   getParams_returns_params.2.1 _ _ _ _ _ _ _ _ (Or.inl rfl),
   getParams_returns_params.2.2.1 _ _ _ _ rfl⟩

/-- The body of a well-formed function-like node other than `Program` is non-null. -/
theorem functionLike_body (fn : Node) (hwf : fn.wf = true)
    (hk : fn.getKind = NodeKind.FunctionExpression ∨
      fn.getKind = NodeKind.ArrowFunctionExpression ∨
      fn.getKind = NodeKind.FunctionDeclaration ∨
      fn.getKind = NodeKind.ComponentDeclaration ∨ fn.getKind = NodeKind.HookDeclaration) :
    ∃ body, fn.ptrField "body" = some (some body) ∧ body.wf = true := by
  rcases hk with hk | hk | hk | hk | hk <;>
    exact wf_ptrField fn _ "body" 2 (arg .NodePtr "body" false) hwf hk (by decide) (by decide)
      rfl rfl

/-- C10, as the code has it: on a well-formed function-like node `getBlockStatement` returns
the body when the body is a `BlockStatement`; it returns null for a `Program` and for an
`ArrowFunctionExpression` whose body is not a `BlockStatement`; for a `FunctionExpression`,
`FunctionDeclaration`, `ComponentDeclaration` or `HookDeclaration` whose body is not a
`BlockStatement` the checked `cast` faults. -/
theorem getBlockStatement_spec (fn : Node) (hwf : fn.wf = true)
    (hfl : FunctionLikeNode.classof fn.getKind = true) :
    (fn.getKind = NodeKind.Program → getBlockStatement fn = some none) ∧
    (fn.getKind ≠ NodeKind.Program →
      ∃ body, fn.ptrField "body" = some (some body) ∧
        (body.getKind = NodeKind.BlockStatement →
          getBlockStatement fn = some (some body)) ∧
        (body.getKind ≠ NodeKind.BlockStatement →
          (fn.getKind = NodeKind.ArrowFunctionExpression →
            getBlockStatement fn = some none) ∧
          (fn.getKind ≠ NodeKind.ArrowFunctionExpression →
            getBlockStatement fn = none))) := by
  rw [functionLike_classof_eq] at hfl
  simp only [Bool.and_eq_true, decide_eq_true_eq] at hfl
  have hcases : fn.getKind = NodeKind.Program ∨ fn.getKind = NodeKind.FunctionExpression ∨
      fn.getKind = NodeKind.ArrowFunctionExpression ∨
      fn.getKind = NodeKind.FunctionDeclaration ∨
      fn.getKind = NodeKind.ComponentDeclaration ∨ fn.getKind = NodeKind.HookDeclaration := by
    have h : ∀ k : Nat, 2 < k → k < 9 → k = 3 ∨ k = 4 ∨ k = 5 ∨ k = 6 ∨ k = 7 ∨ k = 8 := by
      omega
    exact h fn.getKind hfl.1 hfl.2
  constructor
  · intro hk
    simp [getBlockStatement, hk, NodeKind.FunctionExpression,
      NodeKind.ArrowFunctionExpression, NodeKind.FunctionDeclaration,
      NodeKind.ComponentDeclaration, NodeKind.HookDeclaration, NodeKind.Program]
  · intro hnp
    rcases hcases with hk | hk
    · exact absurd hk hnp
    · obtain ⟨body, hbody, _⟩ := functionLike_body fn hwf hk
      refine ⟨body, hbody, ?_, ?_⟩
      · intro hb
        rcases hk with hk | hk | hk | hk | hk <;>
          simp [getBlockStatement, hk, cast, dyn_cast, classofKind, hbody, hb,
            NodeKind.FunctionExpression, NodeKind.ArrowFunctionExpression,
            NodeKind.FunctionDeclaration, NodeKind.ComponentDeclaration,
            NodeKind.HookDeclaration]
      · intro hb
        rcases hk with hk | hk | hk | hk | hk <;>
          simp [getBlockStatement, hk, cast, dyn_cast, classofKind, hbody, hb,
            NodeKind.FunctionExpression, NodeKind.ArrowFunctionExpression,
            NodeKind.FunctionDeclaration, NodeKind.ComponentDeclaration,
            NodeKind.HookDeclaration]

theorem getBlockStatement_spec_witness :
    (Sample.arrowFunctionExpression [] (Sample.ident "x") true).wf = true ∧
    FunctionLikeNode.classof
      (Sample.arrowFunctionExpression [] (Sample.ident "x") true).getKind = true ∧
    getBlockStatement (Sample.arrowFunctionExpression [] (Sample.ident "x") true) =
      some none ∧
    getBlockStatement (Sample.functionExpression [] (Sample.block [])) =
      some (some (Sample.block [])) ∧
    getBlockStatement (Sample.program []) = some none ∧
    ∃ body,
      (Sample.arrowFunctionExpression [] (Sample.ident "x") true).ptrField "body" =
        some (some body) ∧
      (body.getKind = NodeKind.BlockStatement →
        getBlockStatement (Sample.arrowFunctionExpression [] (Sample.ident "x") true) =
          some (some body)) ∧
      (body.getKind ≠ NodeKind.BlockStatement →
        ((Sample.arrowFunctionExpression [] (Sample.ident "x") true).getKind =
            NodeKind.ArrowFunctionExpression →
          getBlockStatement (Sample.arrowFunctionExpression [] (Sample.ident "x") true) =
            some none) ∧
        ((Sample.arrowFunctionExpression [] (Sample.ident "x") true).getKind ≠
            NodeKind.ArrowFunctionExpression →
          getBlockStatement (Sample.arrowFunctionExpression [] (Sample.ident "x") true) =
            none)) :=
  ⟨by decide, by decide, rfl, rfl, rfl,
    (getBlockStatement_spec (Sample.arrowFunctionExpression [] (Sample.ident "x") true)
      (by decide) (by decide)).2 (by decide)⟩

/-- C10 as stated fails: `Sample.functionWithIdentifierBody` is a well-formed function-like
node whose body is not a `BlockStatement`, and `getBlockStatement` faults on it instead of
returning null. -/
theorem getBlockStatement_faults_on_non_block_body :
    Sample.functionWithIdentifierBody.wf = true ∧
    FunctionLikeNode.classof Sample.functionWithIdentifierBody.getKind = true ∧
    (∃ body, Sample.functionWithIdentifierBody.ptrField "body" = some (some body) ∧
      body.getKind ≠ NodeKind.BlockStatement) ∧
    getBlockStatement Sample.functionWithIdentifierBody = none ∧
    getBlockStatement Sample.functionWithIdentifierBody ≠ some none := by
  refine ⟨by decide, by decide, ⟨Sample.ident "x", rfl, by decide⟩, rfl, ?_⟩
  intro h
  have h2 : getBlockStatement Sample.functionWithIdentifierBody = none := rfl
  rw [h2] at h
  cases h


/-! ## Expression linearization -/

theorem hasExprMembers_entries :
    allEntriesFrom (fun k e =>
      match e with
      | .node _ _ args =>
        !((args.findIdx? (fun a => a.name == "left")).isSome &&
          (args.findIdx? (fun a => a.name == "right")).isSome &&
          (args.findIdx? (fun a => a.name == "operator")).isSome) ||
        (k == NodeKind.AssignmentExpression || k == NodeKind.LogicalExpression ||
          k == NodeKind.BinaryExpression)
      | _ => true) 0 schema = true := by
  decide!

/-- Only `AssignmentExpression`, `LogicalExpression` and `BinaryExpression` have the three
members `_left`, `_right` and `_operator`. -/
theorem hasExprMembers_cases (N : NodeKind) (h : hasExprMembers N = true) :
    N = NodeKind.AssignmentExpression ∨ N = NodeKind.LogicalExpression ∨
      N = NodeKind.BinaryExpression := by
  cases hs : schema[N]? with
  | none => simp [hasExprMembers, argIndex, argSpecs, hs] at h
  | some e =>
    have hP := allEntriesFrom_getElem _ schema 0 N e hasExprMembers_entries hs
    cases e with
    | first n b => simp [hasExprMembers, argIndex, argSpecs, hs] at h
    | last n => simp [hasExprMembers, argIndex, argSpecs, hs] at h
    | node n b args =>
      simp only [hasExprMembers, argIndex, argSpecs, hs] at h
      simp only [Nat.zero_add, h, Bool.not_true, Bool.false_or, Bool.or_eq_true,
        beq_iff_eq] at hP
      rcases hP with (hP | hP) | hP
      · exact Or.inl hP
      · exact Or.inr (Or.inl hP)
      · exact Or.inr (Or.inr hP)

theorem exprForm_left (e : Node) (hwf : e.wf = true) (hN : hasExprMembers e.getKind = true) :
    ∃ l, e.ptrField "left" = some (some l) ∧ l.wf = true := by
  rcases hasExprMembers_cases _ hN with hk | hk | hk
  · exact wf_ptrField e _ "left" 1 (arg .NodePtr "left" false) hwf hk (by decide) (by decide)
      rfl rfl
  · exact wf_ptrField e _ "left" 0 (arg .NodePtr "left" false) hwf hk (by decide) (by decide)
      rfl rfl
  · exact wf_ptrField e _ "left" 0 (arg .NodePtr "left" false) hwf hk (by decide) (by decide)
      rfl rfl

theorem exprForm_right (e : Node) (hwf : e.wf = true) (hN : hasExprMembers e.getKind = true) :
    ∃ r, e.ptrField "right" = some (some r) ∧ r.wf = true := by
  rcases hasExprMembers_cases _ hN with hk | hk | hk
  · exact wf_ptrField e _ "right" 2 (arg .NodePtr "right" false) hwf hk (by decide) (by decide)
      rfl rfl
  · exact wf_ptrField e _ "right" 1 (arg .NodePtr "right" false) hwf hk (by decide) (by decide)
      rfl rfl
  · exact wf_ptrField e _ "right" 1 (arg .NodePtr "right" false) hwf hk (by decide) (by decide)
      rfl rfl

theorem exprForm_operator (e : Node) (hwf : e.wf = true)
    (hN : hasExprMembers e.getKind = true) :
    ∃ op, e.strField "operator" = some (some op) := by
  rcases hasExprMembers_cases _ hN with hk | hk | hk
  · exact wf_strField e _ "operator" 0 (arg .NodeLabel "operator" false) hwf hk (by decide)
      (by decide) rfl rfl
  · exact wf_strField e _ "operator" 2 (arg .NodeLabel "operator" false) hwf hk (by decide)
      (by decide) rfl rfl
  · exact wf_strField e _ "operator" 2 (arg .NodeLabel "operator" false) hwf hk (by decide)
      (by decide) rfl rfl

theorem sizeArg_le_sizeArgs :
    ∀ (args : List FieldVal) (i : Nat) (v : FieldVal),
      args[i]? = some v → sizeArg v ≤ sizeArgs args := by
  intro args
  induction args with
  | nil => intro i v h; simp at h
  | cons a args ih =>
    intro i v h
    cases i with
    | zero =>
      simp at h
      subst h
      simp only [sizeArgs]
      omega
    | succ i =>
      simp only [List.getElem?_cons_succ] at h
      have := ih i v h
      simp only [sizeArgs]
      omega

/-- A child reached through a pointer member is a smaller tree. -/
theorem size_ptrField_lt (n c : Node) (name : String)
    (h : n.ptrField name = some (some c)) : c.size < n.size := by
  cases n with
  | mk b d dummy args =>
    unfold Node.ptrField Node.field at h
    cases hi : argIndex (Node.mk b d dummy args).getKind name with
    | none => simp [hi] at h
    | some i =>
      simp only [hi, Node.args] at h
      cases hv : args[i]? with
      | none => simp [hv] at h
      | some v =>
        simp only [hv] at h
        cases v with
        | ptr p =>
          simp at h
          subst h
          have := sizeArg_le_sizeArgs args i _ hv
          simp only [sizeArg] at this
          simp only [Node.size]
          omega
        | list l => simp at h
        | str s => simp at h
        | boolean x => simp at h
        | number x => simp at h

theorem Node.size_pos (n : Node) : 0 < n.size := by
  cases n with
  | mk b d dummy args =>
    simp only [Node.size]
    omega

/-- What `checkExprOperator` returns on a non-null well-formed node. -/
theorem checkExprOperator_some (N : NodeKind) (ops : List String) (c : Node)
    (hN : hasExprMembers N = true) (hwf : c.wf = true) :
    (matchesOps N ops c → checkExprOperator N (some c) ops = some (some c)) ∧
    (¬ matchesOps N ops c → checkExprOperator N (some c) ops = some none) := by
  by_cases hk : c.getKind = N
  · obtain ⟨op, hop⟩ := exprForm_operator c hwf (by rw [hk]; exact hN)
    constructor
    · rintro ⟨_, op2, hop2, hmem⟩
      rw [hop] at hop2
      cases hop2
      simp [checkExprOperator, dyn_cast, classofKind, hk, hop, hmem]
    · intro hnot
      have hmem : op ∉ ops := fun hm => hnot ⟨hk, op, hop, hm⟩
      simp [checkExprOperator, dyn_cast, classofKind, hk, hop, hmem]
  · constructor
    · rintro ⟨h, _⟩
      exact absurd h hk
    · intro _
      simp [checkExprOperator, dyn_cast, classofKind, hk]

theorem linearizeLeftLoop_spec (N : NodeKind) (ops : List String)
    (hN : hasExprMembers N = true) :
    ∀ (fuel : Nat) (e : Node) (vec : List Node), e.size ≤ fuel → e.wf = true →
      e.getKind = N →
      ∃ chain, linearizeLeftLoop N ops fuel e vec = some (vec ++ chain) ∧
        isSpine N ops "left" e chain := by
  intro fuel
  induction fuel with
  | zero =>
    intro e vec hsz
    have := e.size_pos
    omega
  | succ fuel ih =>
    intro e vec hsz hwf hk
    obtain ⟨l, hl, hlwf⟩ := exprForm_left e hwf (by rw [hk]; exact hN)
    have hlt := size_ptrField_lt e l "left" hl
    have hc := checkExprOperator_some N ops l hN hlwf
    by_cases hm : matchesOps N ops l
    · obtain ⟨chain, hloop, hsp⟩ := ih l (vec ++ [l]) (by omega) hlwf hm.1
      refine ⟨l :: chain, ?_, hl, hm, hsp⟩
      simp [linearizeLeftLoop, hl, hc.1 hm, hloop]
    · refine ⟨[], ?_, l, hl, hm⟩
      simp [linearizeLeftLoop, hl, hc.2 hm]

theorem linearizeRightLoop_spec (N : NodeKind) (ops : List String)
    (hN : hasExprMembers N = true) :
    ∀ (fuel : Nat) (e : Node) (vec : List Node), e.size ≤ fuel → e.wf = true →
      e.getKind = N →
      ∃ chain, linearizeRightLoop N ops fuel e vec = some (vec ++ chain) ∧
        isSpine N ops "right" e chain := by
  intro fuel
  induction fuel with
  | zero =>
    intro e vec hsz
    have := e.size_pos
    omega
  | succ fuel ih =>
    intro e vec hsz hwf hk
    obtain ⟨r, hr, hrwf⟩ := exprForm_right e hwf (by rw [hk]; exact hN)
    have hlt := size_ptrField_lt e r "right" hr
    have hc := checkExprOperator_some N ops r hN hrwf
    by_cases hm : matchesOps N ops r
    · obtain ⟨chain, hloop, hsp⟩ := ih r (vec ++ [r]) (by omega) hrwf hm.1
      refine ⟨r :: chain, ?_, hr, hm, hsp⟩
      simp [linearizeRightLoop, hr, hc.1 hm, hloop]
    · refine ⟨[], ?_, r, hr, hm⟩
      simp [linearizeRightLoop, hr, hc.2 hm]

/-- Along a spine each node is the `side` child of the one before it. -/
theorem isSpine_step (N : NodeKind) (ops : List String) (side : String) :
    ∀ (chain : List Node) (e : Node), isSpine N ops side e chain →
      ∀ (i : Nat) (a b : Node), (e :: chain)[i]? = some a → (e :: chain)[i + 1]? = some b →
        a.ptrField side = some (some b) := by
  intro chain
  induction chain with
  | nil =>
    intro e _ i a b _ hb
    simp at hb
  | cons c cs ih =>
    intro e hsp i a b ha hb
    obtain ⟨hec, _, hrest⟩ := hsp
    cases i with
    | zero =>
      simp at ha hb
      subst ha
      subst hb
      exact hec
    | succ i =>
      simp only [List.getElem?_cons_succ] at ha hb
      exact ih c hrest i a b ha (by simpa using hb)

/-- The `side` child of the last node of a spine does not match. -/
theorem isSpine_last (N : NodeKind) (ops : List String) (side : String) :
    ∀ (chain : List Node) (e : Node), isSpine N ops side e chain →
      ∃ last l, (e :: chain).getLast? = some last ∧ last.ptrField side = some (some l) ∧
        ¬ matchesOps N ops l := by
  intro chain
  induction chain with
  | nil =>
    intro e hsp
    obtain ⟨l, hl, hm⟩ := hsp
    exact ⟨e, l, rfl, hl, hm⟩
  | cons c cs ih =>
    intro e hsp
    obtain ⟨_, _, hrest⟩ := hsp
    obtain ⟨last, l, hlast, hl, hm⟩ := ih c hrest
    refine ⟨last, l, ?_, hl, hm⟩
    rw [List.getLast?_cons_cons]
    exact hlast


/-- C5: for every well-formed node `e` of a form `N` that has `_left`, `_right` and
`_operator`, and every operator list, `linearizeLeft` returns (with any fuel from `e.size`
on) a non-empty sequence whose last element is `e`, in which the left child of each element
after the first is the element before it, and the left child of the first element is not a
node of form `N` with an operator in `ops`. On `((a + b) - c) + d` with `+` and `-` the
result has three elements: the right children of the last two are `d` and `c`, and the first
has left child `a` and right child `b`. -/
theorem linearizeLeft_spec :
    (∀ (N : NodeKind) (e : Node) (ops : List String),
      hasExprMembers N = true → e.getKind = N → e.wf = true →
      ∃ v, linearizeLeft N e ops = some v ∧
        (∀ fuel, e.size ≤ fuel →
          (linearizeLeftLoop N ops fuel e [e]).map List.reverse = some v) ∧
        v ≠ [] ∧ v.getLast? = some e ∧
        (∀ (i : Nat) (a b : Node), v[i]? = some a → v[i + 1]? = some b →
          b.ptrField "left" = some (some a)) ∧
        (∃ first l, v.head? = some first ∧ first.ptrField "left" = some (some l) ∧
          ¬ (l.getKind = N ∧ ∃ op, l.strField "operator" = some (some op) ∧ op ∈ ops))) ∧
    (linearizeLeft NodeKind.BinaryExpression Sample.sumOuter ["+", "-"] =
        some [Sample.sumInner, Sample.sumMiddle, Sample.sumOuter] ∧
      Sample.sumOuter.ptrField "right" = some (some (Sample.ident "d")) ∧
      Sample.sumMiddle.ptrField "right" = some (some (Sample.ident "c")) ∧
      Sample.sumInner.ptrField "left" = some (some (Sample.ident "a")) ∧
      Sample.sumInner.ptrField "right" = some (some (Sample.ident "b"))) := by
  refine ⟨?_, rfl, rfl, rfl, rfl, rfl⟩
  intro N e ops hN hk hwf
  obtain ⟨chain, hloop, hsp⟩ := linearizeLeftLoop_spec N ops hN e.size e [e] (Nat.le_refl _) hwf hk
  refine ⟨(e :: chain).reverse, ?_, ?_, ?_, ?_, ?_, ?_⟩
  · simp [linearizeLeft, hloop]
  · intro fuel hf
    obtain ⟨chain2, hloop2, hsp2⟩ := linearizeLeftLoop_spec N ops hN fuel e [e] hf hwf hk
    have huniq : ∀ (c1 c2 : List Node) (x : Node), isSpine N ops "left" x c1 →
        isSpine N ops "left" x c2 → c1 = c2 := by
      intro c1
      induction c1 with
      | nil =>
        intro c2 x h1 h2
        cases c2 with
        | nil => rfl
        | cons c cs =>
          obtain ⟨l, hl, hm⟩ := h1
          obtain ⟨hc, hmc, _⟩ := h2
          rw [hl] at hc
          cases hc
          exact absurd hmc hm
      | cons c cs ih =>
        intro c2 x h1 h2
        cases c2 with
        | nil =>
          obtain ⟨hc, hmc, _⟩ := h1
          obtain ⟨l, hl, hm⟩ := h2
          rw [hl] at hc
          cases hc
          exact absurd hmc hm
        | cons c' cs' =>
          obtain ⟨hc, _, hr⟩ := h1
          obtain ⟨hc', _, hr'⟩ := h2
          rw [hc] at hc'
          cases hc'
          rw [ih cs' c hr hr']
    rw [hloop2, huniq chain2 chain e hsp2 hsp]
    rfl
  · simp
  · simp
  · intro i a b ha hb
    have hlen : i + 1 < (e :: chain).reverse.length := (List.getElem?_eq_some.mp hb).1
    rw [List.length_reverse] at hlen
    have e1 : (e :: chain).reverse[i]? = (e :: chain)[(e :: chain).length - 2 - i + 1]? :=
      List.getElem?_reverse' _ _ (by omega)
    have e2 : (e :: chain).reverse[i + 1]? = (e :: chain)[(e :: chain).length - 2 - i]? :=
      List.getElem?_reverse' _ _ (by omega)
    rw [e1] at ha
    rw [e2] at hb
    exact isSpine_step N ops "left" chain e hsp _ b a hb ha
  · obtain ⟨last, l, hlast, hl, hm⟩ := isSpine_last N ops "left" chain e hsp
    exact ⟨last, l, by rw [List.head?_reverse]; exact hlast, hl, hm⟩

theorem linearizeLeft_spec_witness :
    hasExprMembers NodeKind.BinaryExpression = true ∧ Sample.sumOuter.wf = true ∧
    ∃ v, linearizeLeft NodeKind.BinaryExpression Sample.sumOuter ["+", "-"] = some v ∧
      (∀ fuel, Sample.sumOuter.size ≤ fuel →
        (linearizeLeftLoop NodeKind.BinaryExpression ["+", "-"] fuel Sample.sumOuter
          [Sample.sumOuter]).map List.reverse = some v) ∧
      v ≠ [] ∧ v.getLast? = some Sample.sumOuter ∧
      (∀ (i : Nat) (a b : Node), v[i]? = some a → v[i + 1]? = some b →
        b.ptrField "left" = some (some a)) ∧
      (∃ first l, v.head? = some first ∧ first.ptrField "left" = some (some l) ∧
        ¬ (l.getKind = NodeKind.BinaryExpression ∧
          ∃ op, l.strField "operator" = some (some op) ∧ op ∈ ["+", "-"])) :=
  ⟨by decide, by decide,
    linearizeLeft_spec.1 NodeKind.BinaryExpression Sample.sumOuter ["+", "-"] (by decide) rfl
      (by decide)⟩

/-- C6: for every well-formed node `e` of a form `N` that has `_left`, `_right` and
`_operator`, and every operator list, `linearizeRight` returns (with any fuel from `e.size`
on) a non-empty sequence whose first element is `e`, in which the right child of each element
is the next element, and the right child of the last element is not a node of form `N` with
an operator in `ops`. On `a = (b = (c = d))` with `=` the result has three elements, the
first with left child `a` and the last with right child `d`. -/
theorem linearizeRight_spec :
    (∀ (N : NodeKind) (e : Node) (ops : List String),
      hasExprMembers N = true → e.getKind = N → e.wf = true →
      ∃ v, linearizeRight N e ops = some v ∧
        (∀ fuel, e.size ≤ fuel → linearizeRightLoop N ops fuel e [e] = some v) ∧
        v ≠ [] ∧ v.head? = some e ∧
        (∀ (i : Nat) (a b : Node), v[i]? = some a → v[i + 1]? = some b →
          a.ptrField "right" = some (some b)) ∧
        (∃ last r, v.getLast? = some last ∧ last.ptrField "right" = some (some r) ∧
          ¬ (r.getKind = N ∧ ∃ op, r.strField "operator" = some (some op) ∧ op ∈ ops))) ∧
    (linearizeRight NodeKind.AssignmentExpression Sample.assignOuter ["="] =
        some [Sample.assignOuter, Sample.assignMiddle, Sample.assignInner] ∧
      Sample.assignOuter.ptrField "left" = some (some (Sample.ident "a")) ∧
      Sample.assignInner.ptrField "right" = some (some (Sample.ident "d"))) := by
  refine ⟨?_, rfl, rfl, rfl⟩
  intro N e ops hN hk hwf
  obtain ⟨chain, hloop, hsp⟩ :=
    linearizeRightLoop_spec N ops hN e.size e [e] (Nat.le_refl _) hwf hk
  refine ⟨e :: chain, ?_, ?_, ?_, ?_, ?_, ?_⟩
  · simpa [linearizeRight] using hloop
  · intro fuel hf
    obtain ⟨chain2, hloop2, hsp2⟩ := linearizeRightLoop_spec N ops hN fuel e [e] hf hwf hk
    have huniq : ∀ (c1 c2 : List Node) (x : Node), isSpine N ops "right" x c1 →
        isSpine N ops "right" x c2 → c1 = c2 := by
      intro c1
      induction c1 with
      | nil =>
        intro c2 x h1 h2
        cases c2 with
        | nil => rfl
        | cons c cs =>
          obtain ⟨l, hl, hm⟩ := h1
          obtain ⟨hc, hmc, _⟩ := h2
          rw [hl] at hc
          cases hc
          exact absurd hmc hm
      | cons c cs ih =>
        intro c2 x h1 h2
        cases c2 with
        | nil =>
          obtain ⟨hc, hmc, _⟩ := h1
          obtain ⟨l, hl, hm⟩ := h2
          rw [hl] at hc
          cases hc
          exact absurd hmc hm
        | cons c' cs' =>
          obtain ⟨hc, _, hr⟩ := h1
          obtain ⟨hc', _, hr'⟩ := h2
          rw [hc] at hc'
          cases hc'
          rw [ih cs' c hr hr']
    rw [hloop2, huniq chain2 chain e hsp2 hsp]
    rfl
  · simp
  · simp
  · intro i a b ha hb
    exact isSpine_step N ops "right" chain e hsp i a b ha hb
  · exact isSpine_last N ops "right" chain e hsp

theorem linearizeRight_spec_witness :
    hasExprMembers NodeKind.AssignmentExpression = true ∧ Sample.assignOuter.wf = true ∧
    ∃ v, linearizeRight NodeKind.AssignmentExpression Sample.assignOuter ["="] = some v ∧
      (∀ fuel, Sample.assignOuter.size ≤ fuel →
        linearizeRightLoop NodeKind.AssignmentExpression ["="] fuel Sample.assignOuter
          [Sample.assignOuter] = some v) ∧
      v ≠ [] ∧ v.head? = some Sample.assignOuter ∧
      (∀ (i : Nat) (a b : Node), v[i]? = some a → v[i + 1]? = some b →
        a.ptrField "right" = some (some b)) ∧
      (∃ last r, v.getLast? = some last ∧ last.ptrField "right" = some (some r) ∧
        ¬ (r.getKind = NodeKind.AssignmentExpression ∧
          ∃ op, r.strField "operator" = some (some op) ∧ op ∈ ["="])) :=
  ⟨by decide, by decide,
    linearizeRight_spec.1 NodeKind.AssignmentExpression Sample.assignOuter ["="] (by decide)
      rfl (by decide)⟩


/-! ## Traversal -/

theorem enters_append (a b : List Event) : enters (a ++ b) = enters a ++ enters b := by
  induction a with
  | nil => rfl
  | cons e a ih =>
    cases e <;> simp [enters, ih]

theorem wfArgs_cons_inv {specs : List ArgSpec} {v : FieldVal} {vs : List FieldVal}
    (h : wfArgs specs (v :: vs) = true) :
    ∃ spec rest, wfArg spec v = true ∧ wfArgs rest vs = true := by
  cases specs with
  | nil => simp [wfArgs] at h
  | cons spec rest =>
    simp only [wfArgs, Bool.and_eq_true] at h
    exact ⟨spec, rest, h.1, h.2⟩

mutual
theorem visitNode_enters {σ : Type} (V : Visitor σ)
    (hsv : ∀ s n, (V.shouldVisit s n).1 = true) :
    ∀ (n : Node) (s : σ) (log : List Event), n.wf = true →
      ∃ s2 ev, visitNode (instrument V) (s, log) n = Outcome.done (s2, log ++ ev) ∧
        enters ev = preorder n
  | .mk b d dummy args, s, log, hwf => by
    have hc : isConcrete b.kind_ = true := Node.wf_concrete _ hwf
    have hargs : wfArgs (argSpecs b.kind_) args = true := Node.wf_args _ hwf
    obtain ⟨s2, ev, hv, he⟩ := visitArgs_enters V hsv args
      (V.enter (V.shouldVisit s (.mk b d dummy args)).2 (.mk b d dummy args))
      ((log ++ [Event.shouldVisit (.mk b d dummy args) true]) ++
        [Event.enter (.mk b d dummy args)]) ⟨_, hargs⟩
    refine ⟨V.leave s2 (.mk b d dummy args),
      [Event.shouldVisit (.mk b d dummy args) true, Event.enter (.mk b d dummy args)] ++ ev ++
        [Event.leave (.mk b d dummy args)], ?_, ?_⟩
    · simp only [visitNode, hc, instrument, hsv, if_true] at hv ⊢
      rw [hv]
      simp [List.append_assoc]
    · simp [enters_append, enters, he, preorder]
theorem visitArgs_enters {σ : Type} (V : Visitor σ)
    (hsv : ∀ s n, (V.shouldVisit s n).1 = true) :
    ∀ (args : List FieldVal) (s : σ) (log : List Event),
      (∃ specs, wfArgs specs args = true) →
      ∃ s2 ev, visitArgs (instrument V) (s, log) args = Outcome.done (s2, log ++ ev) ∧
        enters ev = preorderArgs args
  | [], s, log, _ => ⟨s, [], by simp [visitArgs], by simp [enters, preorderArgs]⟩
  | v :: vs, s, log, ⟨specs, hwf⟩ => by
    obtain ⟨spec, rest, hv, hvs⟩ := wfArgs_cons_inv hwf
    obtain ⟨s1, ev1, h1, e1⟩ := visitArg_enters V hsv v s log ⟨spec, hv⟩
    obtain ⟨s2, ev2, h2, e2⟩ := visitArgs_enters V hsv vs s1 (log ++ ev1) ⟨rest, hvs⟩
    refine ⟨s2, ev1 ++ ev2, ?_, ?_⟩
    · simp only [visitArgs, h1, h2, List.append_assoc]
    · simp [enters_append, e1, e2, preorderArgs]
theorem visitArg_enters {σ : Type} (V : Visitor σ)
    (hsv : ∀ s n, (V.shouldVisit s n).1 = true) :
    ∀ (v : FieldVal) (s : σ) (log : List Event), (∃ spec, wfArg spec v = true) →
      ∃ s2 ev, visitArg (instrument V) (s, log) v = Outcome.done (s2, log ++ ev) ∧
        enters ev = preorderArg v
  | .ptr none, s, log, _ => ⟨s, [], by simp [visitArg], by simp [enters, preorderArg]⟩
  | .ptr (some n), s, log, ⟨spec, hwf⟩ => by
    simp only [wfArg, Bool.and_eq_true] at hwf
    obtain ⟨s2, ev, h, e⟩ := visitNode_enters V hsv n s log hwf.2
    exact ⟨s2, ev, by simp only [visitArg, h], by simp [preorderArg, e]⟩
  | .list l, s, log, ⟨spec, hwf⟩ => by
    simp only [wfArg, Bool.and_eq_true] at hwf
    obtain ⟨s2, ev, h, e⟩ := visitList_enters V hsv l s log hwf.2
    exact ⟨s2, ev, by simp only [visitArg, h], by simp [preorderArg, e]⟩
  | .str _, s, log, _ => ⟨s, [], by simp [visitArg], by simp [enters, preorderArg]⟩
  | .boolean _, s, log, _ => ⟨s, [], by simp [visitArg], by simp [enters, preorderArg]⟩
  | .number _, s, log, _ => ⟨s, [], by simp [visitArg], by simp [enters, preorderArg]⟩
theorem visitList_enters {σ : Type} (V : Visitor σ)
    (hsv : ∀ s n, (V.shouldVisit s n).1 = true) :
    ∀ (l : List Node) (s : σ) (log : List Event), wfList l = true →
      ∃ s2 ev, visitList (instrument V) (s, log) l = Outcome.done (s2, log ++ ev) ∧
        enters ev = preorderList l
  | [], s, log, _ => ⟨s, [], by simp [visitList], by simp [enters, preorderList]⟩
  | n :: ns, s, log, hwf => by
    simp only [wfList, Bool.and_eq_true] at hwf
    obtain ⟨s1, ev1, h1, e1⟩ := visitNode_enters V hsv n s log hwf.1
    obtain ⟨s2, ev2, h2, e2⟩ := visitList_enters V hsv ns s1 (log ++ ev1) hwf.2
    refine ⟨s2, ev1 ++ ev2, ?_, ?_⟩
    · simp only [visitList, h1, h2, List.append_assoc]
    · simp [enters_append, e1, e2, preorderList]
end


/-! ## Fields are stored in declaration order -/

theorem namesDistinct_entries :
    allEntriesFrom (fun _ e =>
      match e with
      | .node _ _ args => namesDistinct args
      | _ => true) 0 schema = true := by
  decide!

theorem namesDistinct_argSpecs (kind : NodeKind) : namesDistinct (argSpecs kind) = true := by
  unfold argSpecs
  cases hs : schema[kind]? with
  | none => rfl
  | some e =>
    have h := allEntriesFrom_getElem _ schema 0 kind e namesDistinct_entries hs
    cases e with
    | first n b => rfl
    | last n => rfl
    | node n b args => exact h

theorem findIdx?_of_namesDistinct :
    ∀ (specs : List ArgSpec) (i : Nat) (spec : ArgSpec), namesDistinct specs = true →
      specs[i]? = some spec → specs.findIdx? (fun a => a.name == spec.name) = some i := by
  intro specs
  induction specs with
  | nil => intro i spec _ h; simp at h
  | cons a rest ih =>
    intro i spec hd h
    simp only [namesDistinct, Bool.and_eq_true, List.all_eq_true] at hd
    cases i with
    | zero =>
      simp at h
      subst h
      simp
    | succ i =>
      simp only [List.getElem?_cons_succ] at h
      have hne : (a.name == spec.name) = false := by
        have := hd.1 spec (List.getElem?_mem h)
        simp only [Bool.not_eq_true', beq_eq_false_iff_ne, ne_eq] at this
        simp only [beq_eq_false_iff_ne, ne_eq]
        exact fun hx => this hx.symm
      rw [List.findIdx?_cons, hne]
      simp only [Bool.false_eq_true, if_false]
      rw [List.findIdx?_succ, ih i spec hd.2 h]
      rfl

theorem wfArgs_length :
    ∀ (specs : List ArgSpec) (args : List FieldVal), wfArgs specs args = true →
      specs.length = args.length := by
  intro specs
  induction specs with
  | nil =>
    intro args h
    cases args with
    | nil => rfl
    | cons v vs => simp [wfArgs] at h
  | cons s rest ih =>
    intro args h
    cases args with
    | nil => simp [wfArgs] at h
    | cons v vs =>
      simp only [wfArgs, Bool.and_eq_true] at h
      simp [ih vs h.2]

/-- In a well-formed node the stored field values are, position by position, the members the
schema declares for the node's kind: looking the declared names up in declaration order
gives back the stored list. -/
theorem wf_args_by_schema (n : Node) (hwf : n.wf = true) :
    (argSpecs n.getKind).map (fun spec => n.field spec.name) = n.args.map some := by
  have hargs := n.wf_args hwf
  have hlen := wfArgs_length _ _ hargs
  apply List.ext_getElem?
  intro i
  simp only [List.getElem?_map]
  cases hs : (argSpecs n.getKind)[i]? with
  | none =>
    have : n.args[i]? = none := by
      apply List.getElem?_eq_none
      rw [← hlen]
      exact (List.getElem?_eq_none_iff.mp hs)
    simp [this]
  | some spec =>
    have hidx := findIdx?_of_namesDistinct _ i spec (namesDistinct_argSpecs n.getKind) hs
    have hlt : i < n.args.length := by
      rw [← hlen]
      exact (List.getElem?_eq_some.mp hs).1
    simp [Node.field, argIndex, hidx, List.getElem?_eq_getElem hlt]

mutual
theorem wf_preorder : ∀ (n : Node), n.wf = true → ∀ m ∈ preorder n, m.wf = true
  | .mk b d dummy args, hwf, m, hm => by
    simp only [preorder, List.mem_cons] at hm
    rcases hm with rfl | hm
    · exact hwf
    · exact wf_preorderArgs args ⟨_, Node.wf_args _ hwf⟩ m hm
theorem wf_preorderArgs : ∀ (args : List FieldVal), (∃ specs, wfArgs specs args = true) →
    ∀ m ∈ preorderArgs args, m.wf = true
  | [], _, m, hm => by simp [preorderArgs] at hm
  | v :: vs, ⟨specs, hwf⟩, m, hm => by
    obtain ⟨spec, rest, hv, hvs⟩ := wfArgs_cons_inv hwf
    simp only [preorderArgs, List.mem_append] at hm
    rcases hm with hm | hm
    · exact wf_preorderArg v ⟨spec, hv⟩ m hm
    · exact wf_preorderArgs vs ⟨rest, hvs⟩ m hm
theorem wf_preorderArg : ∀ (v : FieldVal), (∃ spec, wfArg spec v = true) →
    ∀ m ∈ preorderArg v, m.wf = true
  | .ptr none, _, m, hm => by simp [preorderArg] at hm
  | .ptr (some n), ⟨spec, hwf⟩, m, hm => by
    simp only [wfArg, Bool.and_eq_true] at hwf
    simp only [preorderArg] at hm
    exact wf_preorder n hwf.2 m hm
  | .list l, ⟨spec, hwf⟩, m, hm => by
    simp only [wfArg, Bool.and_eq_true] at hwf
    simp only [preorderArg] at hm
    exact wf_preorderList l hwf.2 m hm
  | .str _, _, m, hm => by simp [preorderArg] at hm
  | .boolean _, _, m, hm => by simp [preorderArg] at hm
  | .number _, _, m, hm => by simp [preorderArg] at hm
theorem wf_preorderList : ∀ (l : List Node), wfList l = true →
    ∀ m ∈ preorderList l, m.wf = true
  | [], _, m, hm => by simp [preorderList] at hm
  | n :: ns, hwf, m, hm => by
    simp only [wfList, Bool.and_eq_true] at hwf
    simp only [preorderList, List.mem_append] at hm
    rcases hm with hm | hm
    · exact wf_preorder n hwf.1 m hm
    · exact wf_preorderList ns hwf.2 m hm
end

/-- C3: for every well-formed tree and every visitor whose `shouldVisit` always answers yes,
`ESTreeVisit` returns, and the nodes it calls `enter` on are, in call order, exactly the
nodes of the tree in depth-first pre-order (fields in declaration order, list elements in
list order): each node reachable through child-pointer and child-list fields once, and no
other node. The fields of every node of the tree are stored in the order the schema declares
them, so the order of `preorder` is declaration order. -/
theorem ESTreeVisit_enters_preorder {σ : Type} (V : Visitor σ) (s : σ) (root : Node)
    (hsv : ∀ s n, (V.shouldVisit s n).1 = true) (hwf : root.wf = true) :
    ∃ s2 log, ESTreeVisit (instrument V) (s, []) (some root) = Outcome.done (s2, log) ∧
      enters log = preorder root ∧
      ∀ n ∈ preorder root,
        (argSpecs n.getKind).map (fun spec => n.field spec.name) = n.args.map some := by
  obtain ⟨s2, ev, h, e⟩ := visitNode_enters V hsv root s [] hwf
  exact ⟨s2, ev, by simpa [ESTreeVisit] using h, e,
    fun n hn => wf_args_by_schema n (wf_preorder root hwf n hn)⟩

theorem ESTreeVisit_enters_preorder_witness :
    Sample.ifStatement.wf = true ∧
    preorder Sample.ifStatement =
      [Sample.ifStatement, Sample.ident "t",
       Sample.block [Node.create NodeKind.ReturnStatement [.ptr (some (Sample.ident "r"))]],
       Node.create NodeKind.ReturnStatement [.ptr (some (Sample.ident "r"))],
       Sample.ident "r"] ∧
    ∃ s2 log,
      ESTreeVisit (instrument (predicateVisitor (fun _ => true))) ((), [])
        (some Sample.ifStatement) = Outcome.done (s2, log) ∧
      enters log = preorder Sample.ifStatement ∧
      ∀ n ∈ preorder Sample.ifStatement,
        (argSpecs n.getKind).map (fun spec => n.field spec.name) = n.args.map some :=
  ⟨by decide, rfl,
    ESTreeVisit_enters_preorder (predicateVisitor (fun _ => true)) () Sample.ifStatement
      (fun _ _ => rfl) (by decide)⟩


theorem subtreeClosed_append {a b : List Node} (ha : SubtreeClosed a) (hb : SubtreeClosed b) :
    SubtreeClosed (a ++ b) := by
  intro m hm c hc
  rcases List.mem_append.mp hm with h | h
  · exact List.mem_append.mpr (Or.inl (ha m h c hc))
  · exact List.mem_append.mpr (Or.inr (hb m h c hc))

theorem subtreeClosed_nil : SubtreeClosed [] := by
  intro m hm
  simp at hm

mutual
theorem preorder_closed : ∀ n : Node, SubtreeClosed (preorder n)
  | .mk b d dummy args => by
    have ih := preorderArgs_closed args
    intro m hm c hc
    simp only [preorder, List.mem_cons] at hm
    rcases hm with rfl | hm
    · exact hc
    · simp only [preorder, List.mem_cons]
      exact Or.inr (ih m hm c hc)
theorem preorderArgs_closed : ∀ args : List FieldVal, SubtreeClosed (preorderArgs args)
  | [] => by simpa [preorderArgs] using subtreeClosed_nil
  | v :: vs => by
    simpa [preorderArgs] using subtreeClosed_append (preorderArg_closed v) (preorderArgs_closed vs)
theorem preorderArg_closed : ∀ v : FieldVal, SubtreeClosed (preorderArg v)
  | .ptr none => by simpa [preorderArg] using subtreeClosed_nil
  | .ptr (some n) => by simpa [preorderArg] using preorder_closed n
  | .list l => by simpa [preorderArg] using preorderList_closed l
  | .str _ => by simpa [preorderArg] using subtreeClosed_nil
  | .boolean _ => by simpa [preorderArg] using subtreeClosed_nil
  | .number _ => by simpa [preorderArg] using subtreeClosed_nil
theorem preorderList_closed : ∀ l : List Node, SubtreeClosed (preorderList l)
  | [] => by simpa [preorderList] using subtreeClosed_nil
  | n :: ns => by
    simpa [preorderList] using subtreeClosed_append (preorder_closed n) (preorderList_closed ns)
end

theorem prunedLog_nil (ns : List Node) : PrunedLog ns [] := by
  constructor
  · intro e he
    simp at he
  · intro _ m hm
    simp at hm

theorem prunedLog_append {ns1 ns2 : List Node} {ev1 ev2 : List Event}
    (hc1 : SubtreeClosed ns1) (hc2 : SubtreeClosed ns2)
    (h1 : PrunedLog ns1 ev1) (h2 : PrunedLog ns2 ev2) :
    PrunedLog (ns1 ++ ns2) (ev1 ++ ev2) := by
  constructor
  · intro e he
    rcases List.mem_append.mp he with h | h
    · exact List.mem_append.mpr (Or.inl (h1.1 e h))
    · exact List.mem_append.mpr (Or.inr (h2.1 e h))
  · intro hnd m hm c hc
    have hd := List.nodup_append.mp hnd
    have hdis : ∀ x, x ∈ ns1 → x ∈ ns2 → False := fun x hx1 hx2 => hd.2.2 hx1 hx2
    rcases List.mem_append.mp hm with h | h
    · have hmem : c ∈ ns1 := hc1 m (h1.1 _ h) c hc
      have hin := h1.2 hd.1 m h c hc
      constructor
      · intro hx
        rcases List.mem_append.mp hx with hx | hx
        · exact hin.1 hx
        · exact hdis c hmem (h2.1 _ hx)
      · intro hx
        rcases List.mem_append.mp hx with hx | hx
        · exact hin.2 hx
        · exact hdis c hmem (h2.1 _ hx)
    · have hmem : c ∈ ns2 := hc2 m (h2.1 _ h) c hc
      have hin := h2.2 hd.2.1 m h c hc
      constructor
      · intro hx
        rcases List.mem_append.mp hx with hx | hx
        · exact hdis c (h1.1 _ hx) hmem
        · exact hin.1 hx
      · intro hx
        rcases List.mem_append.mp hx with hx | hx
        · exact hdis c (h1.1 _ hx) hmem
        · exact hin.2 hx

/-- The log of an accepted node: its own three calls around the log of its fields. -/
theorem prunedLog_wrap (N : Node) {ns : List Node} {ev : List Event} (tail : List Event)
    (hc : SubtreeClosed ns) (hg : PrunedLog ns ev) (ht : ∀ e ∈ tail, e = Event.leave N) :
    PrunedLog (N :: ns) (Event.shouldVisit N true :: Event.enter N :: (ev ++ tail)) := by
  constructor
  · intro e he
    simp only [List.mem_cons, List.mem_append] at he
    rcases he with rfl | rfl | he | he
    · simp [Event.node]
    · simp [Event.node]
    · exact List.mem_cons_of_mem _ (hg.1 e he)
    · rw [ht e he]
      simp [Event.node]
  · intro hnd m hm c hc2
    have hd := List.nodup_cons.mp hnd
    simp only [List.mem_cons, List.mem_append] at hm
    rcases hm with hm | hm | hm | hm
    · simp at hm
    · simp at hm
    · have hmem : c ∈ ns := hc m (hg.1 _ hm) c hc2
      have hne : c ≠ N := fun h => hd.1 (h ▸ hmem)
      have hin := hg.2 hd.2 m hm c hc2
      constructor
      · intro hx
        simp only [List.mem_cons, List.mem_append] at hx
        rcases hx with hx | hx | hx | hx
        · simp at hx
        · simp at hx
          exact hne hx
        · exact hin.1 hx
        · have := ht _ hx
          simp at this
      · intro hx
        simp only [List.mem_cons, List.mem_append] at hx
        rcases hx with hx | hx | hx | hx
        · simp at hx
        · simp at hx
        · exact hin.2 hx
        · have := ht _ hx
          simp at this
          exact hne this
    · have := ht _ hm
      simp at this

theorem instrument_shouldVisit_fst {σ : Type} (V : Visitor σ) (s : σ) (log : List Event)
    (n : Node) : ((instrument V).shouldVisit (s, log) n).1 = (V.shouldVisit s n).1 := rfl

theorem instrument_shouldVisit_snd {σ : Type} (V : Visitor σ) (s : σ) (log : List Event)
    (n : Node) :
    ((instrument V).shouldVisit (s, log) n).2 =
      ((V.shouldVisit s n).2, log ++ [Event.shouldVisit n (V.shouldVisit s n).1]) := rfl

theorem instrument_enter {σ : Type} (V : Visitor σ) (s : σ) (log : List Event) (n : Node) :
    (instrument V).enter (s, log) n = (V.enter s n, log ++ [Event.enter n]) := rfl

theorem instrument_leave {σ : Type} (V : Visitor σ) (s : σ × List Event) (n : Node) :
    (instrument V).leave s n = (V.leave s.1 n, s.2 ++ [Event.leave n]) := rfl

mutual
theorem visitNode_pruned {σ : Type} (V : Visitor σ) :
    ∀ (n : Node) (s : σ) (log : List Event),
      ∃ ev, (visitNode (instrument V) (s, log) n).state.2 = log ++ ev ∧
        PrunedLog (preorder n) ev
  | .mk b d dummy args, s, log => by
    by_cases hc : isConcrete b.kind_ = true
    · by_cases hsv : (V.shouldVisit s (.mk b d dummy args)).1 = true
      · obtain ⟨ev, hv, hg⟩ := visitArgs_pruned V args
          (V.enter (V.shouldVisit s (.mk b d dummy args)).2 (.mk b d dummy args))
          ((log ++ [Event.shouldVisit (.mk b d dummy args) true]) ++
            [Event.enter (.mk b d dummy args)])
        cases hr : visitArgs (instrument V)
            (V.enter (V.shouldVisit s (.mk b d dummy args)).2 (.mk b d dummy args),
              (log ++ [Event.shouldVisit (.mk b d dummy args) true]) ++
                [Event.enter (.mk b d dummy args)]) args with
        | done s2 =>
          rw [hr] at hv
          simp only [Outcome.state] at hv
          refine ⟨Event.shouldVisit (.mk b d dummy args) true ::
            Event.enter (.mk b d dummy args) :: (ev ++ [Event.leave (.mk b d dummy args)]),
            ?_, ?_⟩
          · simp only [visitNode, hc, if_true, instrument_shouldVisit_fst,
              instrument_shouldVisit_snd, instrument_enter, hsv, hr, instrument_leave,
              Outcome.state, hv]
            simp [List.append_assoc]
          · simpa [preorder] using
              prunedLog_wrap (.mk b d dummy args) [Event.leave (.mk b d dummy args)]
                (preorderArgs_closed args) hg (by simp)
        | fault s2 =>
          rw [hr] at hv
          simp only [Outcome.state] at hv
          refine ⟨Event.shouldVisit (.mk b d dummy args) true ::
            Event.enter (.mk b d dummy args) :: (ev ++ []), ?_, ?_⟩
          · simp only [visitNode, hc, if_true, instrument_shouldVisit_fst,
              instrument_shouldVisit_snd, instrument_enter, hsv, hr, instrument_leave,
              Outcome.state, hv]
            simp [List.append_assoc]
          · simpa [preorder] using
              prunedLog_wrap (.mk b d dummy args) [] (preorderArgs_closed args) hg (by simp)
      · have hsv2 : (V.shouldVisit s (.mk b d dummy args)).1 = false := by simpa using hsv
        refine ⟨[Event.shouldVisit (.mk b d dummy args) false], ?_, ?_, ?_⟩
        · simp [visitNode, hc, instrument_shouldVisit_fst, instrument_shouldVisit_snd, hsv2,
            Outcome.state]
        · intro e he
          simp only [List.mem_singleton] at he
          subst he
          simp [Event.node, preorder]
        · intro _ m _ c _
          simp
    · refine ⟨[], ?_, prunedLog_nil _⟩
      simp [visitNode, hc, Outcome.state]
theorem visitArgs_pruned {σ : Type} (V : Visitor σ) :
    ∀ (args : List FieldVal) (s : σ) (log : List Event),
      ∃ ev, (visitArgs (instrument V) (s, log) args).state.2 = log ++ ev ∧
        PrunedLog (preorderArgs args) ev
  | [], s, log => ⟨[], by simp [visitArgs, Outcome.state], prunedLog_nil _⟩
  | v :: vs, s, log => by
    obtain ⟨ev1, h1, g1⟩ := visitArg_pruned V v s log
    cases hr : visitArg (instrument V) (s, log) v with
    | done s1 =>
      rw [hr] at h1
      simp only [Outcome.state] at h1
      obtain ⟨ev2, h2, g2⟩ := visitArgs_pruned V vs s1.1 s1.2
      refine ⟨ev1 ++ ev2, ?_, ?_⟩
      · simp only [visitArgs, hr, h2, h1, List.append_assoc]
      · simpa [preorderArgs] using
          prunedLog_append (preorderArg_closed v) (preorderArgs_closed vs) g1 g2
    | fault s1 =>
      rw [hr] at h1
      simp only [Outcome.state] at h1
      refine ⟨ev1 ++ [], ?_, ?_⟩
      · simp only [visitArgs, hr, Outcome.state, h1, List.append_nil]
      · simpa [preorderArgs] using
          prunedLog_append (preorderArg_closed v) (preorderArgs_closed vs) g1
            (prunedLog_nil _)
theorem visitArg_pruned {σ : Type} (V : Visitor σ) :
    ∀ (v : FieldVal) (s : σ) (log : List Event),
      ∃ ev, (visitArg (instrument V) (s, log) v).state.2 = log ++ ev ∧
        PrunedLog (preorderArg v) ev
  | .ptr none, s, log => ⟨[], by simp [visitArg, Outcome.state], prunedLog_nil _⟩
  | .ptr (some n), s, log => by
    obtain ⟨ev, h, g⟩ := visitNode_pruned V n s log
    exact ⟨ev, by simpa only [visitArg] using h, by simpa only [preorderArg] using g⟩
  | .list l, s, log => by
    obtain ⟨ev, h, g⟩ := visitList_pruned V l s log
    exact ⟨ev, by simpa only [visitArg] using h, by simpa only [preorderArg] using g⟩
  | .str _, s, log => ⟨[], by simp [visitArg, Outcome.state], prunedLog_nil _⟩
  | .boolean _, s, log => ⟨[], by simp [visitArg, Outcome.state], prunedLog_nil _⟩
  | .number _, s, log => ⟨[], by simp [visitArg, Outcome.state], prunedLog_nil _⟩
theorem visitList_pruned {σ : Type} (V : Visitor σ) :
    ∀ (l : List Node) (s : σ) (log : List Event),
      ∃ ev, (visitList (instrument V) (s, log) l).state.2 = log ++ ev ∧
        PrunedLog (preorderList l) ev
  | [], s, log => ⟨[], by simp [visitList, Outcome.state], prunedLog_nil _⟩
  | n :: ns, s, log => by
    obtain ⟨ev1, h1, g1⟩ := visitNode_pruned V n s log
    cases hr : visitNode (instrument V) (s, log) n with
    | done s1 =>
      rw [hr] at h1
      simp only [Outcome.state] at h1
      obtain ⟨ev2, h2, g2⟩ := visitList_pruned V ns s1.1 s1.2
      refine ⟨ev1 ++ ev2, ?_, ?_⟩
      · simp only [visitList, hr, h2, h1, List.append_assoc]
      · simpa [preorderList] using
          prunedLog_append (preorder_closed n) (preorderList_closed ns) g1 g2
    | fault s1 =>
      rw [hr] at h1
      simp only [Outcome.state] at h1
      refine ⟨ev1 ++ [], ?_, ?_⟩
      · simp only [visitList, hr, Outcome.state, h1, List.append_nil]
      · simpa [preorderList] using
          prunedLog_append (preorder_closed n) (preorderList_closed ns) g1 (prunedLog_nil _)
end


/-- C4: in every traversal of a tree whose nodes are pairwise distinct, by any visitor, a
node that `shouldVisit` refused is never entered or left, and neither is any node of the
subtree below it. That holds for the log up to the end of the traversal, whether it returns
or faults. Moreover, whatever the tree, the visit of a refused node consists of the
`shouldVisit` call alone. -/
theorem ESTreeVisit_pruned {σ : Type} (V : Visitor σ) (s : σ) (root n : Node)
    (hd : (preorder root).Nodup)
    (hn : Event.shouldVisit n false ∈
      (ESTreeVisit (instrument V) (s, []) (some root)).state.2) :
    (∀ m ∈ preorder n,
      Event.enter m ∉ (ESTreeVisit (instrument V) (s, []) (some root)).state.2 ∧
      Event.leave m ∉ (ESTreeVisit (instrument V) (s, []) (some root)).state.2) ∧
    (∀ (s2 : σ) (log : List Event) (k : Node), (V.shouldVisit s2 k).1 = false →
      (visitNode (instrument V) (s2, log) k).state.2 =
        log ++ (if isConcrete k.getKind then [Event.shouldVisit k false] else [])) := by
  constructor
  · obtain ⟨ev, hev, hg⟩ := visitNode_pruned V root s []
    simp only [ESTreeVisit] at hn ⊢
    rw [hev] at hn ⊢
    simp only [List.nil_append] at hn ⊢
    exact hg.2 hd n hn
  · intro s2 log k hk
    cases k with
    | mk b d dummy args =>
      by_cases hc : isConcrete b.kind_ = true
      · simp [visitNode, hc, instrument_shouldVisit_fst, instrument_shouldVisit_snd, hk,
          Outcome.state, Node.getKind, Node.base]
      · simp [visitNode, hc, Outcome.state, Node.getKind, Node.base]

theorem ifStatement_nodup : (preorder Sample.ifStatement).Nodup := by
  have h : ((preorder Sample.ifStatement).map
      (fun n => (n.getKind, n.strField "name"))).Nodup := by decide
  exact List.Nodup.of_map _ h

theorem ESTreeVisit_pruned_witness :
    (preorder Sample.ifStatement).Nodup ∧
    Event.shouldVisit Sample.ifBlock false ∈
      (ESTreeVisit (instrument Sample.skipBlocks) ((), []) (some Sample.ifStatement)).state.2 ∧
    (∀ m ∈ preorder Sample.ifBlock,
      Event.enter m ∉
        (ESTreeVisit (instrument Sample.skipBlocks) ((), [])
          (some Sample.ifStatement)).state.2 ∧
      Event.leave m ∉
        (ESTreeVisit (instrument Sample.skipBlocks) ((), [])
          (some Sample.ifStatement)).state.2) :=
  ⟨ifStatement_nodup, @List.getElem?_mem Event _ 5 _ rfl,
    (ESTreeVisit_pruned Sample.skipBlocks () Sample.ifStatement Sample.ifBlock
      ifStatement_nodup (@List.getElem?_mem Event _ 5 _ rfl)).1⟩


/-! ## Member, call and function accessors -/

theorem memberLike_bounds :
    sentinelFirst "MemberExpressionLike" = some 55 ∧
    sentinelLast "MemberExpressionLike" = some 58 := by
  decide!

theorem callLike_bounds :
    sentinelFirst "CallExpressionLike" = some 48 ∧
    sentinelLast "CallExpressionLike" = some 51 := by
  decide!

theorem memberLike_classof_iff (k : NodeKind) :
    MemberExpressionLikeNode.classof k = true ↔
      k = NodeKind.MemberExpression ∨ k = NodeKind.OptionalMemberExpression := by
  simp only [MemberExpressionLikeNode.classof, categoryClassof, memberLike_bounds.1,
    memberLike_bounds.2, Bool.and_eq_true, decide_eq_true_eq, NodeKind.MemberExpression,
    NodeKind.OptionalMemberExpression]
  have h : ∀ n : Nat, (55 < n ∧ n < 58) ↔ (n = 56 ∨ n = 57) := by
    intro n
    omega
  exact h k

theorem callLike_classof_iff (k : NodeKind) :
    CallExpressionLikeNode.classof k = true ↔
      k = NodeKind.CallExpression ∨ k = NodeKind.OptionalCallExpression := by
  simp only [CallExpressionLikeNode.classof, categoryClassof, callLike_bounds.1,
    callLike_bounds.2, Bool.and_eq_true, decide_eq_true_eq, NodeKind.CallExpression,
    NodeKind.OptionalCallExpression]
  have h : ∀ n : Nat, (48 < n ∧ n < 51) ↔ (n = 49 ∨ n = 50) := by
    intro n
    omega
  exact h k

theorem functionLike_classof_iff (k : NodeKind) :
    FunctionLikeNode.classof k = true ↔
      k = NodeKind.Program ∨ k = NodeKind.FunctionExpression ∨
      k = NodeKind.ArrowFunctionExpression ∨ k = NodeKind.FunctionDeclaration ∨
      k = NodeKind.ComponentDeclaration ∨ k = NodeKind.HookDeclaration := by
  rw [functionLike_classof_eq]
  simp only [Bool.and_eq_true, decide_eq_true_eq, NodeKind.Program,
    NodeKind.FunctionExpression, NodeKind.ArrowFunctionExpression,
    NodeKind.FunctionDeclaration, NodeKind.ComponentDeclaration, NodeKind.HookDeclaration]
  have h : ∀ n : Nat, (2 < n ∧ n < 9) ↔
      (n = 3 ∨ n = 4 ∨ n = 5 ∨ n = 6 ∨ n = 7 ∨ n = 8) := by
    intro n
    omega
  exact h k

theorem argIndex_memberCall :
    argIndex 56 "object" = some 0 ∧ argIndex 56 "property" = some 1 ∧
    argIndex 56 "computed" = some 2 ∧
    argIndex 57 "object" = some 0 ∧ argIndex 57 "property" = some 1 ∧
    argIndex 57 "computed" = some 2 ∧
    argIndex 49 "callee" = some 0 ∧ argIndex 49 "arguments" = some 2 ∧
    argIndex 50 "callee" = some 0 ∧ argIndex 50 "arguments" = some 2 := by
  decide

theorem argIndex_flags :
    argIndex 4 "generator" = some 6 ∧ argIndex 4 "async" = some 7 ∧
    argIndex 5 "async" = some 7 ∧
    argIndex 6 "generator" = some 6 ∧ argIndex 6 "async" = some 7 := by
  decide

/-- C11: the member-like and call-like accessors are field projections, the same for the
plain and the optional kind. For a `MemberExpression` or `OptionalMemberExpression` record
holding `(object, property, computed)`, `getObject`, `getProperty` and `getComputed` return
those values; for a `CallExpression` or `OptionalCallExpression` record holding
`(callee, typeArguments, arguments)`, `getCallee` and `getArguments` return `callee` and
`arguments`. The `optional` flag of the optional kinds does not appear in any result. -/
theorem memberCall_accessors_project :
    (∀ (b : NodeBase) (d : Decoration) (dummy : NodeList) (object property : NodePtr)
        (computed : Bool), b.kind_ = NodeKind.MemberExpression →
      getObject (Node.mk b d dummy [.ptr object, .ptr property, .boolean computed]) =
        some object ∧
      getProperty (Node.mk b d dummy [.ptr object, .ptr property, .boolean computed]) =
        some property ∧
      getComputed (Node.mk b d dummy [.ptr object, .ptr property, .boolean computed]) =
        some computed) ∧
    (∀ (b : NodeBase) (d : Decoration) (dummy : NodeList) (object property : NodePtr)
        (computed optional : Bool), b.kind_ = NodeKind.OptionalMemberExpression →
      getObject (Node.mk b d dummy
        [.ptr object, .ptr property, .boolean computed, .boolean optional]) = some object ∧
      getProperty (Node.mk b d dummy
        [.ptr object, .ptr property, .boolean computed, .boolean optional]) = some property ∧
      getComputed (Node.mk b d dummy
        [.ptr object, .ptr property, .boolean computed, .boolean optional]) =
          some computed) ∧
    (∀ (b : NodeBase) (d : Decoration) (dummy : NodeList) (callee typeArguments : NodePtr)
        (arguments : NodeList), b.kind_ = NodeKind.CallExpression →
      getCallee (Node.mk b d dummy [.ptr callee, .ptr typeArguments, .list arguments]) =
        some callee ∧
      getArguments (Node.mk b d dummy [.ptr callee, .ptr typeArguments, .list arguments]) =
        some arguments) ∧
    (∀ (b : NodeBase) (d : Decoration) (dummy : NodeList) (callee typeArguments : NodePtr)
        (arguments : NodeList) (optional : Bool),
      b.kind_ = NodeKind.OptionalCallExpression →
      getCallee (Node.mk b d dummy
        [.ptr callee, .ptr typeArguments, .list arguments, .boolean optional]) =
          some callee ∧
      getArguments (Node.mk b d dummy
        [.ptr callee, .ptr typeArguments, .list arguments, .boolean optional]) =
          some arguments) := by
  obtain ⟨a1, a2, a3, a4, a5, a6, a7, a8, a9, a10⟩ := argIndex_memberCall
  refine ⟨?_, ?_, ?_, ?_⟩
  · intro b d dummy object property computed hk
    simp [getObject, getProperty, getComputed, cast, classofKind, Node.getKind, Node.base,
      Node.ptrField, Node.boolField, Node.field, Node.args, hk, a1, a2, a3,
      NodeKind.MemberExpression]
  · intro b d dummy object property computed optional hk
    simp [getObject, getProperty, getComputed, cast, classofKind, Node.getKind, Node.base,
      Node.ptrField, Node.boolField, Node.field, Node.args, hk, a4, a5, a6,
      NodeKind.MemberExpression, NodeKind.OptionalMemberExpression]
  · intro b d dummy callee typeArguments arguments hk
    simp [getCallee, getArguments, cast, classofKind, Node.getKind, Node.base,
      Node.ptrField, Node.listField, Node.field, Node.args, hk, a7, a8,
      NodeKind.CallExpression]
  · intro b d dummy callee typeArguments arguments optional hk
    simp [getCallee, getArguments, cast, classofKind, Node.getKind, Node.base,
      Node.ptrField, Node.listField, Node.field, Node.args, hk, a9, a10,
      NodeKind.CallExpression, NodeKind.OptionalCallExpression]

theorem memberCall_accessors_project_witness :
    getObject (Sample.memberExpression false) = some (some (Sample.ident "o")) ∧
    getProperty (Sample.memberExpression false) = some (some (Sample.ident "p")) ∧
    getComputed (Sample.memberExpression false) = some false ∧
    getCallee (Sample.optionalCall true) = some (some (Sample.ident "f")) ∧
    getArguments (Sample.optionalCall true) = some [Sample.ident "x"] :=
  ⟨(memberCall_accessors_project.1 _ _ _ _ _ _ rfl).1,
   (memberCall_accessors_project.1 _ _ _ _ _ _ rfl).2.1,
   (memberCall_accessors_project.1 _ _ _ _ _ _ rfl).2.2,
   (memberCall_accessors_project.2.2.2 _ _ _ _ _ _ _ rfl).1,
   (memberCall_accessors_project.2.2.2 _ _ _ _ _ _ _ rfl).2⟩


/-- A boolean member of a well-formed node exists. -/
theorem wf_boolField (n : Node) (K : NodeKind) (name : String) (i : Nat) (spec : ArgSpec)
    (hwf : n.wf = true) (hk : n.getKind = K) (hi : argIndex K name = some i)
    (hs : (argSpecs K)[i]? = some spec) (hty : spec.ty = ArgTy.NodeBoolean) :
    ∃ x, n.boolField name = some x := by
  obtain ⟨v, hv, hw⟩ := wf_field n K name i spec hwf hk hi hs
  cases v with
  | boolean x => exact ⟨x, by simp [Node.boolField, hv]⟩
  | list l => simp [wfArg, hty] at hw
  | ptr p => cases p <;> simp [wfArg, hty] at hw
  | str s => cases s <;> simp [wfArg, hty] at hw
  | number x => simp [wfArg, hty] at hw

theorem isGenerator_isSome (n : Node) (hwf : n.wf = true)
    (hfl : FunctionLikeNode.classof n.getKind = true) : (isGenerator n).isSome = true := by
  rcases (functionLike_classof_iff _).mp hfl with hk | hk | hk | hk | hk | hk
  · simp [isGenerator, hk, NodeKind.Program, NodeKind.FunctionExpression,
      NodeKind.ArrowFunctionExpression, NodeKind.FunctionDeclaration,
      NodeKind.ComponentDeclaration, NodeKind.HookDeclaration]
  · obtain ⟨x, hx⟩ := wf_boolField n _ "generator" 6 (arg .NodeBoolean "generator" false)
      hwf hk (by decide) (by decide) rfl
    simp [isGenerator, hk, cast, classofKind, hx]
  · simp [isGenerator, hk, NodeKind.FunctionExpression, NodeKind.ArrowFunctionExpression]
  · obtain ⟨x, hx⟩ := wf_boolField n _ "generator" 6 (arg .NodeBoolean "generator" false)
      hwf hk (by decide) (by decide) rfl
    simp [isGenerator, hk, cast, classofKind, hx, NodeKind.FunctionExpression,
      NodeKind.ArrowFunctionExpression, NodeKind.FunctionDeclaration]
  · simp [isGenerator, hk, NodeKind.FunctionExpression, NodeKind.ArrowFunctionExpression,
      NodeKind.FunctionDeclaration, NodeKind.ComponentDeclaration]
  · simp [isGenerator, hk, NodeKind.FunctionExpression, NodeKind.ArrowFunctionExpression,
      NodeKind.FunctionDeclaration, NodeKind.ComponentDeclaration, NodeKind.HookDeclaration]

theorem isAsync_isSome (n : Node) (hwf : n.wf = true)
    (hfl : FunctionLikeNode.classof n.getKind = true) : (isAsync n).isSome = true := by
  rcases (functionLike_classof_iff _).mp hfl with hk | hk | hk | hk | hk | hk
  · simp [isAsync, hk, NodeKind.Program, NodeKind.FunctionExpression,
      NodeKind.ArrowFunctionExpression, NodeKind.FunctionDeclaration,
      NodeKind.ComponentDeclaration, NodeKind.HookDeclaration]
  · obtain ⟨x, hx⟩ := wf_boolField n _ "async" 7 (arg .NodeBoolean "async" false)
      hwf hk (by decide) (by decide) rfl
    simp [isAsync, hk, cast, classofKind, hx]
  · obtain ⟨x, hx⟩ := wf_boolField n _ "async" 7 (arg .NodeBoolean "async" false)
      hwf hk (by decide) (by decide) rfl
    simp [isAsync, hk, cast, classofKind, hx, NodeKind.FunctionExpression,
      NodeKind.ArrowFunctionExpression]
  · obtain ⟨x, hx⟩ := wf_boolField n _ "async" 7 (arg .NodeBoolean "async" false)
      hwf hk (by decide) (by decide) rfl
    simp [isAsync, hk, cast, classofKind, hx, NodeKind.FunctionExpression,
      NodeKind.ArrowFunctionExpression, NodeKind.FunctionDeclaration]
  · simp [isAsync, hk, NodeKind.FunctionExpression, NodeKind.ArrowFunctionExpression,
      NodeKind.FunctionDeclaration, NodeKind.ComponentDeclaration]
  · simp [isAsync, hk, NodeKind.FunctionExpression, NodeKind.ArrowFunctionExpression,
      NodeKind.FunctionDeclaration, NodeKind.ComponentDeclaration, NodeKind.HookDeclaration]

theorem memberAccessors_isSome (n : Node) (hwf : n.wf = true)
    (hm : MemberExpressionLikeNode.classof n.getKind = true) :
    (getObject n).isSome = true ∧ (getProperty n).isSome = true ∧
      (getComputed n).isSome = true := by
  rcases (memberLike_classof_iff _).mp hm with hk | hk
  · obtain ⟨o, ho, _⟩ := wf_ptrField n _ "object" 0 (arg .NodePtr "object" false) hwf hk
      (by decide) (by decide) rfl rfl
    obtain ⟨p, hp, _⟩ := wf_ptrField n _ "property" 1 (arg .NodePtr "property" false) hwf hk
      (by decide) (by decide) rfl rfl
    obtain ⟨c, hc⟩ := wf_boolField n _ "computed" 2 (arg .NodeBoolean "computed" false) hwf hk
      (by decide) (by decide) rfl
    simp [getObject, getProperty, getComputed, hk, cast, classofKind, ho, hp, hc]
  · obtain ⟨o, ho, _⟩ := wf_ptrField n _ "object" 0 (arg .NodePtr "object" false) hwf hk
      (by decide) (by decide) rfl rfl
    obtain ⟨p, hp, _⟩ := wf_ptrField n _ "property" 1 (arg .NodePtr "property" false) hwf hk
      (by decide) (by decide) rfl rfl
    obtain ⟨c, hc⟩ := wf_boolField n _ "computed" 2 (arg .NodeBoolean "computed" false) hwf hk
      (by decide) (by decide) rfl
    simp [getObject, getProperty, getComputed, hk, cast, classofKind, ho, hp, hc,
      NodeKind.MemberExpression, NodeKind.OptionalMemberExpression]

theorem callAccessors_isSome (n : Node) (hwf : n.wf = true)
    (hc : CallExpressionLikeNode.classof n.getKind = true) :
    (getCallee n).isSome = true ∧ (getArguments n).isSome = true := by
  rcases (callLike_classof_iff _).mp hc with hk | hk
  · obtain ⟨c, hcal, _⟩ := wf_ptrField n _ "callee" 0 (arg .NodePtr "callee" false) hwf hk
      (by decide) (by decide) rfl rfl
    obtain ⟨l, hl, _⟩ := wf_listField n _ "arguments" 2 (arg .NodeList "arguments" false)
      hwf hk (by decide) (by decide) rfl
    simp [getCallee, getArguments, hk, cast, classofKind, hcal, hl]
  · obtain ⟨c, hcal, _⟩ := wf_ptrField n _ "callee" 0 (arg .NodePtr "callee" false) hwf hk
      (by decide) (by decide) rfl rfl
    obtain ⟨l, hl, _⟩ := wf_listField n _ "arguments" 2 (arg .NodeList "arguments" false)
      hwf hk (by decide) (by decide) rfl
    simp [getCallee, getArguments, hk, cast, classofKind, hcal, hl,
      NodeKind.CallExpression, NodeKind.OptionalCallExpression]

/-- C12: every category accessor faults on a node whose kind is outside its category
(`MemberExpression` and `OptionalMemberExpression`; `CallExpression` and
`OptionalCallExpression`; the six function-like kinds), and on a well-formed node whose kind
is inside the category `getParams`, `isGenerator`, `isAsync` and the member and call
accessors return a value. -/
theorem accessors_fault_outside_category (n : Node) :
    ((∀ k, MemberExpressionLikeNode.classof k = true ↔
        k = NodeKind.MemberExpression ∨ k = NodeKind.OptionalMemberExpression) ∧
      (∀ k, CallExpressionLikeNode.classof k = true ↔
        k = NodeKind.CallExpression ∨ k = NodeKind.OptionalCallExpression) ∧
      (∀ k, FunctionLikeNode.classof k = true ↔
        k = NodeKind.Program ∨ k = NodeKind.FunctionExpression ∨
        k = NodeKind.ArrowFunctionExpression ∨ k = NodeKind.FunctionDeclaration ∨
        k = NodeKind.ComponentDeclaration ∨ k = NodeKind.HookDeclaration)) ∧
    (MemberExpressionLikeNode.classof n.getKind = false →
      getObject n = none ∧ getProperty n = none ∧ getComputed n = none) ∧
    (CallExpressionLikeNode.classof n.getKind = false →
      getCallee n = none ∧ getArguments n = none) ∧
    (FunctionLikeNode.classof n.getKind = false →
      getParams n = none ∧ getBlockStatement n = none ∧ isGenerator n = none ∧
        isAsync n = none) ∧
    (n.wf = true → MemberExpressionLikeNode.classof n.getKind = true →
      (getObject n).isSome = true ∧ (getProperty n).isSome = true ∧
        (getComputed n).isSome = true) ∧
    (n.wf = true → CallExpressionLikeNode.classof n.getKind = true →
      (getCallee n).isSome = true ∧ (getArguments n).isSome = true) ∧
    (n.wf = true → FunctionLikeNode.classof n.getKind = true →
      (getParams n).isSome = true ∧ (isGenerator n).isSome = true ∧
        (isAsync n).isSome = true) := by
  refine ⟨⟨memberLike_classof_iff, callLike_classof_iff, functionLike_classof_iff⟩,
    ?_, ?_, ?_, memberAccessors_isSome n, callAccessors_isSome n, ?_⟩
  · intro h
    have h2 : ¬ (n.getKind = NodeKind.MemberExpression ∨
        n.getKind = NodeKind.OptionalMemberExpression) := by
      rw [← memberLike_classof_iff, h]
      simp
    simp only [not_or] at h2
    simp [getObject, getProperty, getComputed, h2.1, h2.2]
  · intro h
    have h2 : ¬ (n.getKind = NodeKind.CallExpression ∨
        n.getKind = NodeKind.OptionalCallExpression) := by
      rw [← callLike_classof_iff, h]
      simp
    simp only [not_or] at h2
    simp [getCallee, getArguments, h2.1, h2.2]
  · intro h
    have h2 : ¬ (n.getKind = NodeKind.Program ∨ n.getKind = NodeKind.FunctionExpression ∨
        n.getKind = NodeKind.ArrowFunctionExpression ∨
        n.getKind = NodeKind.FunctionDeclaration ∨
        n.getKind = NodeKind.ComponentDeclaration ∨
        n.getKind = NodeKind.HookDeclaration) := by
      rw [← functionLike_classof_iff, h]
      simp
    simp only [not_or] at h2
    obtain ⟨h3, h4, h5, h6, h7, h8⟩ := h2
    simp [getParams, getBlockStatement, isGenerator, isAsync, h3, h4, h5, h6, h7, h8]
  · intro hwf hfl
    obtain ⟨params, hp, _⟩ := getParams_wf n hwf hfl
    exact ⟨by simp [hp], isGenerator_isSome n hwf hfl, isAsync_isSome n hwf hfl⟩

theorem accessors_fault_outside_category_witness :
    (getObject (Sample.ident "x") = none ∧ getProperty (Sample.ident "x") = none ∧
      getComputed (Sample.ident "x") = none) ∧
    (getParams (Sample.ident "x") = none ∧ getBlockStatement (Sample.ident "x") = none ∧
      isGenerator (Sample.ident "x") = none ∧ isAsync (Sample.ident "x") = none) ∧
    ((getObject (Sample.memberExpression true)).isSome = true ∧
      (getProperty (Sample.memberExpression true)).isSome = true ∧
      (getComputed (Sample.memberExpression true)).isSome = true) ∧
    ((getParams Sample.asyncArrow).isSome = true ∧ (isGenerator Sample.asyncArrow).isSome = true ∧
      (isAsync Sample.asyncArrow).isSome = true) :=
  ⟨(accessors_fault_outside_category (Sample.ident "x")).2.1 (by decide),
   (accessors_fault_outside_category (Sample.ident "x")).2.2.2.1 (by decide),
   (accessors_fault_outside_category (Sample.memberExpression true)).2.2.2.2.1 (by decide)
     (by decide),
   (accessors_fault_outside_category Sample.asyncArrow).2.2.2.2.2.2 (by decide) (by decide)⟩

/-- C13: `isGenerator` returns the stored `generator` flag of a `FunctionExpression` or
`FunctionDeclaration` record, and false for every `ArrowFunctionExpression`,
`ComponentDeclaration`, `HookDeclaration` and `Program` node, whatever its fields are. -/
theorem isGenerator_spec :
    (∀ (b : NodeBase) (d : Decoration) (dummy : NodeList) (id : NodePtr) (params : NodeList)
        (body typeParameters returnType predicate : NodePtr) (generator async : Bool),
      b.kind_ = NodeKind.FunctionExpression ∨ b.kind_ = NodeKind.FunctionDeclaration →
      isGenerator (Node.mk b d dummy [.ptr id, .list params, .ptr body, .ptr typeParameters,
        .ptr returnType, .ptr predicate, .boolean generator, .boolean async]) =
          some generator) ∧
    (∀ n : Node,
      n.getKind = NodeKind.ArrowFunctionExpression ∨
        n.getKind = NodeKind.ComponentDeclaration ∨ n.getKind = NodeKind.HookDeclaration ∨
        n.getKind = NodeKind.Program →
      isGenerator n = some false) := by
  obtain ⟨g4, _, _, g6, _⟩ := argIndex_flags
  constructor
  · intro b d dummy id params body tp rt pred generator async hk
    rcases hk with hk | hk <;>
      simp [isGenerator, cast, classofKind, Node.getKind, Node.base, Node.boolField,
        Node.field, Node.args, hk, g4, g6, NodeKind.FunctionExpression,
        NodeKind.ArrowFunctionExpression, NodeKind.FunctionDeclaration]
  · intro n hk
    rcases hk with hk | hk | hk | hk <;>
      simp [isGenerator, hk, NodeKind.FunctionExpression, NodeKind.ArrowFunctionExpression,
        NodeKind.FunctionDeclaration, NodeKind.ComponentDeclaration,
        NodeKind.HookDeclaration, NodeKind.Program]

theorem isGenerator_spec_witness :
    isGenerator (Sample.generatorFunction true) = some true ∧
    isGenerator (Sample.generatorFunction false) = some false ∧
    isGenerator Sample.asyncArrow = some false ∧
    isGenerator (Sample.program []) = some false :=
  ⟨isGenerator_spec.1 _ _ _ _ _ _ _ _ _ _ _ (Or.inl rfl),
   isGenerator_spec.1 _ _ _ _ _ _ _ _ _ _ _ (Or.inl rfl),
   isGenerator_spec.2 _ (Or.inl rfl),
   isGenerator_spec.2 _ (Or.inr (Or.inr (Or.inr rfl)))⟩

/-- C14, as the code has it: `isAsync` is false for every `ComponentDeclaration`,
`HookDeclaration` and `Program` node, whatever its fields are; for an
`ArrowFunctionExpression` record it returns the stored `async` flag. -/
theorem isAsync_false_kinds :
    (∀ n : Node,
      n.getKind = NodeKind.ComponentDeclaration ∨ n.getKind = NodeKind.HookDeclaration ∨
        n.getKind = NodeKind.Program →
      isAsync n = some false) ∧
    (∀ (b : NodeBase) (d : Decoration) (dummy : NodeList) (id : NodePtr) (params : NodeList)
        (body typeParameters returnType predicate : NodePtr) (expression async : Bool),
      b.kind_ = NodeKind.ArrowFunctionExpression →
      isAsync (Node.mk b d dummy [.ptr id, .list params, .ptr body, .ptr typeParameters,
        .ptr returnType, .ptr predicate, .boolean expression, .boolean async]) =
          some async) := by
  obtain ⟨_, _, a5, _, _⟩ := argIndex_flags
  constructor
  · intro n hk
    rcases hk with hk | hk | hk <;>
      simp [isAsync, hk, NodeKind.FunctionExpression, NodeKind.ArrowFunctionExpression,
        NodeKind.FunctionDeclaration, NodeKind.ComponentDeclaration,
        NodeKind.HookDeclaration, NodeKind.Program]
  · intro b d dummy id params body tp rt pred expression async hk
    simp [isAsync, cast, classofKind, Node.getKind, Node.base, Node.boolField,
      Node.field, Node.args, hk, a5, NodeKind.FunctionExpression,
      NodeKind.ArrowFunctionExpression]

theorem isAsync_false_kinds_witness :
    isAsync (Sample.program []) = some false ∧
    isAsync (Sample.componentDeclaration (Sample.ident "C") [] (Sample.block [])) =
      some false ∧
    isAsync Sample.asyncArrow = some true :=
  ⟨isAsync_false_kinds.1 _ (Or.inr (Or.inr rfl)),
   isAsync_false_kinds.1 _ (Or.inl rfl),
   isAsync_false_kinds.2 _ _ _ _ _ _ _ _ _ _ _ rfl⟩

/-- C14 as stated fails: `Sample.asyncArrow` is a well-formed arrow function, and `isAsync`
returns true on it. -/
theorem isAsync_true_on_async_arrow :
    Sample.asyncArrow.wf = true ∧
    Sample.asyncArrow.getKind = NodeKind.ArrowFunctionExpression ∧
    isAsync Sample.asyncArrow = some true ∧
    isAsync Sample.asyncArrow ≠ some false := by
  refine ⟨by decide, rfl, by decide, by decide⟩

/-- C15: for every `FunctionExpression`, `ArrowFunctionExpression` and `FunctionDeclaration`
record, `isAsync` returns the `async` flag the record holds, which is the one its constructor
was given. -/
theorem isAsync_eq_async_flag :
    (∀ (b : NodeBase) (d : Decoration) (dummy : NodeList) (id : NodePtr) (params : NodeList)
        (body typeParameters returnType predicate : NodePtr) (flag async : Bool),
      b.kind_ = NodeKind.FunctionExpression ∨ b.kind_ = NodeKind.ArrowFunctionExpression ∨
        b.kind_ = NodeKind.FunctionDeclaration →
      isAsync (Node.mk b d dummy [.ptr id, .list params, .ptr body, .ptr typeParameters,
        .ptr returnType, .ptr predicate, .boolean flag, .boolean async]) = some async) ∧
    (∀ (K : NodeKind) (id : NodePtr) (params : NodeList)
        (body typeParameters returnType predicate : NodePtr) (flag async : Bool),
      K = NodeKind.FunctionExpression ∨ K = NodeKind.ArrowFunctionExpression ∨
        K = NodeKind.FunctionDeclaration →
      isAsync (Node.create K [.ptr id, .list params, .ptr body, .ptr typeParameters,
        .ptr returnType, .ptr predicate, .boolean flag, .boolean async]) = some async) := by
  obtain ⟨_, a4, a5, _, a6⟩ := argIndex_flags
  have h : ∀ (b : NodeBase) (d : Decoration) (dummy : NodeList) (id : NodePtr)
      (params : NodeList) (body typeParameters returnType predicate : NodePtr)
      (flag async : Bool),
      b.kind_ = NodeKind.FunctionExpression ∨ b.kind_ = NodeKind.ArrowFunctionExpression ∨
        b.kind_ = NodeKind.FunctionDeclaration →
      isAsync (Node.mk b d dummy [.ptr id, .list params, .ptr body, .ptr typeParameters,
        .ptr returnType, .ptr predicate, .boolean flag, .boolean async]) = some async := by
    intro b d dummy id params body tp rt pred flag async hk
    rcases hk with hk | hk | hk <;>
      simp [isAsync, cast, classofKind, Node.getKind, Node.base, Node.boolField,
        Node.field, Node.args, hk, a4, a5, a6, NodeKind.FunctionExpression,
        NodeKind.ArrowFunctionExpression, NodeKind.FunctionDeclaration]
  refine ⟨h, ?_⟩
  intro K id params body tp rt pred flag async hk
  exact h _ _ _ _ _ _ _ _ _ _ _ hk

theorem isAsync_eq_async_flag_witness :
    isAsync Sample.asyncArrow = some true ∧
    isAsync (Sample.functionExpression [] (Sample.block [])) = some false :=
  ⟨isAsync_eq_async_flag.2 _ _ _ _ _ _ _ _ _ (Or.inr (Or.inl rfl)),
   isAsync_eq_async_flag.2 _ _ _ _ _ _ _ _ _ (Or.inl rfl)⟩


/-! ## The one-time decoration cells -/

theorem loop_bounds :
    sentinelFirst "LoopStatement" = some 11 ∧ sentinelLast "LoopStatement" = some 17 := by
  decide!

/-- The kinds whose class inherits `LabelDecorationBase` start with an unset label index. -/
theorem fresh_label (K : NodeKind)
    (hK : LoopStatementNode.classof K = true ∨ K = NodeKind.BreakStatement ∨
      K = NodeKind.ContinueStatement ∨ K = NodeKind.SwitchStatement ∨
      K = NodeKind.LabeledStatement) :
    Decoration.fresh K = Decoration.label {} := by
  have hfl : FunctionLikeNode.classof K = false := by
    rw [functionLike_classof_eq]
    simp only [LoopStatementNode.classof, categoryClassof, loop_bounds.1, loop_bounds.2,
      Bool.and_eq_true, decide_eq_true_eq, NodeKind.BreakStatement,
      NodeKind.ContinueStatement, NodeKind.SwitchStatement, NodeKind.LabeledStatement] at hK
    have h : ∀ n : Nat, ((11 < n ∧ n < 17) ∨ n = 21 ∨ n = 22 ∨ n = 26 ∨ n = 27) →
        ¬ (2 < n ∧ n < 9) := by
      intro n
      omega
    have h2 := h K hK
    simpa using h2
  have hl : (LoopStatementNode.classof K || K == NodeKind.BreakStatement ||
      K == NodeKind.ContinueStatement || K == NodeKind.SwitchStatement ||
      K == NodeKind.LabeledStatement) = true := by
    rcases hK with h | h | h | h | h <;> simp [h]
  simp [Decoration.fresh, hfl, hl]

/-- A function-like node starts with a null `semInfo_`. -/
theorem fresh_functionLike (K : NodeKind) (hK : FunctionLikeNode.classof K = true) :
    Decoration.fresh K = Decoration.functionLike {} := by
  simp [Decoration.fresh, hK]

/-- An operation other than `setLabelIndex` leaves the label cell as it is. -/
theorem apply_label_unchanged (n n2 : Node) (op : NodeOp) (h : n.apply op = some n2)
    (hop : ∀ v, op ≠ NodeOp.setLabelIndex v) :
    n2.getLabelIndex = n.getLabelIndex ∧ n2.isLabelIndexSet = n.isLabelIndexSet := by
  cases n with
  | mk b d dummy args =>
    cases op with
    | setLabelIndex v => exact absurd rfl (hop v)
    | setSemInfo v =>
      cases d <;> simp [Node.apply, Node.setSemInfo] at h
      obtain ⟨d2, _, rfl⟩ := h
      simp [Node.getLabelIndex, Node.isLabelIndexSet, Node.deco]
    | _ =>
      cases d <;> simp [Node.apply, Node.setSourceRange, Node.setStartLoc, Node.setEndLoc,
        Node.setDebugLoc, Node.incParens, Node.clearParens, Node.copyLocationFrom] at h <;>
        subst h <;> simp [Node.getLabelIndex, Node.isLabelIndexSet, Node.deco]

/-- An operation other than `setSemInfo` leaves the `semInfo_` cell as it is. -/
theorem apply_semInfo_unchanged (n n2 : Node) (op : NodeOp) (h : n.apply op = some n2)
    (hop : ∀ v, op ≠ NodeOp.setSemInfo v) : n2.getSemInfo = n.getSemInfo := by
  cases n with
  | mk b d dummy args =>
    cases op with
    | setSemInfo v => exact absurd rfl (hop v)
    | setLabelIndex v =>
      cases d <;> simp [Node.apply, Node.setLabelIndex] at h
      obtain ⟨d2, _, rfl⟩ := h
      simp [Node.getSemInfo, Node.deco]
    | _ =>
      cases d <;> simp [Node.apply, Node.setSourceRange, Node.setStartLoc, Node.setEndLoc,
        Node.setDebugLoc, Node.incParens, Node.clearParens, Node.copyLocationFrom] at h <;>
        subst h <;> simp [Node.getSemInfo, Node.deco, FunctionLikeDecoration.getSemInfo]

/-- What a successful `setLabelIndex` leaves behind. -/
theorem setLabelIndex_some (n n1 : Node) (v : Nat) (h : n.setLabelIndex v = some n1) :
    n.isLabelIndexSet = some false ∧ n1.isLabelIndexSet = some true ∧
      n1.getLabelIndex = some v := by
  cases n with
  | mk b d dummy args =>
    cases d with
    | label d =>
      simp only [Node.setLabelIndex, LabelDecorationBase.setLabelIndex] at h
      split_ifs at h with hv hd
      · simp only [Option.map_some', Option.some.injEq] at h
        subst h
        simp only [Bool.not_eq_true', bne_iff_ne, ne_eq] at hd hv
        simp [Node.isLabelIndexSet, Node.getLabelIndex, Node.deco,
          LabelDecorationBase.getLabelIndex, LabelDecorationBase.isLabelIndexSet, hv, hd]
        simpa [LabelDecorationBase.isLabelIndexSet] using hd
      · simp at h
      · simp at h
    | _ => simp [Node.setLabelIndex] at h

/-- Once the label index is set, `setLabelIndex` faults. -/
theorem setLabelIndex_none (n : Node) (h : n.isLabelIndexSet = some true) (w : Nat) :
    n.setLabelIndex w = none := by
  cases n with
  | mk b d dummy args =>
    cases d <;> simp [Node.isLabelIndexSet, Node.deco] at h
    simp [Node.setLabelIndex, LabelDecorationBase.setLabelIndex, h]

/-- What a successful `setSemInfo` leaves behind. -/
theorem setSemInfo_some (n n1 : Node) (v : Nat) (h : n.setSemInfo v = some n1) :
    n.getSemInfo = none ∧ n1.getSemInfo = some v := by
  cases n with
  | mk b d dummy args =>
    cases d with
    | functionLike d =>
      simp only [Node.setSemInfo, FunctionLikeDecoration.setSemInfo] at h
      split_ifs at h with hv hd
      · simp only [Option.map_some', Option.some.injEq] at h
        subst h
        simp only [bne_iff_ne, ne_eq, beq_iff_eq] at hd hv
        simp [Node.getSemInfo, Node.deco, FunctionLikeDecoration.getSemInfo, hv, hd]
      · simp at h
      · simp at h
    | _ => simp [Node.setSemInfo] at h

/-- Once `semInfo_` is set, `setSemInfo` faults. -/
theorem setSemInfo_none (n : Node) (v : Nat) (h : n.getSemInfo = some v) (w : Nat) :
    n.setSemInfo w = none := by
  cases n with
  | mk b d dummy args =>
    cases d <;> simp [Node.getSemInfo, Node.deco, FunctionLikeDecoration.getSemInfo] at h
    simp [Node.setSemInfo, FunctionLikeDecoration.setSemInfo, h.1]

/-- A run without `setLabelIndex` leaves the label cell as it is. -/
theorem run_label_unchanged (ops : List NodeOp) :
    ∀ (n n2 : Node), (∀ v, NodeOp.setLabelIndex v ∉ ops) → Node.run n ops = some n2 →
      n2.getLabelIndex = n.getLabelIndex ∧ n2.isLabelIndexSet = n.isLabelIndexSet := by
  induction ops with
  | nil =>
    intro n n2 _ h
    simp [Node.run] at h
    subst h
    exact ⟨rfl, rfl⟩
  | cons op ops ih =>
    intro n n2 hno h
    simp only [Node.run] at h
    cases hop : n.apply op with
    | none => simp [hop] at h
    | some n1 =>
      simp only [hop] at h
      have h1 := apply_label_unchanged n n1 op hop
        (fun v hv => hno v (by simp [hv]))
      have h2 := ih n1 n2 (fun v hv => hno v (List.mem_cons_of_mem _ hv)) h
      exact ⟨h2.1.trans h1.1, h2.2.trans h1.2⟩

/-- A run without `setSemInfo` leaves the `semInfo_` cell as it is. -/
theorem run_semInfo_unchanged (ops : List NodeOp) :
    ∀ (n n2 : Node), (∀ v, NodeOp.setSemInfo v ∉ ops) → Node.run n ops = some n2 →
      n2.getSemInfo = n.getSemInfo := by
  induction ops with
  | nil =>
    intro n n2 _ h
    simp [Node.run] at h
    subst h
    rfl
  | cons op ops ih =>
    intro n n2 hno h
    simp only [Node.run] at h
    cases hop : n.apply op with
    | none => simp [hop] at h
    | some n1 =>
      simp only [hop] at h
      have h1 := apply_semInfo_unchanged n n1 op hop
        (fun v hv => hno v (by simp [hv]))
      have h2 := ih n1 n2 (fun v hv => hno v (List.mem_cons_of_mem _ hv)) h
      exact h2.trans h1

/-- Once the label index is set, no operation changes the label cell. -/
theorem after_label_stable (n : Node) (op : NodeOp) (v : Nat)
    (h : n.isLabelIndexSet = some true ∧ n.getLabelIndex = some v) :
    (n.after op).isLabelIndexSet = some true ∧ (n.after op).getLabelIndex = some v := by
  unfold Node.after
  cases hop : n.apply op with
  | none => exact h
  | some n1 =>
    have hne : ∀ w, op ≠ NodeOp.setLabelIndex w := by
      intro w hw
      subst hw
      simp [Node.apply, setLabelIndex_none n h.1 w] at hop
    have h1 := apply_label_unchanged n n1 op hop hne
    exact ⟨h1.2.trans h.1, h1.1.trans h.2⟩

/-- Once `semInfo_` is set, no operation changes it. -/
theorem after_semInfo_stable (n : Node) (op : NodeOp) (v : Nat) (h : n.getSemInfo = some v) :
    (n.after op).getSemInfo = some v := by
  unfold Node.after
  cases hop : n.apply op with
  | none => exact h
  | some n1 =>
    have hne : ∀ w, op ≠ NodeOp.setSemInfo w := by
      intro w hw
      subst hw
      simp [Node.apply, setSemInfo_none n v h w] at hop
    exact (apply_semInfo_unchanged n n1 op hop hne).trans h

theorem foldl_after_label (ops : List NodeOp) :
    ∀ (n : Node) (v : Nat), n.isLabelIndexSet = some true ∧ n.getLabelIndex = some v →
      (ops.foldl Node.after n).isLabelIndexSet = some true ∧
        (ops.foldl Node.after n).getLabelIndex = some v := by
  induction ops with
  | nil => exact fun _ _ h => h
  | cons op ops ih => exact fun n v h => ih (n.after op) v (after_label_stable n op v h)

theorem foldl_after_semInfo (ops : List NodeOp) :
    ∀ (n : Node) (v : Nat), n.getSemInfo = some v →
      (ops.foldl Node.after n).getSemInfo = some v := by
  induction ops with
  | nil => exact fun _ _ h => h
  | cons op ops ih => exact fun n v h => ih (n.after op) v (after_semInfo_stable n op v h)

/-- A run that does not fault ends in the node the operations leave one after the other. -/
theorem run_eq_foldl_after (ops : List NodeOp) :
    ∀ (n n2 : Node), Node.run n ops = some n2 → ops.foldl Node.after n = n2 := by
  induction ops with
  | nil =>
    intro n n2 h
    simpa [Node.run] using h
  | cons op ops ih =>
    intro n n2 h
    simp only [Node.run] at h
    cases hop : n.apply op with
    | none => simp [hop] at h
    | some n1 =>
      simp only [hop] at h
      simp only [List.foldl_cons, Node.after, hop]
      exact ih n1 n2 h


/-- C16: the one-time decoration cells fault on misuse. A freshly constructed node of a kind
with a label decoration has no label index set, and on a node whose label index was never set
(any run of operations since construction that contains no `setLabelIndex`) `getLabelIndex`
faults; the same for `getSemInfo` on a node that never received a `setSemInfo`. After one
successful `setLabelIndex` (resp. `setSemInfo`), a second call of the same setter faults for
any argument. -/
theorem decoration_cells_fault_on_misuse :
    (∀ (K : NodeKind) (args : List FieldVal),
      LoopStatementNode.classof K = true ∨ K = NodeKind.BreakStatement ∨
        K = NodeKind.ContinueStatement ∨ K = NodeKind.SwitchStatement ∨
        K = NodeKind.LabeledStatement →
      (Node.create K args).isLabelIndexSet = some false) ∧
    (∀ n : Node, n.isLabelIndexSet = some false → n.getLabelIndex = none) ∧
    (∀ (K : NodeKind) (args : List FieldVal) (ops : List NodeOp) (n : Node),
      (∀ v, NodeOp.setLabelIndex v ∉ ops) → Node.run (Node.create K args) ops = some n →
      n.getLabelIndex = none) ∧
    (∀ (K : NodeKind) (args : List FieldVal) (ops : List NodeOp) (n : Node),
      (∀ v, NodeOp.setSemInfo v ∉ ops) → Node.run (Node.create K args) ops = some n →
      n.getSemInfo = none) ∧
    (∀ (n n1 : Node) (v : Nat), n.setLabelIndex v = some n1 →
      ∀ w, n1.setLabelIndex w = none) ∧
    (∀ (n n1 : Node) (v : Nat), n.setSemInfo v = some n1 →
      ∀ w, n1.setSemInfo w = none) := by
  have hfreshL : ∀ (K : NodeKind) (args : List FieldVal),
      (Node.create K args).getLabelIndex = none := by
    intro K args
    simp only [Node.create, Node.getLabelIndex, Node.deco, Decoration.fresh]
    split_ifs <;> rfl
  have hfreshS : ∀ (K : NodeKind) (args : List FieldVal),
      (Node.create K args).getSemInfo = none := by
    intro K args
    simp only [Node.create, Node.getSemInfo, Node.deco, Decoration.fresh]
    split_ifs <;> rfl
  refine ⟨?_, ?_, ?_, ?_, ?_, ?_⟩
  · intro K args hK
    simp only [Node.create, Node.isLabelIndexSet, Node.deco, fresh_label K hK]
    rfl
  · intro n h
    cases n with
    | mk b d dummy args =>
      cases d <;> simp [Node.isLabelIndexSet, Node.deco] at h
      simp [Node.getLabelIndex, Node.deco, LabelDecorationBase.getLabelIndex, h]
  · intro K args ops n hno h
    rw [(run_label_unchanged ops _ n hno h).1]
    exact hfreshL K args
  · intro K args ops n hno h
    rw [run_semInfo_unchanged ops _ n hno h]
    exact hfreshS K args
  · intro n n1 v h w
    exact setLabelIndex_none n1 (setLabelIndex_some n n1 v h).2.1 w
  · intro n n1 v h w
    exact setSemInfo_none n1 v (setSemInfo_some n n1 v h).2 w

theorem decoration_cells_fault_on_misuse_witness :
    Sample.whileStatement.isLabelIndexSet = some false ∧
    Sample.whileStatement.getLabelIndex = none ∧
    (∀ n, Node.run Sample.whileStatement [NodeOp.incParens, NodeOp.clearParens] = some n →
      n.getLabelIndex = none) ∧
    (∀ n, Node.run Sample.asyncArrow [NodeOp.assignStrictness Strictness.StrictMode] = some n →
      n.getSemInfo = none) ∧
    (∃ n1, Sample.whileStatement.setLabelIndex 7 = some n1 ∧
      ∀ w, n1.setLabelIndex w = none) ∧
    (∃ n1, Sample.asyncArrow.setSemInfo 4096 = some n1 ∧ ∀ w, n1.setSemInfo w = none) :=
  ⟨decoration_cells_fault_on_misuse.1 _ _ (Or.inl (by decide)),
   decoration_cells_fault_on_misuse.2.1 _ (by decide),
   fun n h => decoration_cells_fault_on_misuse.2.2.1 _ _ _ n (by simp) h,
   fun n h => decoration_cells_fault_on_misuse.2.2.2.1 _ _ _ n (by simp) h,
   ⟨_, rfl, decoration_cells_fault_on_misuse.2.2.2.2.1 Sample.whileStatement _ 7 rfl⟩,
   ⟨_, rfl, decoration_cells_fault_on_misuse.2.2.2.2.2 Sample.asyncArrow _ 4096 rfl⟩⟩

/-- C17: a decoration value, once set, is never overwritten. After a successful
`setLabelIndex(v)`, `isLabelIndexSet` is true and `getLabelIndex` returns `v`, and both stay
so after any further sequence of operations on the node, faulting ones included; every later
`setLabelIndex` faults. The same holds for `setSemInfo` and `getSemInfo`. -/
theorem decoration_set_once_stable :
    (∀ (n n1 : Node) (v : Nat), n.setLabelIndex v = some n1 →
      ∀ ops : List NodeOp,
        (ops.foldl Node.after n1).isLabelIndexSet = some true ∧
        (ops.foldl Node.after n1).getLabelIndex = some v ∧
        (∀ w, (ops.foldl Node.after n1).setLabelIndex w = none) ∧
        (∀ n2, Node.run n1 ops = some n2 →
          n2.isLabelIndexSet = some true ∧ n2.getLabelIndex = some v ∧
            ∀ w, n2.setLabelIndex w = none)) ∧
    (∀ (n n1 : Node) (v : Nat), n.setSemInfo v = some n1 →
      ∀ ops : List NodeOp,
        (ops.foldl Node.after n1).getSemInfo = some v ∧
        (∀ w, (ops.foldl Node.after n1).setSemInfo w = none) ∧
        (∀ n2, Node.run n1 ops = some n2 →
          n2.getSemInfo = some v ∧ ∀ w, n2.setSemInfo w = none)) := by
  constructor
  · intro n n1 v h ops
    have h1 := setLabelIndex_some n n1 v h
    have h2 := foldl_after_label ops n1 v h1.2
    have h3 : ∀ w, (ops.foldl Node.after n1).setLabelIndex w = none :=
      fun w => setLabelIndex_none _ h2.1 w
    refine ⟨h2.1, h2.2, h3, ?_⟩
    intro n2 hr
    rw [← run_eq_foldl_after ops n1 n2 hr]
    exact ⟨h2.1, h2.2, h3⟩
  · intro n n1 v h ops
    have h1 := setSemInfo_some n n1 v h
    have h2 := foldl_after_semInfo ops n1 v h1.2
    have h3 : ∀ w, (ops.foldl Node.after n1).setSemInfo w = none :=
      fun w => setSemInfo_none _ v h2 w
    refine ⟨h2, h3, ?_⟩
    intro n2 hr
    rw [← run_eq_foldl_after ops n1 n2 hr]
    exact ⟨h2, h3⟩

theorem decoration_set_once_stable_witness :
    (∃ n1, Sample.whileStatement.setLabelIndex 7 = some n1 ∧
      (([NodeOp.incParens, NodeOp.setLabelIndex 9, NodeOp.clearParens].foldl Node.after
        n1).getLabelIndex = some 7)) ∧
    (∃ n1, Sample.asyncArrow.setSemInfo 4096 = some n1 ∧
      (([NodeOp.setSemInfo 8192, NodeOp.assignIsMethodDefinition true].foldl Node.after
        n1).getSemInfo = some 4096)) :=
  ⟨⟨_, rfl, (decoration_set_once_stable.1 Sample.whileStatement _ 7 rfl _).2.1⟩,
   ⟨_, rfl, (decoration_set_once_stable.2 Sample.asyncArrow _ 4096 rfl _).1⟩⟩


/-! ## Construction, dispatch and the paren counter -/

/-- Constructor arguments that match a field list fill every position of it. -/
theorem argsMatch_getElem :
    ∀ (specs : List ArgSpec) (args : List FieldVal), argsMatch specs args = true →
      args.length = specs.length ∧
        ∀ (i : Nat) (spec : ArgSpec), specs[i]? = some spec → ∃ v, args[i]? = some v := by
  intro specs
  induction specs with
  | nil =>
    intro args h
    cases args with
    | nil => exact ⟨rfl, fun i spec hs => by simp at hs⟩
    | cons v vs => simp [argsMatch] at h
  | cons a rest ih =>
    intro args h
    cases args with
    | nil => simp [argsMatch] at h
    | cons v vs =>
      simp only [argsMatch, Bool.and_eq_true] at h
      obtain ⟨hl, hi⟩ := ih vs h.2
      refine ⟨by simp [hl], ?_⟩
      intro i spec hs
      cases i with
      | zero => exact ⟨v, by simp⟩
      | succ j =>
        simp only [List.getElem?_cons_succ] at hs ⊢
        exact hi j spec hs

/-- The field of a constructed node found under the name of position `i` is the constructor
argument at position `i`. -/
theorem create_field (K : NodeKind) (args : List FieldVal) (i : Nat) (spec : ArgSpec)
    (hs : (argSpecs K)[i]? = some spec) :
    (Node.create K args).field spec.name = args[i]? := by
  have hidx : argIndex K spec.name = some i :=
    findIdx?_of_namesDistinct (argSpecs K) i spec (namesDistinct_argSpecs K) hs
  simp [Node.field, Node.create, Node.getKind, Node.base, Node.args, hidx]

/-- C18: construction round trip. For every concrete kind `K` and every tuple of field values
given positionally in schema order, the constructed node has kind `K`, holds the given values
in the given order, and each field, read by its name, is the value supplied for it: the same
child pointer, list, string handle, boolean or number. For example
`BinaryExpression(left, right, operator)` and `AssignmentExpression(operator, left, right)`. -/
theorem create_round_trip :
    (∀ (K : NodeKind) (args : List FieldVal), isConcrete K = true →
      argsMatch (argSpecs K) args = true →
      (Node.create K args).getKind = K ∧ (Node.create K args).args = args ∧
      args.length = (argSpecs K).length ∧
      ∀ (i : Nat) (spec : ArgSpec), (argSpecs K)[i]? = some spec →
        (∃ v, args[i]? = some v) ∧
        (Node.create K args).field spec.name = args[i]? ∧
        (∀ p, args[i]? = some (.ptr p) → (Node.create K args).ptrField spec.name = some p) ∧
        (∀ l, args[i]? = some (.list l) → (Node.create K args).listField spec.name = some l) ∧
        (∀ s, args[i]? = some (.str s) → (Node.create K args).strField spec.name = some s) ∧
        (∀ b, args[i]? = some (.boolean b) →
          (Node.create K args).boolField spec.name = some b) ∧
        (∀ x, args[i]? = some (.number x) →
          (Node.create K args).numField spec.name = some x)) ∧
    (∀ (left right : NodePtr) (operator : NodeLabel),
      (Node.create NodeKind.BinaryExpression
        [.ptr left, .ptr right, .str operator]).getKind = NodeKind.BinaryExpression ∧
      (Node.create NodeKind.BinaryExpression
        [.ptr left, .ptr right, .str operator]).ptrField "left" = some left ∧
      (Node.create NodeKind.BinaryExpression
        [.ptr left, .ptr right, .str operator]).ptrField "right" = some right ∧
      (Node.create NodeKind.BinaryExpression
        [.ptr left, .ptr right, .str operator]).strField "operator" = some operator) ∧
    (∀ (operator : NodeLabel) (left right : NodePtr),
      (Node.create NodeKind.AssignmentExpression
        [.str operator, .ptr left, .ptr right]).getKind = NodeKind.AssignmentExpression ∧
      (Node.create NodeKind.AssignmentExpression
        [.str operator, .ptr left, .ptr right]).strField "operator" = some operator ∧
      (Node.create NodeKind.AssignmentExpression
        [.str operator, .ptr left, .ptr right]).ptrField "left" = some left ∧
      (Node.create NodeKind.AssignmentExpression
        [.str operator, .ptr left, .ptr right]).ptrField "right" = some right) := by
  refine ⟨?_, ?_, ?_⟩
  · intro K args _ hm
    obtain ⟨hlen, hget⟩ := argsMatch_getElem (argSpecs K) args hm
    refine ⟨rfl, rfl, hlen, ?_⟩
    intro i spec hs
    have hf := create_field K args i spec hs
    refine ⟨hget i spec hs, hf, ?_, ?_, ?_, ?_, ?_⟩
    · intro p hp
      simp [Node.ptrField, hf, hp]
    · intro l hl
      simp [Node.listField, hf, hl]
    · intro s hs2
      simp [Node.strField, hf, hs2]
    · intro b hb
      simp [Node.boolField, hf, hb]
    · intro x hx
      simp [Node.numField, hf, hx]
  · intro left right operator
    have h0 := create_field NodeKind.BinaryExpression [.ptr left, .ptr right, .str operator] 0
      (arg .NodePtr "left" false) (by decide)
    have h1 := create_field NodeKind.BinaryExpression [.ptr left, .ptr right, .str operator] 1
      (arg .NodePtr "right" false) (by decide)
    have h2 := create_field NodeKind.BinaryExpression [.ptr left, .ptr right, .str operator] 2
      (arg .NodeLabel "operator" false) (by decide)
    simp only [arg] at h0 h1 h2
    refine ⟨rfl, ?_, ?_, ?_⟩
    · simp [Node.ptrField, h0]
    · simp [Node.ptrField, h1]
    · simp [Node.strField, h2]
  · intro operator left right
    have h0 := create_field NodeKind.AssignmentExpression
      [.str operator, .ptr left, .ptr right] 0 (arg .NodeLabel "operator" false) (by decide)
    have h1 := create_field NodeKind.AssignmentExpression
      [.str operator, .ptr left, .ptr right] 1 (arg .NodePtr "left" false) (by decide)
    have h2 := create_field NodeKind.AssignmentExpression
      [.str operator, .ptr left, .ptr right] 2 (arg .NodePtr "right" false) (by decide)
    simp only [arg] at h0 h1 h2
    refine ⟨rfl, ?_, ?_, ?_⟩
    · simp [Node.strField, h0]
    · simp [Node.ptrField, h1]
    · simp [Node.ptrField, h2]

theorem create_round_trip_witness :
    (Sample.memberExpression true).getKind = NodeKind.MemberExpression ∧
    (Sample.memberExpression true).args =
      [.ptr (some (Sample.ident "o")), .ptr (some (Sample.ident "p")), .boolean true] ∧
    (Sample.memberExpression true).ptrField "property" = some (some (Sample.ident "p")) ∧
    (Sample.memberExpression true).boolField "computed" = some true :=
  ⟨(create_round_trip.1 NodeKind.MemberExpression _ (by decide) (by decide)).1,
   (create_round_trip.1 NodeKind.MemberExpression _ (by decide) (by decide)).2.1,
   ((create_round_trip.1 NodeKind.MemberExpression _ (by decide) (by decide)).2.2.2 1
     (arg .NodePtr "property" false) (by decide)).2.2.1 _ rfl,
   ((create_round_trip.1 NodeKind.MemberExpression _ (by decide) (by decide)).2.2.2 2
     (arg .NodeBoolean "computed" false) (by decide)).2.2.2.2.2.1 _ rfl⟩

theorem getParens_incParens (m : Node) :
    m.incParens.getParens = if m.getParens < 2 then m.getParens + 1 else 2 := by
  cases m with
  | mk b d dummy args => rfl

theorem incParens_iterate (k : Nat) :
    ∀ m : Node, m.getParens ≤ 2 →
      (Node.incParens^[k] m).getParens = min (m.getParens + k) 2 := by
  induction k with
  | zero =>
    intro m hm
    simp only [Function.iterate_zero, id_eq, Nat.add_zero]
    omega
  | succ k ih =>
    intro m hm
    rw [Function.iterate_succ_apply]
    have h1 := getParens_incParens m
    have h2 : m.incParens.getParens ≤ 2 := by
      rw [h1]
      split_ifs <;> omega
    rw [ih m.incParens h2, h1]
    split_ifs <;> omega

/-- C20: the paren counter saturates at 2. Starting from a freshly constructed node of any
kind, after `n` calls of `incParens`, `getParens` returns `min n 2`, for every `n`. -/
theorem incParens_saturates (K : NodeKind) (args : List FieldVal) (n : Nat) :
    (Node.create K args).getParens = 0 ∧
    (Node.incParens^[n] (Node.create K args)).getParens = min n 2 := by
  have h0 : (Node.create K args).getParens = 0 := rfl
  refine ⟨h0, ?_⟩
  rw [incParens_iterate n (Node.create K args) (by omega), h0, Nat.zero_add]


/-- The `switch` of `ESTreeVisit` has a case for a kind exactly when the kind is concrete. -/
theorem find?_visitCases (k : NodeKind) :
    visitCases.find? (fun NAME => k == NAME) = if isConcrete k = true then some k else none := by
  cases h : visitCases.find? (fun NAME => k == NAME) with
  | some K =>
    have h1 := List.find?_some h
    have h2 := List.mem_of_find?_eq_some h
    have hK : K = k := by simpa using Eq.symm (beq_iff_eq.mp h1)
    subst hK
    simp only [visitCases, List.mem_filter] at h2
    simp [h2.2]
  | none =>
    rw [List.find?_eq_none] at h
    by_cases hc : isConcrete k = true
    · exfalso
      have hlt : k < schema.length := by
        unfold isConcrete at hc
        by_contra hge
        rw [List.getElem?_eq_none (Nat.le_of_not_lt hge)] at hc
        simp at hc
      exact h k (by simp [visitCases, List.mem_filter, hlt, hc]) (by simp)
    · simp [hc]

theorem dispatchCast_eq (n : Node) :
    dispatchCast n = if isConcrete n.getKind = true then some n else none := by
  unfold dispatchCast
  rw [find?_visitCases]
  by_cases hc : isConcrete n.getKind = true
  · simp [hc, cast, classofKind]
  · simp [hc]

mutual
theorem visitNode_done {σ : Type} (V : Visitor σ) :
    ∀ (n : Node) (s : σ), (∀ m ∈ preorder n, isConcrete m.getKind = true) →
      ∃ s2, visitNode V s n = Outcome.done s2
  | .mk b d dummy args, s, h => by
    have hc : isConcrete b.kind_ = true := by
      have := h (.mk b d dummy args) (by simp [preorder])
      simpa [Node.getKind, Node.base] using this
    have hargs : ∀ m ∈ preorderArgs args, isConcrete m.getKind = true :=
      fun m hm => h m (by simp [preorder, hm])
    by_cases hsv : (V.shouldVisit s (.mk b d dummy args)).1 = true
    · obtain ⟨s2, h2⟩ := visitArgs_done V args
        (V.enter (V.shouldVisit s (.mk b d dummy args)).2 (.mk b d dummy args)) hargs
      exact ⟨V.leave s2 (.mk b d dummy args), by simp [visitNode, hc, hsv, h2]⟩
    · exact ⟨(V.shouldVisit s (.mk b d dummy args)).2, by simp [visitNode, hc, hsv]⟩
theorem visitArgs_done {σ : Type} (V : Visitor σ) :
    ∀ (args : List FieldVal) (s : σ), (∀ m ∈ preorderArgs args, isConcrete m.getKind = true) →
      ∃ s2, visitArgs V s args = Outcome.done s2
  | [], s, _ => ⟨s, by simp [visitArgs]⟩
  | v :: vs, s, h => by
    obtain ⟨s1, h1⟩ := visitArg_done V v s (fun m hm => h m (by simp [preorderArgs, hm]))
    obtain ⟨s2, h2⟩ := visitArgs_done V vs s1 (fun m hm => h m (by simp [preorderArgs, hm]))
    exact ⟨s2, by simp [visitArgs, h1, h2]⟩
theorem visitArg_done {σ : Type} (V : Visitor σ) :
    ∀ (v : FieldVal) (s : σ), (∀ m ∈ preorderArg v, isConcrete m.getKind = true) →
      ∃ s2, visitArg V s v = Outcome.done s2
  | .ptr none, s, _ => ⟨s, by simp [visitArg]⟩
  | .ptr (some n), s, h => by
    obtain ⟨s2, h2⟩ := visitNode_done V n s (fun m hm => h m (by simp [preorderArg, hm]))
    exact ⟨s2, by simp [visitArg, h2]⟩
  | .list l, s, h => by
    obtain ⟨s2, h2⟩ := visitList_done V l s (fun m hm => h m (by simp [preorderArg, hm]))
    exact ⟨s2, by simp [visitArg, h2]⟩
  | .str _, s, _ => ⟨s, by simp [visitArg]⟩
  | .boolean _, s, _ => ⟨s, by simp [visitArg]⟩
  | .number _, s, _ => ⟨s, by simp [visitArg]⟩
theorem visitList_done {σ : Type} (V : Visitor σ) :
    ∀ (l : List Node) (s : σ), (∀ m ∈ preorderList l, isConcrete m.getKind = true) →
      ∃ s2, visitList V s l = Outcome.done s2
  | [], s, _ => ⟨s, by simp [visitList]⟩
  | n :: ns, s, h => by
    obtain ⟨s1, h1⟩ := visitNode_done V n s (fun m hm => h m (by simp [preorderList, hm]))
    obtain ⟨s2, h2⟩ := visitList_done V ns s1 (fun m hm => h m (by simp [preorderList, hm]))
    exact ⟨s2, by simp [visitList, h1, h2]⟩
end

/-- On a node of a concrete kind the traversal reaches the `visit` of the node's record: the
first call the visitor receives is `shouldVisit` on that node. -/
theorem visitNode_first_event {σ : Type} (V : Visitor σ) (s : σ) (n : Node)
    (hc : isConcrete n.getKind = true) :
    ∃ ev, (visitNode (instrument V) (s, []) n).state.2 =
      Event.shouldVisit n (V.shouldVisit s n).1 :: ev := by
  cases n with
  | mk b d dummy args =>
    simp only [Node.getKind, Node.base] at hc
    by_cases hsv : (V.shouldVisit s (.mk b d dummy args)).1 = true
    · obtain ⟨ev, hv, _⟩ := visitArgs_pruned V args
        (V.enter (V.shouldVisit s (.mk b d dummy args)).2 (.mk b d dummy args))
        [Event.shouldVisit (.mk b d dummy args) true, Event.enter (.mk b d dummy args)]
      simp only [visitNode, hc, if_true, instrument_shouldVisit_fst, hsv,
        instrument_shouldVisit_snd, instrument_enter, List.nil_append, List.singleton_append]
      cases hr : visitArgs (instrument V)
          (V.enter (V.shouldVisit s (.mk b d dummy args)).2 (.mk b d dummy args),
            [Event.shouldVisit (.mk b d dummy args) true, Event.enter (.mk b d dummy args)])
          args with
      | done s2 =>
        rw [hr] at hv
        simp only [Outcome.state] at hv
        simp only [instrument_leave, Outcome.state, hv]
        exact ⟨Event.enter (.mk b d dummy args) :: (ev ++ [Event.leave (.mk b d dummy args)]),
          by simp⟩
      | fault s2 =>
        rw [hr] at hv
        simp only [Outcome.state] at hv
        simp only [Outcome.state, hv]
        exact ⟨Event.enter (.mk b d dummy args) :: ev, by simp⟩
    · simp only [visitNode, hc, if_true, instrument_shouldVisit_fst, hsv,
        instrument_shouldVisit_snd, Outcome.state]
      exact ⟨[], by simp⟩

/-- C19: checked downcast and visitor dispatch agree with the kind tag. The `classof` of the
record of kind `K` accepts a node exactly when the node's kind is `K`, so `cast` to that
record succeeds exactly then. On a node of a concrete kind the `switch` of `ESTreeVisit`
selects the case of that kind, whose cast succeeds, and calls the record's `visit`; on any
other kind (a sentinel or an ordinal the enumeration does not declare) it faults at once. A
traversal that faults has met a node of a non-concrete kind. -/
theorem dispatch_agrees_with_kind :
    (∀ (K : NodeKind) (n : Node),
      (classofKind K n.getKind = true ↔ n.getKind = K) ∧
      (cast (classofKind K) (some n) = some n ↔ n.getKind = K) ∧
      (cast (classofKind K) (some n) = none ↔ n.getKind ≠ K)) ∧
    (∀ n : Node, isConcrete n.getKind = true → dispatchCast n = some n) ∧
    (∀ n : Node, isConcrete n.getKind = false → dispatchCast n = none) ∧
    (∀ k : NodeKind, isConcrete k = false ↔
      (enumeratorAt k = none ∨ ∃ e, schema[k]? = some e ∧ e.nodeName = none)) ∧
    (∀ (σ : Type) (V : Visitor σ) (s : σ) (n : Node), isConcrete n.getKind = false →
      ESTreeVisit V s (some n) = Outcome.fault s) ∧
    (∀ (σ : Type) (V : Visitor σ) (s : σ) (n : Node), isConcrete n.getKind = true →
      ∃ ev, (ESTreeVisit (instrument V) (s, []) (some n)).state.2 =
        Event.shouldVisit n (V.shouldVisit s n).1 :: ev) ∧
    (∀ (σ : Type) (V : Visitor σ) (s : σ) (n : Node),
      (∀ m ∈ preorder n, isConcrete m.getKind = true) →
      (ESTreeVisit V s (some n)).isDone = true) ∧
    (∀ (σ : Type) (V : Visitor σ) (s : σ) (root : NodePtr),
      (ESTreeVisit V s root).isDone = false →
      ∃ n, root = some n ∧ ∃ m ∈ preorder n, isConcrete m.getKind = false) := by
  refine ⟨?_, ?_, ?_, ?_, ?_, ?_, ?_, ?_⟩
  · intro K n
    refine ⟨by simp [classofKind], ?_, ?_⟩
    · by_cases h : n.getKind = K <;> simp [cast, classofKind, h]
    · by_cases h : n.getKind = K <;> simp [cast, classofKind, h]
  · intro n h
    rw [dispatchCast_eq, if_pos h]
  · intro n h
    rw [dispatchCast_eq, if_neg (by simp [h])]
  · intro k
    unfold isConcrete enumeratorAt
    cases hs : schema[k]? with
    | none => simp
    | some e => cases e <;> simp [Entry.nodeName]
  · intro σ V s n h
    cases n with
    | mk b d dummy args =>
      simp only [Node.getKind, Node.base] at h
      simp [ESTreeVisit, visitNode, h]
  · intro σ V s n h
    exact visitNode_first_event V s n h
  · intro σ V s n h
    obtain ⟨s2, h2⟩ := visitNode_done V n s h
    simp [ESTreeVisit, h2, Outcome.isDone]
  · intro σ V s root h
    cases root with
    | none => simp [ESTreeVisit, Outcome.isDone] at h
    | some n =>
      refine ⟨n, rfl, ?_⟩
      by_contra hno
      have hall : ∀ m ∈ preorder n, isConcrete m.getKind = true := by
        intro m hm
        by_contra hm2
        exact hno ⟨m, hm, by simpa using hm2⟩
      obtain ⟨s2, h2⟩ := visitNode_done V n s hall
      simp [ESTreeVisit, h2, Outcome.isDone] at h


theorem dispatch_agrees_with_kind_witness :
    dispatchCast Sample.whileStatement = some Sample.whileStatement ∧
    dispatchCast Sample.sentinelNode = none ∧
    ESTreeVisit Sample.skipBlocks () (some Sample.sentinelNode) = Outcome.fault () ∧
    (ESTreeVisit Sample.skipBlocks () (some Sample.ifStatement)).isDone = true ∧
    (∃ m ∈ preorder Sample.ifWithSentinel, isConcrete m.getKind = false) :=
  ⟨dispatch_agrees_with_kind.2.1 _ (by decide),
   dispatch_agrees_with_kind.2.2.1 _ (by decide),
   dispatch_agrees_with_kind.2.2.2.2.1 Unit _ () _ (by decide),
   dispatch_agrees_with_kind.2.2.2.2.2.2.1 Unit _ () _ (by decide),
   (dispatch_agrees_with_kind.2.2.2.2.2.2.2 Unit (predicateVisitor (fun _ => true)) ()
     (some Sample.ifWithSentinel) (by decide)).elim
     (fun n hn => (Option.some.inj hn.1) ▸ hn.2)⟩


/-! ## Null children, invalid ordinals and the kind tag -/

theorem enumeratorAt_constants3 :
    enumeratorAt NodeKind.ConditionalExpression = some "ConditionalExpression" ∧
    enumeratorAt NodeKind.VariableDeclarator = some "VariableDeclarator" := by
  decide

/-- A null child among the fields contributes nothing to the run over the fields. -/
theorem visitArgs_skip_null {σ : Type} (V : Visitor σ) (post : List FieldVal) :
    ∀ (pre : List FieldVal) (s : σ),
      visitArgs V s (pre ++ FieldVal.ptr none :: post) = visitArgs V s (pre ++ post) := by
  intro pre
  induction pre with
  | nil =>
    intro s
    simp [visitArgs, visitArg]
  | cons v vs ih =>
    intro s
    simp only [List.cons_append, visitArgs]
    cases visitArg V s v with
    | done s2 => exact ih s2
    | fault s2 => rfl

theorem preorderArgs_skip_null (post : List FieldVal) :
    ∀ pre : List FieldVal,
      preorderArgs (pre ++ FieldVal.ptr none :: post) = preorderArgs (pre ++ post) := by
  intro pre
  induction pre with
  | nil => simp [preorderArgs, preorderArg]
  | cons v vs ih => simp [preorderArgs, ih]

/-- C21: visiting a null child pointer does nothing. `ESTreeVisit(V, null)` returns normally
with the visitor state it was given, so no `shouldVisit`, `enter` or `leave` was called, and
the run over the fields of a node gives the same result and the same trace with a null child
among them as with that field left out. -/
theorem ESTreeVisit_null :
    (∀ (σ : Type) (V : Visitor σ) (s : σ), ESTreeVisit V s none = Outcome.done s) ∧
    (∀ (σ : Type) (V : Visitor σ) (s : σ) (log : List Event),
      ESTreeVisit (instrument V) (s, log) none = Outcome.done (s, log)) ∧
    (∀ (σ : Type) (V : Visitor σ) (s : σ) (log : List Event) (pre post : List FieldVal),
      visitArgs (instrument V) (s, log) (pre ++ FieldVal.ptr none :: post) =
        visitArgs (instrument V) (s, log) (pre ++ post)) ∧
    (∀ (σ : Type) (V : Visitor σ) (s : σ) (log : List Event),
      visitArg (instrument V) (s, log) (FieldVal.ptr none) = Outcome.done (s, log) ∧
      visitArg (instrument V) (s, log) (FieldVal.ptr none) =
        visitArg (instrument V) (s, log) (FieldVal.list [])) ∧
    (∀ pre post : List FieldVal,
      preorderArgs (pre ++ FieldVal.ptr none :: post) = preorderArgs (pre ++ post)) := by
  refine ⟨fun _ _ _ => rfl, fun _ _ _ _ => rfl, ?_, ?_, ?_⟩
  · intro σ V s log pre post
    exact visitArgs_skip_null (instrument V) post pre (s, log)
  · intro σ V s log
    exact ⟨rfl, rfl⟩
  · intro pre post
    exact preorderArgs_skip_null post pre


/-- The position a sentinel search returns holds an entry the search accepts. -/
theorem sentinelFirst_entry (NAME : String) (k : NodeKind)
    (h : sentinelFirst NAME = some k) :
    k < schema.length ∧ ∃ base, schema[k]? = some (Entry.first NAME base) := by
  unfold sentinelFirst at h
  obtain ⟨hlt, hp, _⟩ := List.findIdx?_eq_some_iff_getElem.mp h
  refine ⟨hlt, ?_⟩
  rw [List.getElem?_eq_getElem hlt]
  cases he : schema[k] with
  | first n b =>
    simp only [he, beq_iff_eq] at hp
    exact ⟨b, by rw [hp]⟩
  | last n => simp [he] at hp
  | node n b a => simp [he] at hp

theorem sentinelLast_entry (NAME : String) (k : NodeKind)
    (h : sentinelLast NAME = some k) :
    k < schema.length ∧ schema[k]? = some (Entry.last NAME) := by
  unfold sentinelLast at h
  obtain ⟨hlt, hp, _⟩ := List.findIdx?_eq_some_iff_getElem.mp h
  refine ⟨hlt, ?_⟩
  rw [List.getElem?_eq_getElem hlt]
  cases he : schema[k] with
  | first n b => simp [he] at hp
  | last n =>
    simp only [he, beq_iff_eq] at hp
    rw [hp]
  | node n b a => simp [he] at hp

/-- C22: `getNodeName` faults for every ordinal that is not a concrete kind: at each category
sentinel `_X_First` and `_X_Last`, and at every value greater than the last declared ordinal,
which is 258. It faults nowhere else. -/
theorem getNodeName_faults_off_concrete :
    (∀ k : NodeKind, getNodeName k = none ↔ isConcrete k = false) ∧
    (∀ (NAME : String) (k : NodeKind), sentinelFirst NAME = some k → getNodeName k = none) ∧
    (∀ (NAME : String) (k : NodeKind), sentinelLast NAME = some k → getNodeName k = none) ∧
    (∀ (k : NodeKind) (e : Entry), schema[k]? = some e → e.nodeName = none →
      getNodeName k = none) ∧
    schema.length = 259 ∧
    (∀ k : NodeKind, 258 < k → getNodeName k = none) := by
  have hlen : schema.length = 259 := schema_length
  refine ⟨?_, ?_, ?_, ?_, hlen, ?_⟩
  · intro k
    unfold getNodeName isConcrete
    cases hs : schema[k]? with
    | none => simp
    | some e => cases e <;> simp
  · intro NAME k h
    obtain ⟨_, base, hs⟩ := sentinelFirst_entry NAME k h
    simp [getNodeName, hs]
  · intro NAME k h
    obtain ⟨_, hs⟩ := sentinelLast_entry NAME k h
    simp [getNodeName, hs]
  · intro k e hs he
    cases e with
    | first n b => simp [getNodeName, hs]
    | last n => simp [getNodeName, hs]
    | node n b a => simp [Entry.nodeName] at he
  · intro k hk
    have hge : schema.length ≤ k := by
      rw [hlen]
      exact hk
    simp [getNodeName, List.getElem?_eq_none hge]

theorem getNodeName_faults_off_concrete_witness :
    getNodeName NodeKind._LoopStatement_First = none ∧
    getNodeName NodeKind._Cover_Last = none ∧
    getNodeName 259 = none ∧
    getNodeName 1000 = none :=
  ⟨getNodeName_faults_off_concrete.2.1 "LoopStatement" _ (by decide),
   getNodeName_faults_off_concrete.2.2.1 "Cover" _ (by decide),
   getNodeName_faults_off_concrete.2.2.2.2.2 259 (by decide),
   getNodeName_faults_off_concrete.2.2.2.2.2 1000 (by decide)⟩


/-- C23 as stated fails: a category predicate evaluated on an ordinal that is not a declared
kind returns a boolean. `StatementNode::classof` returns true on a node whose kind holds the
sentinel `_LoopStatement_First`, and `FunctionLikeNode::classof` returns false on a node whose
kind holds 1000, beyond the last enumerator. -/
theorem classof_returns_on_invalid_ordinal :
    isConcrete Sample.sentinelNode.getKind = false ∧
    isa StatementNode.classof (some Sample.sentinelNode) = some true ∧
    enumeratorAt Sample.outOfRangeNode.getKind = none ∧
    isa FunctionLikeNode.classof (some Sample.outOfRangeNode) = some false := by
  decide

/-- C23, as the code has it: a category predicate is a range comparison that returns a
boolean for every ordinal and never faults. It returns false for every ordinal beyond the
last declared one and for the category's own two sentinels, and it returns true only strictly
between them. -/
theorem categoryClassof_total :
    (∀ (NAME : String) (n : Node),
      isa (categoryClassof NAME) (some n) = some (categoryClassof NAME n.getKind)) ∧
    (∀ (NAME : String) (k : NodeKind), schema.length ≤ k → categoryClassof NAME k = false) ∧
    (∀ (NAME : String) (first last : NodeKind), sentinelFirst NAME = some first →
      sentinelLast NAME = some last →
      categoryClassof NAME first = false ∧ categoryClassof NAME last = false) ∧
    (∀ (NAME : String) (k : NodeKind), categoryClassof NAME k = true →
      ∃ first last, sentinelFirst NAME = some first ∧ sentinelLast NAME = some last ∧
        first < k ∧ k < last ∧ last < schema.length) := by
  have hrange : ∀ (NAME : String) (k : NodeKind), categoryClassof NAME k = true →
      ∃ first last, sentinelFirst NAME = some first ∧ sentinelLast NAME = some last ∧
        first < k ∧ k < last ∧ last < schema.length := by
    intro NAME k h
    unfold categoryClassof at h
    cases hf : sentinelFirst NAME with
    | none => simp [hf] at h
    | some first =>
      cases hl : sentinelLast NAME with
      | none => simp [hf, hl] at h
      | some last =>
        simp only [hf, hl, Bool.and_eq_true, decide_eq_true_eq] at h
        exact ⟨first, last, rfl, rfl, h.1, h.2, (sentinelLast_entry NAME last hl).1⟩
  refine ⟨fun _ _ => rfl, ?_, ?_, hrange⟩
  · intro NAME k hk
    by_contra hne
    obtain ⟨first, last, _, _, _, h2, h3⟩ := hrange NAME k (by simpa using hne)
    exact absurd (Nat.lt_trans h2 h3) (Nat.not_lt.mpr hk)
  · intro NAME first last hf hl
    simp [categoryClassof, hf, hl]

theorem categoryClassof_total_witness :
    categoryClassof "Statement" 259 = false ∧
    (categoryClassof "LoopStatement" NodeKind._LoopStatement_First = false ∧
      categoryClassof "LoopStatement" NodeKind._LoopStatement_Last = false) ∧
    (∃ first last, sentinelFirst "Statement" = some first ∧
      sentinelLast "Statement" = some last ∧ first < NodeKind._LoopStatement_First ∧
      NodeKind._LoopStatement_First < last ∧ last < schema.length) :=
  ⟨categoryClassof_total.2.1 "Statement" 259 (by decide!),
   categoryClassof_total.2.2.1 "LoopStatement" _ _ (by decide) (by decide),
   categoryClassof_total.2.2.2 "Statement" NodeKind._LoopStatement_First (by decide)⟩

/-- An operation that returns leaves the kind tag as it was. -/
theorem apply_getKind (n n2 : Node) (op : NodeOp) (h : n.apply op = some n2) :
    n2.getKind = n.getKind := by
  cases n with
  | mk b d dummy args =>
    cases op with
    | setLabelIndex v =>
      cases d <;> simp [Node.apply, Node.setLabelIndex] at h
      obtain ⟨d2, _, rfl⟩ := h
      rfl
    | setSemInfo v =>
      cases d <;> simp [Node.apply, Node.setSemInfo] at h
      obtain ⟨d2, _, rfl⟩ := h
      rfl
    | _ =>
      cases d <;> simp [Node.apply, Node.setSourceRange, Node.setStartLoc, Node.setEndLoc,
        Node.setDebugLoc, Node.incParens, Node.clearParens, Node.copyLocationFrom] at h <;>
        subst h <;> rfl

theorem after_getKind (n : Node) (op : NodeOp) : (n.after op).getKind = n.getKind := by
  unfold Node.after
  cases h : n.apply op with
  | none => rfl
  | some n2 => exact apply_getKind n n2 op h

theorem foldl_after_getKind (ops : List NodeOp) :
    ∀ n : Node, (ops.foldl Node.after n).getKind = n.getKind := by
  induction ops with
  | nil => exact fun _ => rfl
  | cons op ops ih => exact fun n => (ih (n.after op)).trans (after_getKind n op)

/-- C24: the kind tag is immutable after construction. No operation on a node
(`setSourceRange`, `setStartLoc`, `setEndLoc`, `setDebugLoc`, `copyLocationFrom`,
`incParens`, `clearParens`, the decoration setters and assignments, faulting or not) changes
what `getKind` returns, so after any sequence of them a node constructed with kind `K` still
has kind `K`; and a traversal hands the visitor only nodes of the tree it was given. -/
theorem getKind_immutable :
    (∀ (n n2 : Node) (op : NodeOp), n.apply op = some n2 → n2.getKind = n.getKind) ∧
    (∀ (n : Node) (ops : List NodeOp), (ops.foldl Node.after n).getKind = n.getKind) ∧
    (∀ (n n2 : Node) (ops : List NodeOp), Node.run n ops = some n2 →
      n2.getKind = n.getKind) ∧
    (∀ (K : NodeKind) (args : List FieldVal) (ops : List NodeOp),
      (ops.foldl Node.after (Node.create K args)).getKind = K) ∧
    (∀ (n src : Node) (rng : SMRange) (loc : SMLoc),
      (n.setSourceRange rng).getKind = n.getKind ∧ (n.setStartLoc loc).getKind = n.getKind ∧
      (n.setEndLoc loc).getKind = n.getKind ∧ (n.setDebugLoc loc).getKind = n.getKind ∧
      (n.copyLocationFrom src).getKind = n.getKind ∧ n.incParens.getKind = n.getKind ∧
      n.clearParens.getKind = n.getKind) ∧
    (∀ (n n2 : Node) (v : Nat),
      (n.setLabelIndex v = some n2 → n2.getKind = n.getKind) ∧
      (n.setSemInfo v = some n2 → n2.getKind = n.getKind)) ∧
    (∀ (σ : Type) (V : Visitor σ) (s : σ) (n : Node),
      ∀ e ∈ (visitNode (instrument V) (s, []) n).state.2, e.node ∈ preorder n) := by
  refine ⟨apply_getKind, fun n ops => foldl_after_getKind ops n, ?_, ?_, ?_, ?_, ?_⟩
  · intro n n2 ops h
    rw [← run_eq_foldl_after ops n n2 h]
    exact foldl_after_getKind ops n
  · intro K args ops
    exact foldl_after_getKind ops _
  · intro n src rng loc
    cases n with
    | mk b d dummy args => exact ⟨rfl, rfl, rfl, rfl, rfl, rfl, rfl⟩
  · intro n n2 v
    exact ⟨fun h => apply_getKind n n2 (NodeOp.setLabelIndex v) (by simpa [Node.apply] using h),
      fun h => apply_getKind n n2 (NodeOp.setSemInfo v) (by simpa [Node.apply] using h)⟩
  · intro σ V s n e he
    obtain ⟨ev, hev, hp⟩ := visitNode_pruned V n s []
    rw [hev, List.nil_append] at he
    exact hp.1 e he

theorem getKind_immutable_witness :
    (∀ n2, Node.run Sample.whileStatement
        [NodeOp.incParens, NodeOp.setLabelIndex 3, NodeOp.clearParens] = some n2 →
      n2.getKind = NodeKind.WhileStatement) ∧
    (∀ n2, Sample.asyncArrow.setSemInfo 4096 = some n2 →
      n2.getKind = NodeKind.ArrowFunctionExpression) :=
  ⟨fun n2 h => getKind_immutable.2.2.1 Sample.whileStatement n2 _ h,
   fun n2 h => (getKind_immutable.2.2.2.2.2.1 Sample.asyncArrow n2 4096).2 h⟩


/-! ## Allocation operators, the paren counter and strictness -/

theorem execAll_regular_free {Ctx : Type} (allocateNode : Ctx → Nat → Nat → Ctx × Nat)
    (ops : List MemOp) :
    ∀ ctx : Ctx, (∀ op ∈ ops, MemOp.isRegular op = false) →
      MemOp.execAll allocateNode ctx ops =
        some (serveRequests allocateNode ctx (allocationRequests ops)) := by
  induction ops with
  | nil => exact fun _ _ => rfl
  | cons op ops ih =>
    intro ctx h
    have hop := h op (List.mem_cons_self _ _)
    have hrest : ∀ o ∈ ops, MemOp.isRegular o = false :=
      fun o ho => h o (List.mem_cons_of_mem _ ho)
    cases op with
    | newInContext size alignment =>
      simp only [MemOp.execAll, MemOp.exec, allocationRequests, serveRequests]
      exact ih _ hrest
    | placementNew size mem =>
      simp only [MemOp.execAll, MemOp.exec, allocationRequests]
      exact ih _ hrest
    | deleteInContext ptr size =>
      simp only [MemOp.execAll, MemOp.exec, allocationRequests]
      exact ih _ hrest
    | deleteSized ptr size =>
      simp only [MemOp.execAll, MemOp.exec, allocationRequests]
      exact ih _ hrest
    | regularNew size => simp [MemOp.isRegular] at hop
    | regularDelete ptr => simp [MemOp.isRegular] at hop

theorem execAll_regular {Ctx : Type} (allocateNode : Ctx → Nat → Nat → Ctx × Nat)
    (ops : List MemOp) :
    ∀ ctx : Ctx, (∃ op ∈ ops, MemOp.isRegular op = true) →
      MemOp.execAll allocateNode ctx ops = none := by
  induction ops with
  | nil =>
    intro ctx h
    obtain ⟨op, hop, _⟩ := h
    simp at hop
  | cons op ops ih =>
    intro ctx h
    obtain ⟨o, ho, hreg⟩ := h
    cases hex : MemOp.exec allocateNode ctx op with
    | none => simp [MemOp.execAll, hex]
    | some r =>
      simp only [MemOp.execAll, hex]
      apply ih
      rcases List.mem_cons.mp ho with rfl | ho
      · cases o <;> simp [MemOp.exec, MemOp.isRegular] at hex hreg
      · exact ⟨o, ho, hreg⟩

/-- C25: node memory comes from the context allocator or from placement new and is never
released by node code. `operator new(size, ctx, alignment)` returns what `ctx.allocateNode`
returns, placement `new` returns the memory it was given, the two matching `delete`
operators leave the context as it is, and regular `new` and regular `delete` fault. Hence the
only operators that yield memory are the first two, and after any sequence of operator uses
that does not fault the context is what serving the allocation requests alone, in order,
makes it: each request served once, nothing given back. -/
theorem node_allocation_discipline (Ctx : Type)
    (allocateNode : Ctx → Nat → Nat → Ctx × Nat) :
    (∀ (ctx : Ctx) (size alignment : Nat),
      MemOp.exec allocateNode ctx (MemOp.newInContext size alignment) =
        some ((allocateNode ctx size alignment).1, some (allocateNode ctx size alignment).2)) ∧
    (∀ (ctx : Ctx) (size mem : Nat),
      MemOp.exec allocateNode ctx (MemOp.placementNew size mem) = some (ctx, some mem)) ∧
    (∀ (ctx : Ctx) (ptr size : Nat),
      MemOp.exec allocateNode ctx (MemOp.deleteInContext ptr size) = some (ctx, none) ∧
      MemOp.exec allocateNode ctx (MemOp.deleteSized ptr size) = some (ctx, none)) ∧
    (∀ (ctx : Ctx) (size ptr : Nat),
      MemOp.exec allocateNode ctx (MemOp.regularNew size) = none ∧
      MemOp.exec allocateNode ctx (MemOp.regularDelete ptr) = none) ∧
    (∀ (ctx : Ctx) (op : MemOp),
      MemOp.exec allocateNode ctx op = none ↔
        (∃ size, op = MemOp.regularNew size) ∨ (∃ ptr, op = MemOp.regularDelete ptr)) ∧
    (∀ (ctx ctx2 : Ctx) (op : MemOp) (addr : Nat),
      MemOp.exec allocateNode ctx op = some (ctx2, some addr) →
      (∃ size alignment, op = MemOp.newInContext size alignment ∧
        allocateNode ctx size alignment = (ctx2, addr)) ∨
      (∃ size, op = MemOp.placementNew size addr ∧ ctx2 = ctx)) ∧
    (∀ (ctx : Ctx) (ops : List MemOp), (∀ op ∈ ops, MemOp.isRegular op = false) →
      MemOp.execAll allocateNode ctx ops =
        some (serveRequests allocateNode ctx (allocationRequests ops))) ∧
    (∀ (ctx : Ctx) (ops : List MemOp), (∃ op ∈ ops, MemOp.isRegular op = true) →
      MemOp.execAll allocateNode ctx ops = none) := by
  refine ⟨fun _ _ _ => rfl, fun _ _ _ => rfl, fun _ _ _ => ⟨rfl, rfl⟩,
    fun _ _ _ => ⟨rfl, rfl⟩, ?_, ?_, ?_, ?_⟩
  · intro ctx op
    cases op <;> simp [MemOp.exec]
  · intro ctx ctx2 op addr h
    cases op with
    | newInContext size alignment =>
      simp only [MemOp.exec, Option.some.injEq, Prod.mk.injEq] at h
      exact Or.inl ⟨size, alignment, rfl, Prod.ext h.1 h.2⟩
    | placementNew size mem =>
      simp only [MemOp.exec, Option.some.injEq, Prod.mk.injEq] at h
      refine Or.inr ⟨size, ?_, h.1.symm⟩
      rw [h.2]
    | deleteInContext ptr size => simp [MemOp.exec] at h
    | deleteSized ptr size => simp [MemOp.exec] at h
    | regularNew size => simp [MemOp.exec] at h
    | regularDelete ptr => simp [MemOp.exec] at h
  · intro ctx ops h
    exact execAll_regular_free allocateNode ops ctx h
  · intro ctx ops h
    exact execAll_regular allocateNode ops ctx h

theorem node_allocation_discipline_witness :
    MemOp.execAll (fun (ctx : Nat) size _ => (ctx + size, ctx)) 0
        [MemOp.newInContext 24 8, MemOp.deleteInContext 0 24, MemOp.newInContext 40 8,
          MemOp.placementNew 16 1000, MemOp.deleteSized 24 40] = some 64 ∧
    MemOp.execAll (fun (ctx : Nat) size _ => (ctx + size, ctx)) 0
        [MemOp.newInContext 24 8, MemOp.regularDelete 0] = none :=
  ⟨(node_allocation_discipline Nat (fun ctx size _ => (ctx + size, ctx))).2.2.2.2.2.2.1 0 _
      (by decide),
   (node_allocation_discipline Nat (fun ctx size _ => (ctx + size, ctx))).2.2.2.2.2.2.2 0 _
      (by decide)⟩

/-- C29 as stated fails: `clearParens` is an operation on a node, and on a while statement
that was parenthesised once it takes the paren count from 1 to 0. -/
theorem clearParens_decreases :
    Sample.whileStatement.incParens.getParens = 1 ∧
    (Sample.whileStatement.incParens.apply NodeOp.clearParens).map Node.getParens = some 0 ∧
    Sample.whileStatement.incParens.clearParens.getParens <
      Sample.whileStatement.incParens.getParens := by
  decide

/-- An operation other than `incParens` and `clearParens` leaves the paren count as it is. -/
theorem apply_getParens (n n2 : Node) (op : NodeOp) (h : n.apply op = some n2)
    (hinc : op ≠ NodeOp.incParens) (hclear : op ≠ NodeOp.clearParens) :
    n2.getParens = n.getParens := by
  cases n with
  | mk b d dummy args =>
    cases op with
    | incParens => exact absurd rfl hinc
    | clearParens => exact absurd rfl hclear
    | setLabelIndex v =>
      cases d <;> simp [Node.apply, Node.setLabelIndex] at h
      obtain ⟨d2, _, rfl⟩ := h
      rfl
    | setSemInfo v =>
      cases d <;> simp [Node.apply, Node.setSemInfo] at h
      obtain ⟨d2, _, rfl⟩ := h
      rfl
    | _ =>
      cases d <;> simp [Node.apply, Node.setSourceRange, Node.setStartLoc, Node.setEndLoc,
        Node.setDebugLoc, Node.copyLocationFrom] at h <;>
        subst h <;> rfl

/-- The paren count stays within 0, 1, 2 under every operation. -/
theorem after_getParens_le (n : Node) (op : NodeOp) (h : n.getParens ≤ 2) :
    (n.after op).getParens ≤ 2 := by
  unfold Node.after
  cases hop : n.apply op with
  | none => exact h
  | some n2 =>
    by_cases hinc : op = NodeOp.incParens
    · subst hinc
      simp only [Node.apply, Option.some.injEq] at hop
      subst hop
      rw [getParens_incParens]
      split_ifs <;> omega
    · by_cases hclear : op = NodeOp.clearParens
      · subst hclear
        simp only [Node.apply, Option.some.injEq] at hop
        subst hop
        cases n with
        | mk b d dummy args => simp [Node.clearParens, Node.getParens, Node.base]
      · rw [apply_getParens n n2 op hop hinc hclear]
        exact h

theorem foldl_after_getParens_le (ops : List NodeOp) :
    ∀ n : Node, n.getParens ≤ 2 → (ops.foldl Node.after n).getParens ≤ 2 := by
  induction ops with
  | nil => exact fun _ h => h
  | cons op ops ih => exact fun n h => ih (n.after op) (after_getParens_le n op h)

/-- C29, as the code has it: after construction the paren count of a node is changed only by
`incParens`, which never decreases it, and by `clearParens`, which resets it to 0; every
other operation leaves it unchanged. The count stays within 0, 1, 2. -/
theorem parens_changed_by_inc_and_clear :
    (∀ (n n2 : Node) (op : NodeOp), n.apply op = some n2 → op ≠ NodeOp.incParens →
      op ≠ NodeOp.clearParens → n2.getParens = n.getParens) ∧
    (∀ (K : NodeKind) (args : List FieldVal) (ops : List NodeOp),
      (ops.foldl Node.after (Node.create K args)).getParens ≤ 2) ∧
    (∀ n : Node, n.getParens ≤ 2 →
      n.getParens ≤ n.incParens.getParens ∧ n.incParens.getParens ≤ 2) ∧
    (∀ n : Node, n.clearParens.getParens = 0) ∧
    (∀ (n n2 : Node) (op : NodeOp), n.getParens ≤ 2 → n.apply op = some n2 →
      op ≠ NodeOp.clearParens → n.getParens ≤ n2.getParens) := by
  refine ⟨apply_getParens, ?_, ?_, ?_, ?_⟩
  · intro K args ops
    exact foldl_after_getParens_le ops _ (Nat.zero_le 2)
  · intro n h
    rw [getParens_incParens]
    split_ifs <;> omega
  · intro n
    cases n with
    | mk b d dummy args => rfl
  · intro n n2 op h hop hclear
    by_cases hinc : op = NodeOp.incParens
    · subst hinc
      simp only [Node.apply, Option.some.injEq] at hop
      subst hop
      rw [getParens_incParens]
      split_ifs <;> omega
    · rw [apply_getParens n n2 op hop hinc hclear]

theorem parens_changed_by_inc_and_clear_witness :
    (∀ n2, Sample.whileStatement.incParens.apply (NodeOp.setLabelIndex 5) = some n2 →
      n2.getParens = Sample.whileStatement.incParens.getParens) ∧
    (Sample.whileStatement.getParens ≤ Sample.whileStatement.incParens.getParens ∧
      Sample.whileStatement.incParens.getParens ≤ 2) ∧
    (∀ n2, Sample.whileStatement.apply NodeOp.incParens = some n2 →
      Sample.whileStatement.getParens ≤ n2.getParens) :=
  ⟨fun n2 h => parens_changed_by_inc_and_clear.1 _ n2 _ h (fun e => NodeOp.noConfusion e)
     (fun e => NodeOp.noConfusion e),
   parens_changed_by_inc_and_clear.2.2.1 Sample.whileStatement (by decide),
   fun n2 h => parens_changed_by_inc_and_clear.2.2.2.2 Sample.whileStatement n2 _ (by decide) h
     (fun e => NodeOp.noConfusion e)⟩

/-- C30: strictness round trip. For both booleans `b`, `makeStrictness b` is not `NotSet`
and `isStrict (makeStrictness b)` returns `b`; `isStrict` faults on `NotSet`, and only
there. -/
theorem strictness_round_trip :
    (∀ b : Bool, makeStrictness b ≠ Strictness.NotSet ∧
      isStrict (makeStrictness b) = some b) ∧
    isStrict Strictness.NotSet = none ∧
    (∀ s : Strictness, isStrict s = none ↔ s = Strictness.NotSet) ∧
    isStrict Strictness.StrictMode = some true ∧
    isStrict Strictness.NonStrictMode = some false := by
  refine ⟨?_, rfl, ?_, rfl, rfl⟩
  · intro b
    cases b <;> exact ⟨by decide, rfl⟩
  · intro s
    cases s <;> decide


/-! ## The scan of `hasParamExpressions` -/

/-- On well-formed parameters the loop of `hasParamExpressions` returns, and returns what the
described scan gives. -/
theorem hasParamExpressionsLoop_scan (params : NodeList) (hwf : wfList params = true) :
    hasParamExpressionsLoop params = some (hasParamExpressionsScan params) := by
  induction params with
  | nil => rfl
  | cons p rest ih =>
    simp only [wfList, Bool.and_eq_true] at hwf
    have ih2 := ih hwf.2
    by_cases hap : p.getKind = NodeKind.AssignmentPattern
    · simp [hasParamExpressionsLoop, hasParamExpressionsScan, firstDecidingParam, classofKind,
        hap]
    · by_cases hcp : p.getKind = NodeKind.ComponentParameter
      · obtain ⟨loc, hloc, _⟩ := componentParameter_local p hwf.1 hcp
        by_cases hl : loc.getKind = NodeKind.AssignmentPattern
        · have hw : wrapsAssignmentPattern p = true := by
            simp [wrapsAssignmentPattern, hcp, hloc, hl]
          have hap2 : (p.getKind == NodeKind.AssignmentPattern) = false := by simpa using hap
          simp only [hasParamExpressionsLoop, classofKind, hap2]
          simp only [hasParamExpressionsScan, firstDecidingParam, List.find?, hw, hap2,
            Bool.or_true]
          simp [hcp, cast, classofKind, hloc, isa, hl]
        · have hw : wrapsAssignmentPattern p = false := by
            simp [wrapsAssignmentPattern, hcp, hloc, hl]
          have hap2 : (p.getKind == NodeKind.AssignmentPattern) = false := by simpa using hap
          have hl2 : (loc.getKind == NodeKind.AssignmentPattern) = false := by simpa using hl
          simp only [hasParamExpressionsLoop, classofKind, hap2]
          simp only [hasParamExpressionsScan, firstDecidingParam, List.find?, hw, hap2,
            Bool.or_false] at ih2 ⊢
          simp [hcp, cast, classofKind, hloc, isa, hl2, ih2]
      · have hw : wrapsAssignmentPattern p = false := by
          simp [wrapsAssignmentPattern, hcp]
        have hap2 : (p.getKind == NodeKind.AssignmentPattern) = false := by simpa using hap
        have hcp2 : (p.getKind == NodeKind.ComponentParameter) = false := by simpa using hcp
        simp only [hasParamExpressionsLoop, classofKind, hap2, hcp2]
        simp only [hasParamExpressionsScan, firstDecidingParam, List.find?, hw, hap2,
          Bool.or_false] at ih2 ⊢
        simpa using ih2

/-- The described scan returns true exactly when some parameter is an `AssignmentPattern` and
no parameter before it is a `ComponentParameter` wrapping an `AssignmentPattern`. -/
theorem hasParamExpressionsScan_iff (params : NodeList) :
    hasParamExpressionsScan params = true ↔
      ∃ (i : Nat) (p : Node), params[i]? = some p ∧ p.getKind = NodeKind.AssignmentPattern ∧
        ∀ (j : Nat) (q : Node), j < i → params[j]? = some q →
          wrapsAssignmentPattern q = false := by
  induction params with
  | nil => simp [hasParamExpressionsScan, firstDecidingParam]
  | cons p rest ih =>
    by_cases hap : p.getKind = NodeKind.AssignmentPattern
    · have hl : hasParamExpressionsScan (p :: rest) = true := by
        simp [hasParamExpressionsScan, firstDecidingParam, hap]
      rw [hl]
      simp only [true_iff]
      exact ⟨0, p, List.getElem?_cons_zero, hap, fun j q hj _ => absurd hj (Nat.not_lt_zero j)⟩
    · have hap2 : (p.getKind == NodeKind.AssignmentPattern) = false := by simpa using hap
      by_cases hw : wrapsAssignmentPattern p = true
      · have hl : hasParamExpressionsScan (p :: rest) = false := by
          simp [hasParamExpressionsScan, firstDecidingParam, List.find?, hw, hap2]
        rw [hl]
        simp only [Bool.false_eq_true, false_iff]
        rintro ⟨i, q, hq, hqk, hbefore⟩
        cases i with
        | zero =>
          simp only [List.getElem?_cons_zero, Option.some.injEq] at hq
          subst hq
          exact hap hqk
        | succ i =>
          have := hbefore 0 p (Nat.succ_pos i) List.getElem?_cons_zero
          rw [hw] at this
          exact absurd this (by decide)
      · have hw2 : wrapsAssignmentPattern p = false := by simpa using hw
        have hl : hasParamExpressionsScan (p :: rest) = hasParamExpressionsScan rest := by
          simp [hasParamExpressionsScan, firstDecidingParam, List.find?, hw2, hap2]
        rw [hl, ih]
        constructor
        · rintro ⟨i, q, hq, hqk, hbefore⟩
          refine ⟨i + 1, q, by simpa using hq, hqk, ?_⟩
          intro j r hj hr
          cases j with
          | zero =>
            simp only [List.getElem?_cons_zero, Option.some.injEq] at hr
            subst hr
            exact hw2
          | succ j =>
            exact hbefore j r (Nat.lt_of_succ_lt_succ hj) (by simpa using hr)
        · rintro ⟨i, q, hq, hqk, hbefore⟩
          cases i with
          | zero =>
            simp only [List.getElem?_cons_zero, Option.some.injEq] at hq
            subst hq
            exact absurd hqk hap
          | succ i =>
            refine ⟨i, q, by simpa using hq, hqk, ?_⟩
            intro j r hj hr
            exact hbefore (j + 1) r (Nat.succ_lt_succ hj) (by simpa using hr)

/-- C26: on a well-formed function-like node `hasParamExpressions` returns, and its result is
the one decided by the first parameter that is an `AssignmentPattern` (true) or a
`ComponentParameter` whose `local` is an `AssignmentPattern` (false, the scan stops there);
it is false when there is no such parameter. So it returns true exactly when some parameter
`i` is an `AssignmentPattern` and no parameter before `i` is a `ComponentParameter` wrapping
an `AssignmentPattern`. -/
theorem hasParamExpressions_first_deciding (fn : Node) (hwf : fn.wf = true)
    (hfl : FunctionLikeNode.classof fn.getKind = true) :
    ∃ params, getParams fn = some params ∧
      hasParamExpressions fn = some (hasParamExpressionsScan params) ∧
      (hasParamExpressions fn = some true ↔
        ∃ (i : Nat) (p : Node), params[i]? = some p ∧
          p.getKind = NodeKind.AssignmentPattern ∧
          ∀ (j : Nat) (q : Node), j < i → params[j]? = some q →
            ¬ (q.getKind = NodeKind.ComponentParameter ∧
              ∃ loc, q.ptrField "local" = some (some loc) ∧
                loc.getKind = NodeKind.AssignmentPattern)) := by
  obtain ⟨params, hp, hw⟩ := getParams_wf fn hwf hfl
  have h1 : hasParamExpressions fn = some (hasParamExpressionsScan params) := by
    simp [hasParamExpressions, hp, hasParamExpressionsLoop_scan params hw]
  refine ⟨params, hp, h1, ?_⟩
  rw [h1, Option.some.injEq, hasParamExpressionsScan_iff]
  have hwrap : ∀ q : Node, wrapsAssignmentPattern q = false ↔
      ¬ (q.getKind = NodeKind.ComponentParameter ∧
        ∃ loc, q.ptrField "local" = some (some loc) ∧
          loc.getKind = NodeKind.AssignmentPattern) := by
    intro q
    unfold wrapsAssignmentPattern
    by_cases hq : q.getKind = NodeKind.ComponentParameter
    · cases hf : q.ptrField "local" with
      | none => simp [hq]
      | some o =>
        cases o with
        | none => simp [hq]
        | some loc => simp [hq]
    · simp [hq]
  constructor
  · rintro ⟨i, p, h2, h3, h4⟩
    exact ⟨i, p, h2, h3, fun j q hj hq => (hwrap q).mp (h4 j q hj hq)⟩
  · rintro ⟨i, p, h2, h3, h4⟩
    exact ⟨i, p, h2, h3, fun j q hj hq => (hwrap q).mpr (h4 j q hj hq)⟩

theorem hasParamExpressions_first_deciding_witness :
    (∃ params, getParams Sample.componentWithDefaults = some params ∧
      hasParamExpressions Sample.componentWithDefaults =
        some (hasParamExpressionsScan params)) ∧
    hasParamExpressions Sample.componentWithDefaults = some false ∧
    hasParamExpressions (Sample.functionExpression
      [Sample.ident "a", Sample.assignmentPattern (Sample.ident "b") (Sample.ident "y")]
      (Sample.block [])) = some true :=
  ⟨(hasParamExpressions_first_deciding Sample.componentWithDefaults (by decide)
      (by decide)).elim (fun params h => ⟨params, h.1, h.2.1⟩),
   by decide, by decide⟩


/-! ## Nesting of `enter` and `leave` -/

theorem bracketed_append (a : List Event) :
    ∀ (st1 st2 : List Node) (b : List Event), Bracketed st1 a → Bracketed st2 b →
      Bracketed (st1 ++ st2) (a ++ b) := by
  induction a with
  | nil =>
    intro st1 st2 b ha hb
    simp only [Bracketed] at ha
    subst ha
    simpa using hb
  | cons e a ih =>
    intro st1 st2 b ha hb
    cases e with
    | shouldVisit n ans =>
      simp only [List.cons_append, Bracketed] at ha ⊢
      exact ih st1 st2 b ha hb
    | enter n =>
      simp only [List.cons_append, Bracketed] at ha ⊢
      exact ih (n :: st1) st2 b ha hb
    | leave n =>
      simp only [List.cons_append, Bracketed] at ha ⊢
      obtain ⟨st, rfl, hst⟩ := ha
      exact ⟨st ++ st2, rfl, ih st st2 b hst hb⟩

/-- The trace of a visited node is a bracket around the trace of its fields. -/
theorem bracketed_wrap (n : Node) (ans : Bool) (ev : List Event) (h : Bracketed [] ev) :
    Bracketed [] (Event.shouldVisit n ans :: Event.enter n :: (ev ++ [Event.leave n])) := by
  simp only [Bracketed]
  have h2 : Bracketed [n] [Event.leave n] := ⟨[], rfl, rfl⟩
  simpa using bracketed_append ev [] [n] [Event.leave n] h h2

mutual
theorem visitNode_bracketed {σ : Type} (V : Visitor σ) :
    ∀ (n : Node) (s : σ) (log : List Event) (r : σ × List Event),
      visitNode (instrument V) (s, log) n = Outcome.done r →
      ∃ ev, r.2 = log ++ ev ∧ Bracketed [] ev
  | .mk b d dummy args, s, log, r, h => by
    by_cases hc : isConcrete b.kind_ = true
    · by_cases hsv : (V.shouldVisit s (.mk b d dummy args)).1 = true
      · simp only [visitNode, hc, if_true, instrument_shouldVisit_fst, hsv,
          instrument_shouldVisit_snd, instrument_enter] at h
        cases hr : visitArgs (instrument V)
            (V.enter (V.shouldVisit s (.mk b d dummy args)).2 (.mk b d dummy args),
              log ++ [Event.shouldVisit (.mk b d dummy args) true] ++
                [Event.enter (.mk b d dummy args)]) args with
        | done r2 =>
          obtain ⟨ev, hev, hb⟩ := visitArgs_bracketed V args _ _ r2 hr
          rw [hr] at h
          simp only [instrument_leave, Outcome.done.injEq] at h
          subst h
          refine ⟨Event.shouldVisit (.mk b d dummy args) true ::
            Event.enter (.mk b d dummy args) :: (ev ++ [Event.leave (.mk b d dummy args)]),
            ?_, bracketed_wrap _ true ev hb⟩
          simp [hev]
        | fault r2 =>
          rw [hr] at h
          simp at h
      · have hsv2 : (V.shouldVisit s (.mk b d dummy args)).1 = false := by simpa using hsv
        simp only [visitNode, hc, if_true, instrument_shouldVisit_fst, hsv2,
          instrument_shouldVisit_snd, Bool.false_eq_true, if_false, Outcome.done.injEq] at h
        subst h
        exact ⟨[Event.shouldVisit (.mk b d dummy args) false], rfl, by simp [Bracketed]⟩
    · simp [visitNode, hc] at h
theorem visitArgs_bracketed {σ : Type} (V : Visitor σ) :
    ∀ (args : List FieldVal) (s : σ) (log : List Event) (r : σ × List Event),
      visitArgs (instrument V) (s, log) args = Outcome.done r →
      ∃ ev, r.2 = log ++ ev ∧ Bracketed [] ev
  | [], s, log, r, h => by
    simp only [visitArgs, Outcome.done.injEq] at h
    subst h
    exact ⟨[], by simp, by simp [Bracketed]⟩
  | v :: vs, s, log, r, h => by
    simp only [visitArgs] at h
    cases hr : visitArg (instrument V) (s, log) v with
    | done r1 =>
      rw [hr] at h
      obtain ⟨ev1, h1, b1⟩ := visitArg_bracketed V v s log r1 hr
      obtain ⟨ev2, h2, b2⟩ := visitArgs_bracketed V vs r1.1 r1.2 r h
      refine ⟨ev1 ++ ev2, ?_, ?_⟩
      · rw [h2, h1, List.append_assoc]
      · simpa using bracketed_append ev1 [] [] ev2 b1 b2
    | fault r1 =>
      rw [hr] at h
      simp at h
theorem visitArg_bracketed {σ : Type} (V : Visitor σ) :
    ∀ (v : FieldVal) (s : σ) (log : List Event) (r : σ × List Event),
      visitArg (instrument V) (s, log) v = Outcome.done r →
      ∃ ev, r.2 = log ++ ev ∧ Bracketed [] ev
  | .ptr none, s, log, r, h => by
    simp only [visitArg, Outcome.done.injEq] at h
    subst h
    exact ⟨[], by simp, by simp [Bracketed]⟩
  | .ptr (some n), s, log, r, h => by
    simp only [visitArg] at h
    exact visitNode_bracketed V n s log r h
  | .list l, s, log, r, h => by
    simp only [visitArg] at h
    exact visitList_bracketed V l s log r h
  | .str _, s, log, r, h => by
    simp only [visitArg, Outcome.done.injEq] at h
    subst h
    exact ⟨[], by simp, by simp [Bracketed]⟩
  | .boolean _, s, log, r, h => by
    simp only [visitArg, Outcome.done.injEq] at h
    subst h
    exact ⟨[], by simp, by simp [Bracketed]⟩
  | .number _, s, log, r, h => by
    simp only [visitArg, Outcome.done.injEq] at h
    subst h
    exact ⟨[], by simp, by simp [Bracketed]⟩
theorem visitList_bracketed {σ : Type} (V : Visitor σ) :
    ∀ (l : List Node) (s : σ) (log : List Event) (r : σ × List Event),
      visitList (instrument V) (s, log) l = Outcome.done r →
      ∃ ev, r.2 = log ++ ev ∧ Bracketed [] ev
  | [], s, log, r, h => by
    simp only [visitList, Outcome.done.injEq] at h
    subst h
    exact ⟨[], by simp, by simp [Bracketed]⟩
  | n :: ns, s, log, r, h => by
    simp only [visitList] at h
    cases hr : visitNode (instrument V) (s, log) n with
    | done r1 =>
      rw [hr] at h
      obtain ⟨ev1, h1, b1⟩ := visitNode_bracketed V n s log r1 hr
      obtain ⟨ev2, h2, b2⟩ := visitList_bracketed V ns r1.1 r1.2 r h
      refine ⟨ev1 ++ ev2, ?_, ?_⟩
      · rw [h2, h1, List.append_assoc]
      · simpa using bracketed_append ev1 [] [] ev2 b1 b2
    | fault r1 =>
      rw [hr] at h
      simp at h
end


/-- The trace of one node: a refused node leaves its `shouldVisit` call alone; a visited node
leaves `shouldVisit`, `enter`, the trace of its fields, which is balanced and speaks only of
nodes below it, and `leave`. -/
theorem visitNode_trace {σ : Type} (V : Visitor σ) (s : σ) (log : List Event) (n : Node)
    (r : σ × List Event) (h : visitNode (instrument V) (s, log) n = Outcome.done r) :
    ((V.shouldVisit s n).1 = false ∧ r.2 = log ++ [Event.shouldVisit n false]) ∨
    ((V.shouldVisit s n).1 = true ∧
      ∃ ev, r.2 = log ++ Event.shouldVisit n true :: Event.enter n :: (ev ++ [Event.leave n]) ∧
        Bracketed [] ev ∧ ∀ e ∈ ev, e.node ∈ preorderArgs n.args) := by
  cases n with
  | mk b d dummy args =>
    by_cases hc : isConcrete b.kind_ = true
    · by_cases hsv : (V.shouldVisit s (.mk b d dummy args)).1 = true
      · right
        refine ⟨hsv, ?_⟩
        simp only [visitNode, hc, if_true, instrument_shouldVisit_fst, hsv,
          instrument_shouldVisit_snd, instrument_enter] at h
        obtain ⟨ev2, hev2, hp⟩ := visitArgs_pruned V args
          (V.enter (V.shouldVisit s (.mk b d dummy args)).2 (.mk b d dummy args))
          (log ++ [Event.shouldVisit (.mk b d dummy args) true] ++
            [Event.enter (.mk b d dummy args)])
        cases hr : visitArgs (instrument V)
            (V.enter (V.shouldVisit s (.mk b d dummy args)).2 (.mk b d dummy args),
              log ++ [Event.shouldVisit (.mk b d dummy args) true] ++
                [Event.enter (.mk b d dummy args)]) args with
        | done r2 =>
          obtain ⟨ev, hev, hb⟩ := visitArgs_bracketed V args _ _ r2 hr
          rw [hr] at h hev2
          simp only [Outcome.state] at hev2
          have heq : ev2 = ev := List.append_cancel_left (hev2.symm.trans hev)
          subst heq
          simp only [instrument_leave, Outcome.done.injEq] at h
          subst h
          refine ⟨ev2, ?_, hb, hp.1⟩
          simp [hev]
        | fault r2 =>
          rw [hr] at h
          simp at h
      · left
        have hsv2 : (V.shouldVisit s (.mk b d dummy args)).1 = false := by simpa using hsv
        refine ⟨hsv2, ?_⟩
        simp only [visitNode, hc, if_true, instrument_shouldVisit_fst, hsv2,
          instrument_shouldVisit_snd, Bool.false_eq_true, if_false, Outcome.done.injEq] at h
        subst h
        rfl
    · simp [visitNode, hc] at h

/-- C27: `enter` and `leave` are properly nested. In a traversal that returns, the trace of
every node the walk reaches is either the refused `shouldVisit` alone, or `shouldVisit`, then
`enter`, then the events of the node's fields, all of them about nodes below it, then
`leave`; and the whole trace is a balanced bracket sequence in which `leave n` closes the
innermost open `enter n`. A traversal of a tree of concrete kinds returns. -/
theorem enter_leave_nested :
    (∀ (σ : Type) (V : Visitor σ) (s : σ) (n : Node) (r : σ × List Event),
      ESTreeVisit (instrument V) (s, []) (some n) = Outcome.done r → Bracketed [] r.2) ∧
    (∀ (σ : Type) (V : Visitor σ) (s : σ) (log : List Event) (n : Node)
        (r : σ × List Event),
      visitNode (instrument V) (s, log) n = Outcome.done r →
      ((V.shouldVisit s n).1 = false ∧ r.2 = log ++ [Event.shouldVisit n false]) ∨
      ((V.shouldVisit s n).1 = true ∧
        ∃ ev, r.2 = log ++
            Event.shouldVisit n true :: Event.enter n :: (ev ++ [Event.leave n]) ∧
          Bracketed [] ev ∧ ∀ e ∈ ev, e.node ∈ preorderArgs n.args)) ∧
    (∀ (σ : Type) (V : Visitor σ) (s : σ) (n : Node),
      (∀ m ∈ preorder n, isConcrete m.getKind = true) →
      ∃ r, ESTreeVisit (instrument V) (s, []) (some n) = Outcome.done r ∧
        Bracketed [] r.2) := by
  have h1 : ∀ (σ : Type) (V : Visitor σ) (s : σ) (n : Node) (r : σ × List Event),
      ESTreeVisit (instrument V) (s, []) (some n) = Outcome.done r → Bracketed [] r.2 := by
    intro σ V s n r h
    obtain ⟨ev, hev, hb⟩ := visitNode_bracketed V n s [] r h
    rw [hev]
    simpa using hb
  refine ⟨h1, ?_, ?_⟩
  · intro σ V s log n r h
    exact visitNode_trace V s log n r h
  · intro σ V s n hall
    obtain ⟨r, hr⟩ := visitNode_done (instrument V) n (s, []) hall
    exact ⟨r, hr, h1 σ V s n r hr⟩

theorem enter_leave_nested_witness :
    (∃ r, ESTreeVisit (instrument Sample.skipBlocks) ((), []) (some Sample.ifStatement) =
        Outcome.done r ∧ Bracketed [] r.2) ∧
    Bracketed []
      (ESTreeVisit (instrument Sample.acceptAll) ((), []) (some Sample.conditional)).state.2 :=
  ⟨enter_leave_nested.2.2 Unit Sample.skipBlocks () Sample.ifStatement (by decide),
   enter_leave_nested.1 Unit Sample.acceptAll () Sample.conditional _ rfl⟩

/-! ## Children in schema order -/

/-- A well-formed value of a required child-pointer field is a well-formed node. -/
theorem wfArg_ptr_required (spec : ArgSpec) (v : FieldVal) (hty : spec.ty = ArgTy.NodePtr)
    (hopt : spec.optional = false) (h : wfArg spec v = true) :
    ∃ c, v = FieldVal.ptr (some c) ∧ c.wf = true := by
  cases v with
  | ptr p =>
    cases p with
    | none => simp [wfArg, hopt] at h
    | some c =>
      simp only [wfArg, Bool.and_eq_true] at h
      exact ⟨c, rfl, h.2⟩
  | list l => simp [wfArg, hty] at h
  | str x => cases x <;> simp [wfArg, hty] at h
  | boolean x => simp [wfArg, hty] at h
  | number x => simp [wfArg, hty] at h

/-- A well-formed value of a child-pointer field is a pointer. -/
theorem wfArg_ptr (spec : ArgSpec) (v : FieldVal) (hty : spec.ty = ArgTy.NodePtr)
    (h : wfArg spec v = true) : ∃ p, v = FieldVal.ptr p := by
  cases v with
  | ptr p => exact ⟨p, rfl⟩
  | list l => simp [wfArg, hty] at h
  | str x => cases x <;> simp [wfArg, hty] at h
  | boolean x => simp [wfArg, hty] at h
  | number x => simp [wfArg, hty] at h

theorem argSpecs_conditional_declarator :
    argSpecs NodeKind.ConditionalExpression =
      [arg .NodePtr "test" false, arg .NodePtr "alternate" false,
        arg .NodePtr "consequent" false] ∧
    argSpecs NodeKind.VariableDeclarator =
      [arg .NodePtr "init" true, arg .NodePtr "id" false] := by
  decide


/-- C28: children are visited in the order the schema declares the fields. The fields of a
`ConditionalExpression` are declared test, alternate, consequent, and a visitor that accepts
every node enters the node, then the subtree of `test`, then that of `alternate`, then that
of `consequent`. The fields of a `VariableDeclarator` are declared init, id, and the subtree
of `init`, when there is one, is entered before that of `id`. -/
theorem children_in_schema_order :
    (argSpecs NodeKind.ConditionalExpression).map ArgSpec.name =
      ["test", "alternate", "consequent"] ∧
    (argSpecs NodeKind.VariableDeclarator).map ArgSpec.name = ["init", "id"] ∧
    (∀ (σ : Type) (V : Visitor σ) (s : σ) (n : Node),
      (∀ s n, (V.shouldVisit s n).1 = true) → n.wf = true →
      n.getKind = NodeKind.ConditionalExpression →
      ∃ test alternate consequent,
        n.ptrField "test" = some (some test) ∧
        n.ptrField "alternate" = some (some alternate) ∧
        n.ptrField "consequent" = some (some consequent) ∧
        ∃ s2 log, ESTreeVisit (instrument V) (s, []) (some n) = Outcome.done (s2, log) ∧
          enters log = n :: (preorder test ++ preorder alternate ++ preorder consequent)) ∧
    (∀ (σ : Type) (V : Visitor σ) (s : σ) (n : Node),
      (∀ s n, (V.shouldVisit s n).1 = true) → n.wf = true →
      n.getKind = NodeKind.VariableDeclarator →
      ∃ init id,
        n.ptrField "init" = some init ∧ n.ptrField "id" = some (some id) ∧
        ∃ s2 log, ESTreeVisit (instrument V) (s, []) (some n) = Outcome.done (s2, log) ∧
          enters log = n :: (preorderArg (FieldVal.ptr init) ++ preorder id)) := by
  obtain ⟨hce, hvd⟩ := argSpecs_conditional_declarator
  refine ⟨by rw [hce]; rfl, by rw [hvd]; rfl, ?_, ?_⟩
  · intro σ V s n hsv hwf hk
    obtain ⟨s2, ev, hv, he⟩ := visitNode_enters V hsv n s [] hwf
    have hargs := n.wf_args hwf
    rw [hk, hce] at hargs
    cases n with
    | mk b d dummy args =>
      simp only [Node.getKind, Node.base] at hk
      simp only [Node.args] at hargs
      match args, hargs with
      | [v0, v1, v2], hargs =>
        simp only [wfArgs, Bool.and_eq_true] at hargs
        obtain ⟨t, rfl, _⟩ := wfArg_ptr_required _ v0 rfl rfl hargs.1
        obtain ⟨a, rfl, _⟩ := wfArg_ptr_required _ v1 rfl rfl hargs.2.1
        obtain ⟨c, rfl, _⟩ := wfArg_ptr_required _ v2 rfl rfl hargs.2.2.1
        have i0 : argIndex 60 "test" = some 0 := by decide
        have i1 : argIndex 60 "alternate" = some 1 := by decide
        have i2 : argIndex 60 "consequent" = some 2 := by decide
        refine ⟨t, a, c, ?_, ?_, ?_, s2, ev, ?_, ?_⟩
        · simp [Node.ptrField, Node.field, Node.getKind, Node.base, Node.args, hk,
            NodeKind.ConditionalExpression, i0]
        · simp [Node.ptrField, Node.field, Node.getKind, Node.base, Node.args, hk,
            NodeKind.ConditionalExpression, i1]
        · simp [Node.ptrField, Node.field, Node.getKind, Node.base, Node.args, hk,
            NodeKind.ConditionalExpression, i2]
        · simpa [ESTreeVisit] using hv
        · rw [he]
          simp [preorder, preorderArgs, preorderArg]
      | [], hargs => simp [wfArgs] at hargs
      | [_], hargs => simp [wfArgs] at hargs
      | [_, _], hargs => simp [wfArgs] at hargs
      | _ :: _ :: _ :: _ :: _, hargs => simp [wfArgs] at hargs
  · intro σ V s n hsv hwf hk
    obtain ⟨s2, ev, hv, he⟩ := visitNode_enters V hsv n s [] hwf
    have hargs := n.wf_args hwf
    rw [hk, hvd] at hargs
    cases n with
    | mk b d dummy args =>
      simp only [Node.getKind, Node.base] at hk
      simp only [Node.args] at hargs
      match args, hargs with
      | [v0, v1], hargs =>
        simp only [wfArgs, Bool.and_eq_true] at hargs
        obtain ⟨init, rfl⟩ := wfArg_ptr _ v0 rfl hargs.1
        obtain ⟨id, rfl, _⟩ := wfArg_ptr_required _ v1 rfl rfl hargs.2.1
        have i0 : argIndex 69 "init" = some 0 := by decide
        have i1 : argIndex 69 "id" = some 1 := by decide
        refine ⟨init, id, ?_, ?_, s2, ev, ?_, ?_⟩
        · simp [Node.ptrField, Node.field, Node.getKind, Node.base, Node.args, hk,
            NodeKind.VariableDeclarator, i0]
        · simp [Node.ptrField, Node.field, Node.getKind, Node.base, Node.args, hk,
            NodeKind.VariableDeclarator, i1]
        · simpa [ESTreeVisit] using hv
        · rw [he]
          simp [preorder, preorderArgs]
          rfl
      | [], hargs => simp [wfArgs] at hargs
      | [_], hargs => simp [wfArgs] at hargs
      | _ :: _ :: _ :: _, hargs => simp [wfArgs] at hargs

theorem children_in_schema_order_witness :
    (∃ test alternate consequent,
      Sample.conditional.ptrField "test" = some (some test) ∧
      Sample.conditional.ptrField "alternate" = some (some alternate) ∧
      Sample.conditional.ptrField "consequent" = some (some consequent) ∧
      ∃ s2 log, ESTreeVisit (instrument Sample.acceptAll) ((), []) (some Sample.conditional) =
          Outcome.done (s2, log) ∧
        enters log = Sample.conditional ::
          (preorder test ++ preorder alternate ++ preorder consequent)) ∧
    enters (ESTreeVisit (instrument Sample.acceptAll) ((), [])
        (some Sample.conditional)).state.2 =
      [Sample.conditional, Sample.ident "t", Sample.ident "a", Sample.ident "c"] ∧
    enters (ESTreeVisit (instrument Sample.acceptAll) ((), [])
        (some Sample.declarator)).state.2 =
      [Sample.declarator, Sample.ident "v", Sample.ident "x"] :=
  ⟨children_in_schema_order.2.2.1 Unit Sample.acceptAll () Sample.conditional
      (fun _ _ => rfl) (by decide) rfl,
   rfl, rfl⟩


/-! ## Location copying, unset values, fresh nodes and the key policy -/

/-- C31: `copyLocationFrom(src)` copies all location data and nothing else. Afterwards the
source range of the destination, start and end, and its debug location are those of `src`;
its kind, paren count, fields, decoration and `dummyParamList` are as before. The source is
only read, and copying a node's location from itself changes nothing. -/
theorem copyLocationFrom_frame (n src : Node) :
    (n.copyLocationFrom src).getSourceRange = src.getSourceRange ∧
    (n.copyLocationFrom src).getStartLoc = src.getStartLoc ∧
    (n.copyLocationFrom src).getEndLoc = src.getEndLoc ∧
    (n.copyLocationFrom src).getDebugLoc = src.getDebugLoc ∧
    (n.copyLocationFrom src).getKind = n.getKind ∧
    (n.copyLocationFrom src).getParens = n.getParens ∧
    (n.copyLocationFrom src).args = n.args ∧
    (∀ name, (n.copyLocationFrom src).field name = n.field name) ∧
    (n.copyLocationFrom src).deco = n.deco ∧
    (n.copyLocationFrom src).dummyParamList = n.dummyParamList ∧
    n.apply (NodeOp.copyLocationFrom src) = some (n.copyLocationFrom src) ∧
    n.copyLocationFrom n = n := by
  cases n with
  | mk b d dummy args =>
    refine ⟨rfl, rfl, rfl, rfl, rfl, rfl, rfl, fun _ => rfl, rfl, rfl, ?_, rfl⟩
    simp [Node.apply]

/-- C38: the value that encodes unset cannot be stored through a decoration setter.
`setLabelIndex(0xFFFFFFFF)` faults on every node, also on one whose label index is not set,
and `setSemInfo(null)` faults on every node; the node is left as it was, so it stays unset.
A setter call that returns has stored a value other than the unset one. -/
theorem unset_value_not_storable :
    INVALID_LABEL = 0xFFFFFFFF ∧
    (∀ d : LabelDecorationBase, d.setLabelIndex INVALID_LABEL = none) ∧
    (∀ d : FunctionLikeDecoration, d.setSemInfo 0 = none) ∧
    (∀ n : Node, n.setLabelIndex INVALID_LABEL = none ∧ n.setSemInfo 0 = none) ∧
    (∀ n : Node, n.after (NodeOp.setLabelIndex INVALID_LABEL) = n ∧
      n.after (NodeOp.setSemInfo 0) = n) ∧
    (∀ n : Node, n.isLabelIndexSet = some false →
      n.setLabelIndex INVALID_LABEL = none ∧
      (n.after (NodeOp.setLabelIndex INVALID_LABEL)).isLabelIndexSet = some false) ∧
    (∀ (n : Node) (d : FunctionLikeDecoration), n.deco = Decoration.functionLike d →
      d.semInfo_ = 0 →
      n.setSemInfo 0 = none ∧ (n.after (NodeOp.setSemInfo 0)).getSemInfo = none) ∧
    (∀ (n n1 : Node) (v : Nat), n.setLabelIndex v = some n1 →
      v ≠ INVALID_LABEL ∧ n1.getLabelIndex = some v) ∧
    (∀ (n n1 : Node) (v : Nat), n.setSemInfo v = some n1 →
      v ≠ 0 ∧ n1.getSemInfo = some v) := by
  have hl : ∀ n : Node, n.setLabelIndex INVALID_LABEL = none := by
    intro n
    cases n with
    | mk b d dummy args =>
      cases d <;> simp [Node.setLabelIndex, LabelDecorationBase.setLabelIndex]
  have hs : ∀ n : Node, n.setSemInfo 0 = none := by
    intro n
    cases n with
    | mk b d dummy args =>
      cases d <;> simp [Node.setSemInfo, FunctionLikeDecoration.setSemInfo]
  have hal : ∀ n : Node, n.after (NodeOp.setLabelIndex INVALID_LABEL) = n := by
    intro n
    simp [Node.after, Node.apply, hl n]
  have has : ∀ n : Node, n.after (NodeOp.setSemInfo 0) = n := by
    intro n
    simp [Node.after, Node.apply, hs n]
  refine ⟨by decide, ?_, ?_, fun n => ⟨hl n, hs n⟩, fun n => ⟨hal n, has n⟩, ?_, ?_, ?_, ?_⟩
  · intro d
    simp [LabelDecorationBase.setLabelIndex]
  · intro d
    simp [FunctionLikeDecoration.setSemInfo]
  · intro n h
    rw [hal n]
    exact ⟨hl n, h⟩
  · intro n d hd h0
    rw [has n]
    refine ⟨hs n, ?_⟩
    simp [Node.getSemInfo, hd, FunctionLikeDecoration.getSemInfo, h0]
  · intro n n1 v h
    refine ⟨?_, (setLabelIndex_some n n1 v h).2.2⟩
    intro hv
    rw [hv, hl n] at h
    cases h
  · intro n n1 v h
    refine ⟨?_, (setSemInfo_some n n1 v h).2⟩
    intro hv
    rw [hv, hs n] at h
    cases h

theorem unset_value_not_storable_witness :
    (Sample.whileStatement.setLabelIndex INVALID_LABEL = none ∧
      (Sample.whileStatement.after
        (NodeOp.setLabelIndex INVALID_LABEL)).isLabelIndexSet = some false) ∧
    (Sample.asyncArrow.setSemInfo 0 = none ∧
      (Sample.asyncArrow.after (NodeOp.setSemInfo 0)).getSemInfo = none) ∧
    (∀ n1, Sample.whileStatement.setLabelIndex 7 = some n1 → n1.getLabelIndex = some 7) :=
  ⟨unset_value_not_storable.2.2.2.2.2.1 Sample.whileStatement (by decide),
   unset_value_not_storable.2.2.2.2.2.2.1 Sample.asyncArrow {} (by decide) rfl,
   fun n1 h => (unset_value_not_storable.2.2.2.2.2.2.2.1 Sample.whileStatement n1 7 h).2⟩

/-- C39: a freshly constructed node carries no decoration. Its paren count is 0 and its
locations are the default ones; a node of a kind with a label decoration has no label index
set; a function-like node has strictness `NotSet`, no semantic info, the default source
visibility and `isMethodDefinition` false; a `BlockStatement` has `isLazyFunctionBody`,
`paramYield` and `paramAwait` all false. -/
theorem fresh_node_undecorated :
    (∀ (K : NodeKind) (args : List FieldVal),
      (Node.create K args).getParens = 0 ∧
      (Node.create K args).getSourceRange = {} ∧ (Node.create K args).getDebugLoc = {} ∧
      (Node.create K args).getLabelIndex = none ∧ (Node.create K args).getSemInfo = none) ∧
    (∀ (K : NodeKind) (args : List FieldVal),
      LoopStatementNode.classof K = true ∨ K = NodeKind.BreakStatement ∨
        K = NodeKind.ContinueStatement ∨ K = NodeKind.SwitchStatement ∨
        K = NodeKind.LabeledStatement →
      (Node.create K args).isLabelIndexSet = some false) ∧
    (∀ (K : NodeKind) (args : List FieldVal), FunctionLikeNode.classof K = true →
      ∃ d, (Node.create K args).deco = Decoration.functionLike d ∧
        d.strictness = Strictness.NotSet ∧ d.semInfo_ = 0 ∧
        d.sourceVisibility = SourceVisibility.Default ∧ d.isMethodDefinition = false) ∧
    (∀ args : List FieldVal,
      ∃ d, (Node.create NodeKind.BlockStatement args).deco = Decoration.block d ∧
        d.isLazyFunctionBody = false ∧ d.paramYield = false ∧ d.paramAwait = false) := by
  refine ⟨?_, ?_, ?_, ?_⟩
  · intro K args
    refine ⟨rfl, rfl, rfl, ?_, ?_⟩
    · simp only [Node.create, Node.getLabelIndex, Node.deco, Decoration.fresh]
      split_ifs <;> rfl
    · simp only [Node.create, Node.getSemInfo, Node.deco, Decoration.fresh]
      split_ifs <;> rfl
  · intro K args hK
    simp only [Node.create, Node.isLabelIndexSet, Node.deco, fresh_label K hK]
    rfl
  · intro K args hK
    exact ⟨{}, by simp only [Node.create, Node.deco, fresh_functionLike K hK], rfl, rfl, rfl,
      rfl⟩
  · intro args
    have h : Decoration.fresh NodeKind.BlockStatement = Decoration.block {} := by decide
    exact ⟨{}, by simp only [Node.create, Node.deco, h], rfl, rfl, rfl⟩

theorem fresh_node_undecorated_witness :
    Sample.whileStatement.isLabelIndexSet = some false ∧
    (∃ d, Sample.asyncArrow.deco = Decoration.functionLike d ∧
      d.strictness = Strictness.NotSet ∧ d.semInfo_ = 0 ∧
      d.sourceVisibility = SourceVisibility.Default ∧ d.isMethodDefinition = false) :=
  ⟨fresh_node_undecorated.2.1 NodeKind.WhileStatement _ (Or.inl (by decide)),
   fresh_node_undecorated.2.2.1 NodeKind.ArrowFunctionExpression _ (by decide)⟩

/-- C40: `NodeKindInfo` is a valid key policy for kinds. The empty key is ordinal
`2 ^ 32 - 1` and the tombstone key `2 ^ 32 - 2`; they differ from each other and from every
ordinal the enumeration declares, concrete kinds and sentinels alike; `isEqual` is equality
of ordinals; `getHashValue` is the ordinal itself, hence injective on declared kinds. -/
theorem nodeKindInfo_key_policy :
    NodeKindInfo.getEmptyKey = 2 ^ 32 - 1 ∧ NodeKindInfo.getTombstoneKey = 2 ^ 32 - 2 ∧
    NodeKindInfo.getEmptyKey ≠ NodeKindInfo.getTombstoneKey ∧
    (∀ k : NodeKind, (enumeratorAt k).isSome = true →
      k ≠ NodeKindInfo.getEmptyKey ∧ k ≠ NodeKindInfo.getTombstoneKey) ∧
    (∀ a b : NodeKind, NodeKindInfo.isEqual a b = true ↔ a = b) ∧
    (∀ k : NodeKind, k < 2 ^ 32 → NodeKindInfo.getHashValue k = k) ∧
    (∀ k : NodeKind, (enumeratorAt k).isSome = true → NodeKindInfo.getHashValue k = k) ∧
    (∀ a b : NodeKind, (enumeratorAt a).isSome = true → (enumeratorAt b).isSome = true →
      NodeKindInfo.getHashValue a = NodeKindInfo.getHashValue b → a = b) := by
  have he : NodeKindInfo.getEmptyKey = 2 ^ 32 - 1 := by decide
  have ht : NodeKindInfo.getTombstoneKey = 2 ^ 32 - 2 := by decide
  have hdecl : ∀ k : NodeKind, (enumeratorAt k).isSome = true → k < 259 := by
    intro k hk
    unfold enumeratorAt at hk
    by_contra hge
    have hge2 : schema.length ≤ k := by
      rw [schema_length]
      exact Nat.le_of_not_lt hge
    simp [List.getElem?_eq_none hge2] at hk
  have hhash : ∀ k : NodeKind, k < 2 ^ 32 → NodeKindInfo.getHashValue k = k :=
    fun k hk => Nat.mod_eq_of_lt hk
  have hlt : ∀ k : NodeKind, k < 259 → k < 2 ^ 32 := fun k hk => Nat.lt_trans hk (by decide)
  refine ⟨he, ht, by rw [he, ht]; decide, ?_, ?_, hhash, ?_, ?_⟩
  · intro k hk
    have h1 := hdecl k hk
    rw [he, ht]
    have h2 : ∀ n : Nat, n < 259 → n ≠ 2 ^ 32 - 1 ∧ n ≠ 2 ^ 32 - 2 := by
      intro n hn
      omega
    exact h2 k h1
  · intro a b
    simp [NodeKindInfo.isEqual]
  · intro k hk
    exact hhash k (hlt k (hdecl k hk))
  · intro a b ha hb h
    rw [hhash a (hlt a (hdecl a ha)), hhash b (hlt b (hdecl b hb))] at h
    exact h

theorem nodeKindInfo_key_policy_witness :
    (NodeKind._Cover_Last ≠ NodeKindInfo.getEmptyKey ∧
      NodeKind._Cover_Last ≠ NodeKindInfo.getTombstoneKey) ∧
    NodeKindInfo.getHashValue NodeKind.BinaryExpression = NodeKind.BinaryExpression :=
  ⟨nodeKindInfo_key_policy.2.2.2.1 _ (by decide),
   nodeKindInfo_key_policy.2.2.2.2.2.2.1 _ (by decide)⟩


/-! ## The root of a linearization, and the naive flattening -/

/-- A node has one spine along a side. -/
theorem isSpine_unique (N : NodeKind) (ops : List String) (side : String) :
    ∀ (c1 c2 : List Node) (x : Node), isSpine N ops side x c1 → isSpine N ops side x c2 →
      c1 = c2 := by
  intro c1
  induction c1 with
  | nil =>
    intro c2 x h1 h2
    cases c2 with
    | nil => rfl
    | cons c cs =>
      obtain ⟨l, hl, hm⟩ := h1
      obtain ⟨hc, hmc, _⟩ := h2
      rw [hl] at hc
      cases hc
      exact absurd hmc hm
  | cons c cs ih =>
    intro c2 x h1 h2
    cases c2 with
    | nil =>
      obtain ⟨hc, hmc, _⟩ := h1
      obtain ⟨l, hl, hm⟩ := h2
      rw [hl] at hc
      cases hc
      exact absurd hmc hm
    | cons c' cs' =>
      obtain ⟨hc, _, hr⟩ := h1
      obtain ⟨hc', _, hr'⟩ := h2
      rw [hc] at hc'
      cases hc'
      rw [ih cs' c hr hr']

/-- Every node of a spine matches. -/
theorem isSpine_matches (N : NodeKind) (ops : List String) (side : String) :
    ∀ (chain : List Node) (e : Node), isSpine N ops side e chain →
      ∀ c ∈ chain, matchesOps N ops c := by
  intro chain
  induction chain with
  | nil =>
    intro e _ c hc
    simp at hc
  | cons x xs ih =>
    intro e hsp c hc
    obtain ⟨_, hm, hrest⟩ := hsp
    rcases List.mem_cons.mp hc with rfl | hc
    · exact hm
    · exact ih x hrest c hc

/-- With no operators nothing matches, so the spine is empty. -/
theorem isSpine_no_ops (N : NodeKind) (side : String) (chain : List Node) (e : Node)
    (h : isSpine N [] side e chain) : chain = [] := by
  cases chain with
  | nil => rfl
  | cons c cs =>
    obtain ⟨_, ⟨_, op, _, hmem⟩, _⟩ := h
    simp at hmem

/-- The result of `linearizeLeft` is the left spine, deepest node first, then the root. -/
theorem linearizeLeft_eq_spine (N : NodeKind) (e : Node) (ops : List String)
    (hN : hasExprMembers N = true) (hk : e.getKind = N) (hwf : e.wf = true) :
    ∃ chain, isSpine N ops "left" e chain ∧
      linearizeLeft N e ops = some (chain.reverse ++ [e]) := by
  obtain ⟨chain, hloop, hsp⟩ :=
    linearizeLeftLoop_spec N ops hN e.size e [e] (Nat.le_refl _) hwf hk
  exact ⟨chain, hsp, by simp [linearizeLeft, hloop]⟩

/-- The result of `linearizeRight` is the root, then the right spine. -/
theorem linearizeRight_eq_spine (N : NodeKind) (e : Node) (ops : List String)
    (hN : hasExprMembers N = true) (hk : e.getKind = N) (hwf : e.wf = true) :
    ∃ chain, isSpine N ops "right" e chain ∧ linearizeRight N e ops = some (e :: chain) := by
  obtain ⟨chain, hloop, hsp⟩ :=
    linearizeRightLoop_spec N ops hN e.size e [e] (Nat.le_refl _) hwf hk
  exact ⟨chain, hsp, by simp [linearizeRight, hloop]⟩

/-- C33: the root passed to `linearizeLeft` or `linearizeRight` is always part of the result,
and its own operator is not checked. For a well-formed `e` of form `N` the result of
`linearizeLeft` ends with `e` and that of `linearizeRight` starts with `e`, whatever the
operator of `e` is; every other element is a node of form `N` whose operator is in `ops`;
with an empty `ops` the result is exactly `[e]`. On `((a + b) - c) + d` with the operator
list `["*"]` the result is the root alone, although its operator `+` is not in the list. -/
theorem linearize_keeps_root :
    (∀ (N : NodeKind) (e : Node) (ops : List String),
      hasExprMembers N = true → e.getKind = N → e.wf = true →
      ∃ v, linearizeLeft N e ops = some v ∧ v.getLast? = some e ∧ e ∈ v ∧
        ∀ x ∈ v.dropLast, x.getKind = N ∧
          ∃ op, x.strField "operator" = some (some op) ∧ op ∈ ops) ∧
    (∀ (N : NodeKind) (e : Node) (ops : List String),
      hasExprMembers N = true → e.getKind = N → e.wf = true →
      ∃ v, linearizeRight N e ops = some v ∧ v.head? = some e ∧ e ∈ v ∧
        ∀ x ∈ v.tail, x.getKind = N ∧
          ∃ op, x.strField "operator" = some (some op) ∧ op ∈ ops) ∧
    (∀ (N : NodeKind) (e : Node),
      hasExprMembers N = true → e.getKind = N → e.wf = true →
      linearizeLeft N e [] = some [e] ∧ linearizeRight N e [] = some [e]) ∧
    (Sample.sumOuter.strField "operator" = some (some "+") ∧
      linearizeLeft NodeKind.BinaryExpression Sample.sumOuter ["*"] =
        some [Sample.sumOuter] ∧
      linearizeRight NodeKind.BinaryExpression Sample.sumOuter ["*"] =
        some [Sample.sumOuter]) := by
  refine ⟨?_, ?_, ?_, rfl, rfl, rfl⟩
  · intro N e ops hN hk hwf
    obtain ⟨chain, hsp, hv⟩ := linearizeLeft_eq_spine N e ops hN hk hwf
    refine ⟨chain.reverse ++ [e], hv, by simp, by simp, ?_⟩
    intro x hx
    rw [List.dropLast_concat] at hx
    exact isSpine_matches N ops "left" chain e hsp x (List.mem_reverse.mp hx)
  · intro N e ops hN hk hwf
    obtain ⟨chain, hsp, hv⟩ := linearizeRight_eq_spine N e ops hN hk hwf
    refine ⟨e :: chain, hv, rfl, by simp, ?_⟩
    intro x hx
    exact isSpine_matches N ops "right" chain e hsp x hx
  · intro N e hN hk hwf
    obtain ⟨c1, hsp1, hv1⟩ := linearizeLeft_eq_spine N e [] hN hk hwf
    obtain ⟨c2, hsp2, hv2⟩ := linearizeRight_eq_spine N e [] hN hk hwf
    rw [isSpine_no_ops N "left" c1 e hsp1] at hv1
    rw [isSpine_no_ops N "right" c2 e hsp2] at hv2
    exact ⟨by simpa using hv1, hv2⟩

theorem linearize_keeps_root_witness :
    (∃ v, linearizeLeft NodeKind.BinaryExpression Sample.sumOuter ["-"] = some v ∧
      v.getLast? = some Sample.sumOuter ∧ Sample.sumOuter ∈ v ∧
      ∀ x ∈ v.dropLast, x.getKind = NodeKind.BinaryExpression ∧
        ∃ op, x.strField "operator" = some (some op) ∧ op ∈ ["-"]) ∧
    linearizeLeft NodeKind.BinaryExpression Sample.sumOuter ["-"] =
      some [Sample.sumMiddle, Sample.sumOuter] ∧
    (linearizeLeft NodeKind.AssignmentExpression Sample.assignOuter [] =
        some [Sample.assignOuter] ∧
      linearizeRight NodeKind.AssignmentExpression Sample.assignOuter [] =
        some [Sample.assignOuter]) :=
  ⟨linearize_keeps_root.1 NodeKind.BinaryExpression Sample.sumOuter ["-"] (by decide) rfl
      (by decide),
   rfl,
   linearize_keeps_root.2.2.1 NodeKind.AssignmentExpression Sample.assignOuter (by decide) rfl
      (by decide)⟩


/-- The naive flattening returns the left spine, deepest node first, then the root. -/
theorem flattenLeftNaive_spec (N : NodeKind) (ops : List String)
    (hN : hasExprMembers N = true) :
    ∀ (depth : Nat) (e : Node), e.size ≤ depth → e.wf = true → e.getKind = N →
      ∃ chain, isSpine N ops "left" e chain ∧
        flattenLeftNaive N ops depth e = some (chain.reverse ++ [e]) := by
  intro depth
  induction depth with
  | zero =>
    intro e hsz
    have := e.size_pos
    omega
  | succ depth ih =>
    intro e hsz hwf hk
    obtain ⟨l, hl, hlwf⟩ := exprForm_left e hwf (by rw [hk]; exact hN)
    have hlt := size_ptrField_lt e l "left" hl
    have hc := checkExprOperator_some N ops l hN hlwf
    by_cases hm : matchesOps N ops l
    · obtain ⟨chain, hsp, hfl⟩ := ih l (by omega) hlwf hm.1
      refine ⟨l :: chain, ⟨hl, hm, hsp⟩, ?_⟩
      simp [flattenLeftNaive, hl, hc.1 hm, hfl]
    · refine ⟨[], ⟨l, hl, hm⟩, ?_⟩
      simp [flattenLeftNaive, hl, hc.2 hm]

/-- The sample sums are well-formed binary expressions with operator `+`. -/
theorem deepSum_facts (n : Nat) :
    (Sample.deepSum n).getKind = NodeKind.BinaryExpression ∧
    (Sample.deepSum n).strField "operator" = some (some "+") ∧
    (Sample.deepSum n).wf = true := by
  induction n with
  | zero => exact ⟨rfl, rfl, by decide⟩
  | succ n ih =>
    refine ⟨rfl, rfl, ?_⟩
    have h1 : isConcrete NodeKind.BinaryExpression = true := by decide
    have h2 : Decoration.fresh NodeKind.BinaryExpression = Decoration.empty := by decide
    have h3 : argSpecs NodeKind.BinaryExpression =
        [arg .NodePtr "left" false, arg .NodePtr "right" false,
          arg .NodeLabel "operator" false] := by decide
    have h4 : (Sample.ident "c").wf = true := by decide
    simp only [Sample.deepSum, Sample.binaryExpression, Node.create, Node.wf, h1, h2, h3,
      wfArgs, wfArg, arg, ih.2.2, h4, Decoration.sameClass, wfList]
    decide

/-- C34: the iterative `linearizeLeft` equals the naive recursive flattening on every
well-formed expression of form `N`, whatever its nesting depth. It returns what the recursion
returns with any depth bound from the size of the tree on; it satisfies the recursion
`linearizeLeft(e) = linearizeLeft(e.left) ++ [e]` when `e.left` is a node of form `N` with
operator in `ops`, and `[e]` otherwise; and its length is 1 plus the number of consecutive
matching nodes on the left spine. A left-nested sum of `n + 1` additions gives `n + 1`
elements for every `n`, also beyond `MAX_NESTED_BINARY`. -/
theorem linearizeLeft_eq_naive :
    (∀ (N : NodeKind) (e : Node) (ops : List String),
      hasExprMembers N = true → e.getKind = N → e.wf = true →
      (∃ v, linearizeLeft N e ops = some v) ∧
      (∀ depth, e.size ≤ depth → linearizeLeft N e ops = flattenLeftNaive N ops depth e) ∧
      (∃ l, e.ptrField "left" = some (some l) ∧
        ((l.getKind = N ∧ ∃ op, l.strField "operator" = some (some op) ∧ op ∈ ops) →
          ∃ vl, linearizeLeft N l ops = some vl ∧
            linearizeLeft N e ops = some (vl ++ [e])) ∧
        (¬ (l.getKind = N ∧ ∃ op, l.strField "operator" = some (some op) ∧ op ∈ ops) →
          linearizeLeft N e ops = some [e])) ∧
      (∃ chain v, isSpine N ops "left" e chain ∧ linearizeLeft N e ops = some v ∧
        v.length = 1 + chain.length)) ∧
    (∀ n : Nat, (Sample.deepSum n).wf = true ∧
      ∃ v, linearizeLeft NodeKind.BinaryExpression (Sample.deepSum n) ["+"] = some v ∧
        v.length = n + 1) ∧
    (∃ v, linearizeLeft NodeKind.BinaryExpression
        (Sample.deepSum (MAX_NESTED_BINARY + 1)) ["+"] = some v ∧
      v.length = MAX_NESTED_BINARY + 2) := by
  have hmain : ∀ (N : NodeKind) (e : Node) (ops : List String),
      hasExprMembers N = true → e.getKind = N → e.wf = true →
      ∃ l, e.ptrField "left" = some (some l) ∧
        (matchesOps N ops l →
          ∃ vl, linearizeLeft N l ops = some vl ∧
            linearizeLeft N e ops = some (vl ++ [e])) ∧
        (¬ matchesOps N ops l → linearizeLeft N e ops = some [e]) := by
    intro N e ops hN hk hwf
    obtain ⟨l, hl, hlwf⟩ := exprForm_left e hwf (by rw [hk]; exact hN)
    obtain ⟨chain, hsp, hv⟩ := linearizeLeft_eq_spine N e ops hN hk hwf
    refine ⟨l, hl, ?_, ?_⟩
    · intro hm
      obtain ⟨cl, hspl, hvl⟩ := linearizeLeft_eq_spine N l ops hN hm.1 hlwf
      have hch : chain = l :: cl :=
        isSpine_unique N ops "left" chain (l :: cl) e hsp ⟨hl, hm, hspl⟩
      refine ⟨cl.reverse ++ [l], hvl, ?_⟩
      rw [hv, hch]
      simp
    · intro hm
      have hch : chain = [] := isSpine_unique N ops "left" chain [] e hsp ⟨l, hl, hm⟩
      rw [hv, hch]
      rfl
  have hdeep : ∀ n : Nat, (Sample.deepSum n).wf = true ∧
      ∃ v, linearizeLeft NodeKind.BinaryExpression (Sample.deepSum n) ["+"] = some v ∧
        v.length = n + 1 := by
    intro n
    induction n with
    | zero => exact ⟨by decide, _, rfl, rfl⟩
    | succ n ih =>
      obtain ⟨hf1, hf2, hf3⟩ := deepSum_facts (n + 1)
      obtain ⟨hg1, hg2, hg3⟩ := deepSum_facts n
      refine ⟨hf3, ?_⟩
      obtain ⟨l, hl, hyes, _⟩ := hmain NodeKind.BinaryExpression (Sample.deepSum (n + 1))
        ["+"] (by decide) hf1 hf3
      have hleft : (Sample.deepSum (n + 1)).ptrField "left" =
          some (some (Sample.deepSum n)) := rfl
      rw [hleft] at hl
      cases hl
      obtain ⟨vl, hvl, hve⟩ := hyes ⟨hg1, "+", hg2, by simp⟩
      obtain ⟨_, v, hv, hlen⟩ := ih
      rw [hvl] at hv
      cases hv
      exact ⟨vl ++ [Sample.deepSum (n + 1)], hve, by simp [hlen]⟩
  refine ⟨?_, hdeep, ?_⟩
  · intro N e ops hN hk hwf
    obtain ⟨chain, hsp, hv⟩ := linearizeLeft_eq_spine N e ops hN hk hwf
    refine ⟨⟨_, hv⟩, ?_, hmain N e ops hN hk hwf, ⟨chain, _, hsp, hv, by simp; omega⟩⟩
    intro depth hd
    obtain ⟨chain2, hsp2, hfl⟩ := flattenLeftNaive_spec N ops hN depth e hd hwf hk
    rw [hv, hfl, isSpine_unique N ops "left" chain2 chain e hsp2 hsp]
  · obtain ⟨_, v, hv, hlen⟩ := hdeep (MAX_NESTED_BINARY + 1)
    exact ⟨v, hv, hlen⟩

theorem linearizeLeft_eq_naive_witness :
    (linearizeLeft NodeKind.BinaryExpression Sample.sumOuter ["+", "-"] =
      flattenLeftNaive NodeKind.BinaryExpression ["+", "-"] Sample.sumOuter.size
        Sample.sumOuter) ∧
    flattenLeftNaive NodeKind.BinaryExpression ["+", "-"] Sample.sumOuter.size
      Sample.sumOuter = some [Sample.sumInner, Sample.sumMiddle, Sample.sumOuter] ∧
    linearizeLeft NodeKind.BinaryExpression (Sample.deepSum 2) ["+"] =
      some [Sample.deepSum 0, Sample.deepSum 1, Sample.deepSum 2] :=
  ⟨(linearizeLeft_eq_naive.1 NodeKind.BinaryExpression Sample.sumOuter ["+", "-"] (by decide)
      rfl (by decide)).2.1 Sample.sumOuter.size (Nat.le_refl _),
   rfl, rfl⟩


/-! ## Parameter expressions and simple parameters -/

/-- When the loop of `hasParamExpressions` returns true, the loop of `hasSimpleParams`, if it
returns, returns false. -/
theorem paramLoops_exclusive :
    ∀ (params : NodeList) (b : Bool), hasParamExpressionsLoop params = some true →
      hasSimpleParamsLoop params = some b → b = false := by
  intro params
  induction params with
  | nil =>
    intro b hpe _
    simp [hasParamExpressionsLoop] at hpe
  | cons p rest ih =>
    intro b hpe hs
    by_cases hpat : PatternNode.classof p.getKind = true
    · simp only [hasSimpleParamsLoop, hpat, if_true, Option.some.injEq] at hs
      exact hs.symm
    · have hpat2 : PatternNode.classof p.getKind = false := by simpa using hpat
      have hap : (p.getKind == NodeKind.AssignmentPattern) = false := by
        by_contra hne
        have heq : p.getKind = NodeKind.AssignmentPattern := by simpa using hne
        exact hpat ((pattern_classof_iff _).mpr (by simp [heq]))
      simp only [hasSimpleParamsLoop, hpat2, Bool.false_eq_true, if_false] at hs
      simp only [hasParamExpressionsLoop, classofKind, hap, Bool.false_eq_true,
        if_false] at hpe
      by_cases hcp : p.getKind = NodeKind.ComponentParameter
      · simp only [classofKind, hcp, beq_self_eq_true, if_true, cast, Option.some_bind] at hs hpe
        cases hloc : p.ptrField "local" with
        | none => simp [hloc] at hpe
        | some loc =>
          cases loc with
          | none => simp [hloc, isa] at hpe
          | some l =>
            simp only [hloc, isa] at hs hpe
            by_cases hl : l.getKind = NodeKind.AssignmentPattern
            · simp [classofKind, hl] at hpe
            · have hl2 : (l.getKind == NodeKind.AssignmentPattern) = false := by simpa using hl
              simp only [classofKind, hl2] at hpe
              cases hlp : PatternNode.classof l.getKind with
              | true =>
                simp only [hlp, Option.some.injEq] at hs
                exact hs.symm
              | false =>
                simp only [hlp] at hs
                exact ih b hpe hs
      · have hcp2 : (p.getKind == NodeKind.ComponentParameter) = false := by simpa using hcp
        simp only [classofKind, hcp2, Bool.false_eq_true, if_false] at hs hpe
        exact ih b hpe hs

/-- C35: for every function-like node on which both predicates return normally,
`hasParamExpressions` true implies `hasSimpleParams` false; an `AssignmentPattern` lies
inside the `Pattern` kind range. On well-formed function-like nodes both return, so there
`hasParamExpressions` true gives `hasSimpleParams` false outright. -/
theorem paramExpressions_not_simple :
    PatternNode.classof NodeKind.AssignmentPattern = true ∧
    (∀ (fn : Node) (b : Bool), hasParamExpressions fn = some true →
      hasSimpleParams fn = some b → b = false) ∧
    (∀ fn : Node, fn.wf = true → FunctionLikeNode.classof fn.getKind = true →
      (∃ b1 b2, hasParamExpressions fn = some b1 ∧ hasSimpleParams fn = some b2) ∧
      (hasParamExpressions fn = some true → hasSimpleParams fn = some false)) := by
  have h2 : ∀ (fn : Node) (b : Bool), hasParamExpressions fn = some true →
      hasSimpleParams fn = some b → b = false := by
    intro fn b hpe hs
    unfold hasParamExpressions at hpe
    unfold hasSimpleParams at hs
    cases hp : getParams fn with
    | none => simp [hp] at hpe
    | some params =>
      simp only [hp, Option.some_bind] at hpe hs
      exact paramLoops_exclusive params b hpe hs
  refine ⟨(pattern_classof_iff _).mpr (by simp), h2, ?_⟩
  intro fn hwf hfl
  obtain ⟨params, hp, hw⟩ := getParams_wf fn hwf hfl
  obtain ⟨b2, hb2, _⟩ := hasSimpleParamsLoop_spec params hw
  have hs : hasSimpleParams fn = some b2 := by simp [hasSimpleParams, hp, hb2]
  have hpe : hasParamExpressions fn = some (hasParamExpressionsScan params) := by
    simp [hasParamExpressions, hp, hasParamExpressionsLoop_scan params hw]
  refine ⟨⟨_, b2, hpe, hs⟩, ?_⟩
  intro htrue
  rw [hs, h2 fn b2 htrue hs]

theorem paramExpressions_not_simple_witness :
    hasParamExpressions (Sample.functionExpression
      [Sample.ident "a", Sample.assignmentPattern (Sample.ident "b") (Sample.ident "y")]
      (Sample.block [])) = some true ∧
    hasSimpleParams (Sample.functionExpression
      [Sample.ident "a", Sample.assignmentPattern (Sample.ident "b") (Sample.ident "y")]
      (Sample.block [])) = some false :=
  ⟨by decide,
   (paramExpressions_not_simple.2.2 _ (by decide) (by decide)).2 (by decide)⟩


/-! ## The family of category ranges -/

theorem other_bounds :
    sentinelFirst "Statement" = some 10 ∧ sentinelLast "Statement" = some 31 ∧
    sentinelFirst "JSX" = some 97 ∧ sentinelLast "JSX" = some 114 ∧
    sentinelFirst "Flow" = some 115 ∧ sentinelLast "Flow" = some 203 ∧
    sentinelFirst "TS" = some 204 ∧ sentinelLast "TS" = some 251 ∧
    sentinelFirst "Cover" = some 252 ∧ sentinelLast "Cover" = some 258 := by
  decide!

/-- The range of each category, as ordinals. -/
theorem category_range (C : String) (hC : C ∈ categories) :
    ∃ f l : Nat, (∀ k : NodeKind, categoryClassof C k = true ↔ f < k ∧ k < l) ∧
      ((C = "FunctionLike" ∧ f = 2 ∧ l = 9) ∨ (C = "Statement" ∧ f = 10 ∧ l = 31) ∨
        (C = "LoopStatement" ∧ f = 11 ∧ l = 17) ∨
        (C = "CallExpressionLike" ∧ f = 48 ∧ l = 51) ∨
        (C = "MemberExpressionLike" ∧ f = 55 ∧ l = 58) ∨ (C = "Pattern" ∧ f = 91 ∧ l = 96) ∨
        (C = "JSX" ∧ f = 97 ∧ l = 114) ∨ (C = "Flow" ∧ f = 115 ∧ l = 203) ∨
        (C = "TS" ∧ f = 204 ∧ l = 251) ∨ (C = "Cover" ∧ f = 252 ∧ l = 258)) := by
  obtain ⟨s1, s2, j1, j2, f1, f2, t1, t2, c1, c2⟩ := other_bounds
  have key : ∀ (f l : Nat), sentinelFirst C = some f → sentinelLast C = some l →
      ∀ k : NodeKind, categoryClassof C k = true ↔ f < k ∧ k < l := by
    intro f l hf hl k
    simp [categoryClassof, hf, hl]
  rw [categories_eq] at hC
  simp only [List.mem_cons, List.mem_singleton, List.not_mem_nil, or_false] at hC
  rcases hC with rfl | rfl | rfl | rfl | rfl | rfl | rfl | rfl | rfl | rfl
  · exact ⟨2, 9, key 2 9 functionLike_bounds.1 functionLike_bounds.2, by simp⟩
  · exact ⟨10, 31, key 10 31 s1 s2, by simp⟩
  · exact ⟨11, 17, key 11 17 loop_bounds.1 loop_bounds.2, by simp⟩
  · exact ⟨48, 51, key 48 51 callLike_bounds.1 callLike_bounds.2, by simp⟩
  · exact ⟨55, 58, key 55 58 memberLike_bounds.1 memberLike_bounds.2, by simp⟩
  · exact ⟨91, 96, key 91 96 pattern_bounds.1 pattern_bounds.2, by simp⟩
  · exact ⟨97, 114, key 97 114 j1 j2, by simp⟩
  · exact ⟨115, 203, key 115 203 f1 f2, by simp⟩
  · exact ⟨204, 251, key 204 251 t1 t2, by simp⟩
  · exact ⟨252, 258, key 252 258 c1 c2, by simp⟩

/-- Two different categories have disjoint ranges, unless they are `LoopStatement` and
`Statement`, the first lying inside the second. -/
theorem category_pair (A B : String) (hA : A ∈ categories) (hB : B ∈ categories)
    (hne : A ≠ B) :
    (∀ k : NodeKind, ¬ (categoryClassof A k = true ∧ categoryClassof B k = true)) ∨
    (A = "LoopStatement" ∧ B = "Statement" ∧
      ∀ k : NodeKind, categoryClassof A k = true → categoryClassof B k = true) ∨
    (A = "Statement" ∧ B = "LoopStatement" ∧
      ∀ k : NodeKind, categoryClassof B k = true → categoryClassof A k = true) := by
  obtain ⟨fA, lA, hAk, hA2⟩ := category_range A hA
  obtain ⟨fB, lB, hBk, hB2⟩ := category_range B hB
  have hnum : (lA ≤ fB + 1 ∨ lB ≤ fA + 1) ∨
      (A = "LoopStatement" ∧ B = "Statement" ∧ fB ≤ fA ∧ lA ≤ lB) ∨
      (A = "Statement" ∧ B = "LoopStatement" ∧ fA ≤ fB ∧ lB ≤ lA) := by
    rcases hA2 with ⟨ha, rfl, rfl⟩ | ⟨ha, rfl, rfl⟩ | ⟨ha, rfl, rfl⟩ | ⟨ha, rfl, rfl⟩ |
      ⟨ha, rfl, rfl⟩ | ⟨ha, rfl, rfl⟩ | ⟨ha, rfl, rfl⟩ | ⟨ha, rfl, rfl⟩ | ⟨ha, rfl, rfl⟩ |
      ⟨ha, rfl, rfl⟩ <;>
    rcases hB2 with ⟨hb, rfl, rfl⟩ | ⟨hb, rfl, rfl⟩ | ⟨hb, rfl, rfl⟩ | ⟨hb, rfl, rfl⟩ |
      ⟨hb, rfl, rfl⟩ | ⟨hb, rfl, rfl⟩ | ⟨hb, rfl, rfl⟩ | ⟨hb, rfl, rfl⟩ | ⟨hb, rfl, rfl⟩ |
      ⟨hb, rfl, rfl⟩ <;>
    first
      | exact absurd (ha.trans hb.symm) hne
      | exact Or.inl (by omega)
      | exact Or.inr (Or.inl ⟨ha, hb, by omega, by omega⟩)
      | exact Or.inr (Or.inr ⟨ha, hb, by omega, by omega⟩)
  rcases hnum with h | ⟨h1, h2, h3, h4⟩ | ⟨h1, h2, h3, h4⟩
  · left
    intro k hk
    rw [hAk, hBk] at hk
    have aux : ∀ n : Nat, ¬ ((fA < n ∧ n < lA) ∧ (fB < n ∧ n < lB)) := by
      intro n
      omega
    exact aux k hk
  · right
    left
    refine ⟨h1, h2, ?_⟩
    intro k hk
    rw [hAk] at hk
    rw [hBk]
    have aux : ∀ n : Nat, (fA < n ∧ n < lA) → (fB < n ∧ n < lB) := by
      intro n
      omega
    exact aux k hk
  · right
    right
    refine ⟨h1, h2, ?_⟩
    intro k hk
    rw [hBk] at hk
    rw [hAk]
    have aux : ∀ n : Nat, (fB < n ∧ n < lB) → (fA < n ∧ n < lA) := by
      intro n
      omega
    exact aux k hk

/-- C36: the category ranges form a laminar family. Any two of the ten categories are
disjoint or nested, and the only nesting is `LoopStatement` inside `Statement`; so no kind
belongs to two of `FunctionLike`, `Statement`, `CallExpressionLike`, `MemberExpressionLike`,
`Pattern`, `JSX`, `Flow`, `TS` and `Cover`. For instance `FunctionDeclaration` is
`FunctionLike` and not a `Statement`, and `WhileStatement` is both a `LoopStatement` and a
`Statement`. -/
theorem categories_laminar :
    (∀ A B : String, A ∈ categories → B ∈ categories → A ≠ B →
      (∀ k : NodeKind, ¬ (categoryClassof A k = true ∧ categoryClassof B k = true)) ∨
      (A = "LoopStatement" ∧ B = "Statement" ∧
        ∀ k : NodeKind, categoryClassof A k = true → categoryClassof B k = true) ∨
      (A = "Statement" ∧ B = "LoopStatement" ∧
        ∀ k : NodeKind, categoryClassof B k = true → categoryClassof A k = true)) ∧
    (∀ A B : String,
      A ∈ ["FunctionLike", "Statement", "CallExpressionLike", "MemberExpressionLike",
        "Pattern", "JSX", "Flow", "TS", "Cover"] →
      B ∈ ["FunctionLike", "Statement", "CallExpressionLike", "MemberExpressionLike",
        "Pattern", "JSX", "Flow", "TS", "Cover"] →
      A ≠ B → ∀ k : NodeKind, ¬ (categoryClassof A k = true ∧ categoryClassof B k = true)) ∧
    (FunctionLikeNode.classof NodeKind.FunctionDeclaration = true ∧
      StatementNode.classof NodeKind.FunctionDeclaration = false) ∧
    (LoopStatementNode.classof NodeKind.WhileStatement = true ∧
      StatementNode.classof NodeKind.WhileStatement = true) := by
  refine ⟨category_pair, ?_, ⟨by decide, by decide⟩, ⟨by decide, by decide⟩⟩
  intro A B hA hB hne
  have hsub : ∀ C : String,
      C ∈ ["FunctionLike", "Statement", "CallExpressionLike", "MemberExpressionLike",
        "Pattern", "JSX", "Flow", "TS", "Cover"] → C ∈ categories ∧ C ≠ "LoopStatement" := by
    intro C hC
    rw [categories_eq]
    simp only [List.mem_cons, List.mem_singleton, List.not_mem_nil, or_false] at hC ⊢
    rcases hC with rfl | rfl | rfl | rfl | rfl | rfl | rfl | rfl | rfl <;> simp
  rcases category_pair A B (hsub A hA).1 (hsub B hB).1 hne with h | ⟨h, _⟩ | ⟨_, h, _⟩
  · exact h
  · exact absurd h (hsub A hA).2
  · exact absurd h (hsub B hB).2

theorem categories_laminar_witness :
    (∀ k : NodeKind, ¬ (categoryClassof "FunctionLike" k = true ∧
      categoryClassof "Statement" k = true)) ∧
    (∀ k : NodeKind, categoryClassof "LoopStatement" k = true →
      categoryClassof "Statement" k = true) :=
  ⟨categories_laminar.2.1 "FunctionLike" "Statement" (by decide) (by decide) (by decide),
   (categories_laminar.1 "LoopStatement" "Statement" (by decide!) (by decide!)
      (by decide)).elim
     (fun h => absurd ⟨by decide, by decide⟩ (h NodeKind.WhileStatement))
     (fun h => h.elim (fun h2 => h2.2.2) (fun h3 => absurd h3.1 (by decide)))⟩


/-- At the position of every sentinel entry, no category predicate accepts the ordinal,
except `Statement` at the two sentinels of `LoopStatement`. -/
theorem sentinels_rejected_entries :
    allEntriesFrom (fun k e =>
      match e with
      | .node _ _ _ => true
      | _ => categories.all (fun C =>
          !categoryClassof C k || (C == "Statement" && (k == 11 || k == 17)))) 0 schema =
      true := by
  decide!

/-- A category predicate accepts only ordinals below the number of enumerators, and only for
a declared category. -/
theorem categoryClassof_true (C : String) (k : NodeKind) (h : categoryClassof C k = true) :
    C ∈ categories ∧ k < schema.length := by
  unfold categoryClassof at h
  cases hf : sentinelFirst C with
  | none => simp [hf] at h
  | some first =>
    cases hl : sentinelLast C with
    | none => simp [hf, hl] at h
    | some last =>
      simp only [hf, hl, Bool.and_eq_true, decide_eq_true_eq] at h
      obtain ⟨_, base, hs⟩ := sentinelFirst_entry C first hf
      refine ⟨?_, Nat.lt_trans h.2 (sentinelLast_entry C last hl).1⟩
      exact List.mem_filterMap.mpr ⟨Entry.first C base, List.getElem?_mem hs, rfl⟩

/-- C37: category predicates are total and accept no ordinal that is not a kind, except two.
Every predicate returns a boolean on every ordinal; it returns false for each ordinal beyond
the last declared one and for its own two sentinels; and the only ordinals that are not
concrete kinds and are accepted by a category predicate are `_LoopStatement_First` and
`_LoopStatement_Last`, which the `Statement` predicate accepts. -/
theorem classof_on_non_kinds :
    (∀ (C : String) (n : Node),
      isa (categoryClassof C) (some n) = some (categoryClassof C n.getKind)) ∧
    (∀ (C : String) (k : NodeKind), 258 < k → categoryClassof C k = false) ∧
    (∀ (C : String) (first last : NodeKind), sentinelFirst C = some first →
      sentinelLast C = some last →
      categoryClassof C first = false ∧ categoryClassof C last = false) ∧
    (∀ (C : String) (k : NodeKind), isConcrete k = false → categoryClassof C k = true →
      C = "Statement" ∧
        (k = NodeKind._LoopStatement_First ∨ k = NodeKind._LoopStatement_Last)) ∧
    (enumeratorAt NodeKind._LoopStatement_First = some "_LoopStatement_First" ∧
      enumeratorAt NodeKind._LoopStatement_Last = some "_LoopStatement_Last" ∧
      StatementNode.classof NodeKind._LoopStatement_First = true ∧
      StatementNode.classof NodeKind._LoopStatement_Last = true) := by
  refine ⟨fun _ _ => rfl, ?_, ?_, ?_, by decide⟩
  · intro C k hk
    by_contra hne
    have h := (categoryClassof_true C k (by simpa using hne)).2
    rw [schema_length] at h
    exact absurd hk (Nat.not_lt.mpr (Nat.le_of_lt_succ h))
  · intro C first last hf hl
    simp [categoryClassof, hf, hl]
  · intro C k hk h
    obtain ⟨hC, hlt⟩ := categoryClassof_true C k h
    cases hs : schema[k]? with
    | none =>
      rw [List.getElem?_eq_none_iff] at hs
      exact absurd hlt (Nat.not_lt.mpr hs)
    | some e =>
      have hchk := allEntriesFrom_getElem _ schema 0 k e sentinels_rejected_entries hs
      cases e with
      | node n b a => simp [isConcrete, hs] at hk
      | first n b =>
        simp only [Nat.zero_add, List.all_eq_true, Bool.or_eq_true, Bool.not_eq_true',
          Bool.and_eq_true, beq_iff_eq] at hchk
        rcases hchk C hC with h2 | h2
        · rw [h] at h2
          cases h2
        · exact h2
      | last n =>
        simp only [Nat.zero_add, List.all_eq_true, Bool.or_eq_true, Bool.not_eq_true',
          Bool.and_eq_true, beq_iff_eq] at hchk
        rcases hchk C hC with h2 | h2
        · rw [h] at h2
          cases h2
        · exact h2

theorem classof_on_non_kinds_witness :
    categoryClassof "Flow" 259 = false ∧
    (categoryClassof "Pattern" NodeKind._Pattern_First = false ∧
      categoryClassof "Pattern" NodeKind._Pattern_Last = false) ∧
    (∀ C : String, categoryClassof C NodeKind._LoopStatement_Last = true →
      C = "Statement") ∧
    (∀ C : String, categoryClassof C NodeKind._JSX_First = false) :=
  ⟨classof_on_non_kinds.2.1 "Flow" 259 (by decide),
   classof_on_non_kinds.2.2.1 "Pattern" _ _ (by decide) (by decide),
   fun C h => (classof_on_non_kinds.2.2.2.1 C NodeKind._LoopStatement_Last (by decide) h).1,
   fun C => by
     cases h : categoryClassof C NodeKind._JSX_First with
     | false => rfl
     | true =>
       exact absurd (classof_on_non_kinds.2.2.2.1 C NodeKind._JSX_First (by decide) h).2
         (by decide)⟩


/-! ## The traversal under a pruning predicate -/

theorem queries_append (a b : List Event) : queries (a ++ b) = queries a ++ queries b := by
  induction a with
  | nil => rfl
  | cons e a ih =>
    cases e <;> simp [queries, ih]

/-- The node reached through accepted ancestors is the root itself, or lies below a child of
an accepted root. -/
theorem descends_iff (p : Node → Bool) (n m : Node) :
    Descends p n m ↔ m = n ∨ (p n = true ∧ ∃ c ∈ children n, Descends p c m) := by
  constructor
  · intro h
    cases h with
    | here => exact Or.inl rfl
    | step _ c _ hp hc hd => exact Or.inr ⟨hp, c, hc, hd⟩
  · rintro (rfl | ⟨hp, c, hc, hd⟩)
    · exact Descends.here _
    · exact Descends.step n c m hp hc hd

mutual
theorem visitNode_traceOf {σ : Type} (V : Visitor σ) (p : Node → Bool)
    (hsv : ∀ s n, (V.shouldVisit s n).1 = p n) :
    ∀ (n : Node) (s : σ) (log : List Event),
      (∀ m ∈ preorder n, isConcrete m.getKind = true) →
      ∃ s2, visitNode (instrument V) (s, log) n = Outcome.done (s2, log ++ traceOf p n)
  | .mk b d dummy args, s, log, h => by
    have hc : isConcrete b.kind_ = true := by
      have := h (.mk b d dummy args) (by simp [preorder])
      simpa [Node.getKind, Node.base] using this
    have hargs : ∀ m ∈ preorderArgs args, isConcrete m.getKind = true :=
      fun m hm => h m (by simp [preorder, hm])
    cases hp : p (.mk b d dummy args) with
    | true =>
      have hsv2 : (V.shouldVisit s (.mk b d dummy args)).1 = true := by rw [hsv, hp]
      obtain ⟨s2, h2⟩ := visitArgs_traceOf V p hsv args
        (V.enter (V.shouldVisit s (.mk b d dummy args)).2 (.mk b d dummy args))
        (log ++ [Event.shouldVisit (.mk b d dummy args) true] ++
          [Event.enter (.mk b d dummy args)]) hargs
      refine ⟨V.leave s2 (.mk b d dummy args), ?_⟩
      simp only [visitNode, hc, if_true, instrument_shouldVisit_fst, hsv2,
        instrument_shouldVisit_snd, instrument_enter, h2, instrument_leave, traceOf, hp]
      simp
    | false =>
      have hsv2 : (V.shouldVisit s (.mk b d dummy args)).1 = false := by rw [hsv, hp]
      refine ⟨(V.shouldVisit s (.mk b d dummy args)).2, ?_⟩
      simp only [visitNode, hc, if_true, instrument_shouldVisit_fst, hsv2,
        instrument_shouldVisit_snd, Bool.false_eq_true, if_false, traceOf, hp]
theorem visitArgs_traceOf {σ : Type} (V : Visitor σ) (p : Node → Bool)
    (hsv : ∀ s n, (V.shouldVisit s n).1 = p n) :
    ∀ (args : List FieldVal) (s : σ) (log : List Event),
      (∀ m ∈ preorderArgs args, isConcrete m.getKind = true) →
      ∃ s2, visitArgs (instrument V) (s, log) args = Outcome.done (s2, log ++ traceArgs p args)
  | [], s, log, _ => ⟨s, by simp [visitArgs, traceArgs]⟩
  | v :: vs, s, log, h => by
    obtain ⟨s1, h1⟩ := visitArg_traceOf V p hsv v s log
      (fun m hm => h m (by simp [preorderArgs, hm]))
    obtain ⟨s2, h2⟩ := visitArgs_traceOf V p hsv vs s1 (log ++ traceArg p v)
      (fun m hm => h m (by simp [preorderArgs, hm]))
    exact ⟨s2, by simp [visitArgs, h1, h2, traceArgs]⟩
theorem visitArg_traceOf {σ : Type} (V : Visitor σ) (p : Node → Bool)
    (hsv : ∀ s n, (V.shouldVisit s n).1 = p n) :
    ∀ (v : FieldVal) (s : σ) (log : List Event),
      (∀ m ∈ preorderArg v, isConcrete m.getKind = true) →
      ∃ s2, visitArg (instrument V) (s, log) v = Outcome.done (s2, log ++ traceArg p v)
  | .ptr none, s, log, _ => ⟨s, by simp [visitArg, traceArg]⟩
  | .ptr (some n), s, log, h => by
    obtain ⟨s2, h2⟩ := visitNode_traceOf V p hsv n s log
      (fun m hm => h m (by simp [preorderArg, hm]))
    exact ⟨s2, by simp [visitArg, h2, traceArg]⟩
  | .list l, s, log, h => by
    obtain ⟨s2, h2⟩ := visitList_traceOf V p hsv l s log
      (fun m hm => h m (by simp [preorderArg, hm]))
    exact ⟨s2, by simp [visitArg, h2, traceArg]⟩
  | .str _, s, log, _ => ⟨s, by simp [visitArg, traceArg]⟩
  | .boolean _, s, log, _ => ⟨s, by simp [visitArg, traceArg]⟩
  | .number _, s, log, _ => ⟨s, by simp [visitArg, traceArg]⟩
theorem visitList_traceOf {σ : Type} (V : Visitor σ) (p : Node → Bool)
    (hsv : ∀ s n, (V.shouldVisit s n).1 = p n) :
    ∀ (l : List Node) (s : σ) (log : List Event),
      (∀ m ∈ preorderList l, isConcrete m.getKind = true) →
      ∃ s2, visitList (instrument V) (s, log) l = Outcome.done (s2, log ++ traceList p l)
  | [], s, log, _ => ⟨s, by simp [visitList, traceList]⟩
  | n :: ns, s, log, h => by
    obtain ⟨s1, h1⟩ := visitNode_traceOf V p hsv n s log
      (fun m hm => h m (by simp [preorderList, hm]))
    obtain ⟨s2, h2⟩ := visitList_traceOf V p hsv ns s1 (log ++ traceOf p n)
      (fun m hm => h m (by simp [preorderList, hm]))
    exact ⟨s2, by simp [visitList, h1, h2, traceList]⟩
end

mutual
/-- The entered nodes are the queried nodes that the predicate accepts. -/
theorem enters_traceOf (p : Node → Bool) :
    ∀ n : Node, enters (traceOf p n) = (queries (traceOf p n)).filter p
  | .mk b d dummy args => by
    cases hp : p (.mk b d dummy args) with
    | true =>
      simp [traceOf, hp, enters, queries, enters_append, queries_append,
        enters_traceArgs p args]
    | false => simp [traceOf, hp, enters, queries]
theorem enters_traceArgs (p : Node → Bool) :
    ∀ args : List FieldVal, enters (traceArgs p args) = (queries (traceArgs p args)).filter p
  | [] => by simp [traceArgs, enters, queries]
  | v :: vs => by
    simp [traceArgs, enters_append, queries_append, enters_traceArg p v,
      enters_traceArgs p vs]
theorem enters_traceArg (p : Node → Bool) :
    ∀ v : FieldVal, enters (traceArg p v) = (queries (traceArg p v)).filter p
  | .ptr none => by simp [traceArg, enters, queries]
  | .ptr (some n) => by simpa [traceArg] using enters_traceOf p n
  | .list l => by simpa [traceArg] using enters_traceList p l
  | .str _ => by simp [traceArg, enters, queries]
  | .boolean _ => by simp [traceArg, enters, queries]
  | .number _ => by simp [traceArg, enters, queries]
theorem enters_traceList (p : Node → Bool) :
    ∀ l : List Node, enters (traceList p l) = (queries (traceList p l)).filter p
  | [] => by simp [traceList, enters, queries]
  | n :: ns => by
    simp [traceList, enters_append, queries_append, enters_traceOf p n,
      enters_traceList p ns]
end


mutual
/-- The queried nodes are those all of whose proper ancestors are accepted. -/
theorem queries_traceOf (p : Node → Bool) :
    ∀ (n m : Node), m ∈ queries (traceOf p n) ↔ Descends p n m
  | .mk b d dummy args, m => by
    rw [descends_iff]
    have ih := queries_traceArgs p args m
    cases hp : p (.mk b d dummy args) with
    | true =>
      simp only [traceOf, hp, if_true, queries, queries_append, List.append_nil,
        List.mem_cons, ih, children, Node.args, true_and]
    | false =>
      simp [traceOf, hp, queries]
theorem queries_traceArgs (p : Node → Bool) :
    ∀ (args : List FieldVal) (m : Node),
      m ∈ queries (traceArgs p args) ↔ ∃ c ∈ childrenOfArgs args, Descends p c m
  | [], m => by simp [traceArgs, queries, childrenOfArgs]
  | v :: vs, m => by
    have h1 := queries_traceArg p v m
    have h2 := queries_traceArgs p vs m
    simp only [traceArgs, queries_append, List.mem_append, h1, h2, childrenOfArgs]
    constructor
    · rintro (⟨c, hc, hd⟩ | ⟨c, hc, hd⟩)
      · exact ⟨c, Or.inl hc, hd⟩
      · exact ⟨c, Or.inr hc, hd⟩
    · rintro ⟨c, hc | hc, hd⟩
      · exact Or.inl ⟨c, hc, hd⟩
      · exact Or.inr ⟨c, hc, hd⟩
theorem queries_traceArg (p : Node → Bool) :
    ∀ (v : FieldVal) (m : Node),
      m ∈ queries (traceArg p v) ↔ ∃ c ∈ childrenOfArg v, Descends p c m
  | .ptr none, m => by simp [traceArg, queries, childrenOfArg]
  | .ptr (some n), m => by
    have h := queries_traceOf p n m
    simp [traceArg, childrenOfArg, h]
  | .list l, m => by
    have h := queries_traceList p l m
    simp [traceArg, childrenOfArg, h]
  | .str _, m => by simp [traceArg, queries, childrenOfArg]
  | .boolean _, m => by simp [traceArg, queries, childrenOfArg]
  | .number _, m => by simp [traceArg, queries, childrenOfArg]
theorem queries_traceList (p : Node → Bool) :
    ∀ (l : List Node) (m : Node),
      m ∈ queries (traceList p l) ↔ ∃ c ∈ l, Descends p c m
  | [], m => by simp [traceList, queries]
  | n :: ns, m => by
    have h1 := queries_traceOf p n m
    have h2 := queries_traceList p ns m
    simp [traceList, queries_append, h1, h2]
end

mutual
/-- Every tree position is queried at most once, in pre-order. -/
theorem queries_sublist (p : Node → Bool) :
    ∀ n : Node, (queries (traceOf p n)).Sublist (preorder n)
  | .mk b d dummy args => by
    have ih := queries_sublist_args p args
    cases hp : p (.mk b d dummy args) with
    | true =>
      simp only [traceOf, hp, if_true, queries, queries_append, List.append_nil, preorder]
      exact List.Sublist.cons₂ _ ih
    | false =>
      simp only [traceOf, hp, Bool.false_eq_true, if_false, queries, preorder]
      exact List.Sublist.cons₂ _ (List.nil_sublist _)
theorem queries_sublist_args (p : Node → Bool) :
    ∀ args : List FieldVal, (queries (traceArgs p args)).Sublist (preorderArgs args)
  | [] => by simp [traceArgs, queries, preorderArgs]
  | v :: vs => by
    simp only [traceArgs, queries_append, preorderArgs]
    exact List.Sublist.append (queries_sublist_arg p v) (queries_sublist_args p vs)
theorem queries_sublist_arg (p : Node → Bool) :
    ∀ v : FieldVal, (queries (traceArg p v)).Sublist (preorderArg v)
  | .ptr none => by simp [traceArg, queries, preorderArg]
  | .ptr (some n) => by simpa [traceArg, preorderArg] using queries_sublist p n
  | .list l => by simpa [traceArg, preorderArg] using queries_sublist_list p l
  | .str _ => by simp [traceArg, queries, preorderArg]
  | .boolean _ => by simp [traceArg, queries, preorderArg]
  | .number _ => by simp [traceArg, queries, preorderArg]
theorem queries_sublist_list (p : Node → Bool) :
    ∀ l : List Node, (queries (traceList p l)).Sublist (preorderList l)
  | [] => by simp [traceList, queries, preorderList]
  | n :: ns => by
    simp only [traceList, queries_append, preorderList]
    exact List.Sublist.append (queries_sublist p n) (queries_sublist_list p ns)
end

/-- C32: under pruning the traversal visits exactly the unpruned part of the tree. For every
tree of concrete kinds and every visitor whose `shouldVisit` answers by a predicate `p`, the
traversal returns and its trace is the expected one. `shouldVisit` is queried on a node
exactly when all proper ancestors of the node, up to the root, are accepted, whatever the
answers for its earlier siblings were, and `enter` is invoked on a node exactly when, in
addition, the node itself is accepted. Queried and entered nodes follow the pre-order listing
of the tree, each tree position at most once, so when the nodes of the tree are pairwise
distinct no node is queried or entered twice. -/
theorem pruned_traversal_exact :
    ∀ (σ : Type) (V : Visitor σ) (p : Node → Bool) (s : σ) (root : Node),
      (∀ s n, (V.shouldVisit s n).1 = p n) →
      (∀ m ∈ preorder root, isConcrete m.getKind = true) →
      ∃ s2 log, ESTreeVisit (instrument V) (s, []) (some root) = Outcome.done (s2, log) ∧
        log = traceOf p root ∧
        (∀ m, m ∈ queries log ↔ Descends p root m) ∧
        (∀ m, m ∈ enters log ↔ Descends p root m ∧ p m = true) ∧
        (queries log).Sublist (preorder root) ∧
        (enters log).Sublist (queries log) ∧
        ((preorder root).Nodup → (queries log).Nodup ∧ (enters log).Nodup) := by
  intro σ V p s root hsv hall
  obtain ⟨s2, h2⟩ := visitNode_traceOf V p hsv root s [] hall
  have hq := queries_sublist p root
  have he : (enters (traceOf p root)).Sublist (queries (traceOf p root)) := by
    rw [enters_traceOf]
    exact List.filter_sublist _
  refine ⟨s2, traceOf p root, by simpa [ESTreeVisit] using h2, rfl, ?_, ?_, hq, he, ?_⟩
  · intro m
    exact queries_traceOf p root m
  · intro m
    rw [enters_traceOf, List.mem_filter, queries_traceOf]
  · intro hnd
    exact ⟨hq.nodup hnd, (he.trans hq).nodup hnd⟩

theorem pruned_traversal_exact_witness :
    (∃ s2 log, ESTreeVisit (instrument Sample.skipBlocks) ((), [])
        (some Sample.ifStatement) = Outcome.done (s2, log) ∧
      log = traceOf (fun n => n.getKind != NodeKind.BlockStatement) Sample.ifStatement ∧
      (∀ m, m ∈ queries log ↔
        Descends (fun n => n.getKind != NodeKind.BlockStatement) Sample.ifStatement m) ∧
      (∀ m, m ∈ enters log ↔
        Descends (fun n => n.getKind != NodeKind.BlockStatement) Sample.ifStatement m ∧
          (fun n => n.getKind != NodeKind.BlockStatement) m = true) ∧
      (queries log).Sublist (preorder Sample.ifStatement) ∧
      (enters log).Sublist (queries log) ∧
      ((preorder Sample.ifStatement).Nodup → (queries log).Nodup ∧ (enters log).Nodup)) ∧
    queries (ESTreeVisit (instrument Sample.skipBlocks) ((), [])
        (some Sample.ifStatement)).state.2 =
      [Sample.ifStatement, Sample.ident "t", Sample.ifBlock] ∧
    enters (ESTreeVisit (instrument Sample.skipBlocks) ((), [])
        (some Sample.ifStatement)).state.2 =
      [Sample.ifStatement, Sample.ident "t"] ∧
    queries (ESTreeVisit
        (instrument (predicateVisitor (fun n => n.getKind != NodeKind.Identifier))) ((), [])
        (some Sample.ifStatement)).state.2 =
      [Sample.ifStatement, Sample.ident "t", Sample.ifBlock,
        Node.create NodeKind.ReturnStatement [.ptr (some (Sample.ident "r"))],
        Sample.ident "r"] :=
  ⟨pruned_traversal_exact Unit Sample.skipBlocks
      (fun n => n.getKind != NodeKind.BlockStatement) () Sample.ifStatement
      (fun _ _ => rfl) (by decide),
   rfl, rfl, rfl⟩


end ESTree
